import Mathlib

/-!
The select command of zsv: column projection, row filtering and cell cleaning.

A shallow embedding of `app/select.c`, with the functions `looks_like_date`,
`guess_properties` and `prop_arg_value` of `app/prop.c` and the function
`csv_trim_whitespace` of `app/external/sqlite3/vtab_helper.c`.  Byte strings
are lists of natural numbers (one per `unsigned char`); a C string is the
list of its bytes before the terminating NUL.  A pointer that may be `NULL`
is an `Option`.  The session record `zsv_select_data` is passed explicitly;
every handler returns the updated record.
-/

set_option autoImplicit false

namespace Zsv

/-! ## Library routines that are not part of the sources -/

/-- Routines of `zsv/utils/string.h` and `zsv/utils/utf8.h` used by `select.c`.
Their code is not among the sources, so they are parameters of the embedding.

* `stricmp a b` is `zsv_stricmp(a, b)` on two (non-NULL) C strings;
* `strencode s c` is `zsv_strencode(s, len, c)`: the bytes that the call leaves
  in `s[0 .. len)` and the length it returns;
* `strtrim s` is `zsv_strtrim(s, &len)`: how many leading bytes the returned
  pointer skips, and the new length (the bytes are not written);
* `strwhite s flags` is `zsv_strwhite(s, len, flags)`: the bytes that the call
  leaves in `s[0 .. len)` and the length it returns. -/
structure zsv_lib where
  stricmp : List Nat → List Nat → Int
  strencode : List Nat → Nat → List Nat × Nat
  strtrim : List Nat → Nat × Nat
  strwhite : List Nat → Nat → List Nat × Nat

/-- The `memmem` of libc: offset of the first occurrence of `needle` in
`haystack`, `none` for a NULL result.  An empty needle is found at offset 0. -/
def memmem : List Nat → List Nat → Option Nat
  | [], needle => if needle.isEmpty then some 0 else none
  | h :: t, needle =>
    if needle.isPrefixOf (h :: t) then some 0 else (memmem t needle).map (· + 1)

/-- The `isspace` of the C locale. -/
def isspace (c : Nat) : Bool := c == 32 || (9 ≤ c && c ≤ 13)

/-- The `isdigit` of libc. -/
def isdigit (c : Nat) : Bool := 48 ≤ c && c ≤ 57

/-! ## `sscanf` with the three formats of `zsv_select_column_index_selection` -/

/-- Outcome of one `%u` conversion. -/
inductive scan_result where
  | input_failure
  | matching_failure
  | ok (value : Nat) (consumed : Nat)
  deriving DecidableEq, Repr

/-- Value of a run of decimal digits. -/
def digits_value (ds : List Nat) : Nat := ds.foldl (fun acc c => acc * 10 + (c - 48)) 0

/-- The value `%u` stores for an optional sign and a digit run with value `v`:
`strtoul` on a 64-bit `unsigned long` (saturating at `ULONG_MAX`, negating
modulo `2^64` after a minus sign), converted to a 32-bit `unsigned int`. -/
def u_stored (neg : Bool) (v : Nat) : Nat :=
  (if 2 ^ 64 ≤ v then 2 ^ 64 - 1 else if neg then (2 ^ 64 - v) % 2 ^ 64 else v) % 2 ^ 32

/-- One `%u` conversion of `sscanf` on the input `s`: white space is skipped,
then an optional sign and a non-empty run of digits are read.  End of input
before any character of the item is an input failure; anything else that is
not a number is a matching failure. -/
def scan_u (s : List Nat) : scan_result :=
  let ws := s.takeWhile isspace
  match s.dropWhile isspace with
  | [] => scan_result.input_failure
  | c :: r =>
    let signed := c == 43 || c == 45
    let body := if signed then r else c :: r
    let ds := body.takeWhile isdigit
    if ds.isEmpty then scan_result.matching_failure
    else scan_result.ok (u_stored (c == 45) (digits_value ds))
      (ws.length + (if signed then 1 else 0) + ds.length)

/-- What one `sscanf` call did: its return value converted to `unsigned`
(`EOF` becomes `2^32 - 1`) and the values it assigned (`none`: the variable
was not written). -/
structure sscanf_result where
  k : Nat
  i : Option Nat
  j : Option Nat
  n : Option Nat
  deriving DecidableEq, Repr

/-- The value of `EOF` after conversion to `unsigned int`. -/
def EOF_unsigned : Nat := 2 ^ 32 - 1

/-- Call `sscanf(arg, "%u-%u%n", &i, &j, &n)`. -/
def sscanf_u_dash_u_n (arg : List Nat) : sscanf_result :=
  match scan_u arg with
  | scan_result.input_failure => ⟨EOF_unsigned, none, none, none⟩
  | scan_result.matching_failure => ⟨0, none, none, none⟩
  | scan_result.ok i c1 =>
    match arg.drop c1 with
    | 45 :: rest =>
      match scan_u rest with
      | scan_result.ok j c2 => ⟨2, some i, some j, some (c1 + 1 + c2)⟩
      | _ => ⟨1, some i, none, none⟩
    | _ => ⟨1, some i, none, none⟩

/-- Call `sscanf(arg, "%u%n", &i, &n)`. -/
def sscanf_u_n (arg : List Nat) : sscanf_result :=
  match scan_u arg with
  | scan_result.input_failure => ⟨EOF_unsigned, none, none, none⟩
  | scan_result.matching_failure => ⟨0, none, none, none⟩
  | scan_result.ok i c1 => ⟨1, some i, none, some c1⟩

/-- Call `sscanf(arg, "%u-%n", &i, &n)`. -/
def sscanf_u_dash_n (arg : List Nat) : sscanf_result :=
  match scan_u arg with
  | scan_result.input_failure => ⟨EOF_unsigned, none, none, none⟩
  | scan_result.matching_failure => ⟨0, none, none, none⟩
  | scan_result.ok i c1 =>
    match arg.drop c1 with
    | 45 :: _ => ⟨1, some i, none, some (c1 + 1)⟩
    | _ => ⟨1, some i, none, none⟩

/-! ## Column index specifications -/

/-- The enum `zsv_select_column_index_selection_type`. -/
inductive zsv_select_column_index_selection_type where
  | none
  | single
  | range
  | lower_bounded
  deriving DecidableEq, Repr

/-- Return value and out-parameters of `zsv_select_column_index_selection`. -/
structure index_selection where
  type : zsv_select_column_index_selection_type
  lo : Nat
  hi : Nat
  deriving DecidableEq, Repr

/-- The function `zsv_select_column_index_selection(arg, &lo, &hi)`.  The locals
`i` and `j` are not initialised in the source; `i0` and `j0` are the values
they happen to hold on entry. -/
def zsv_select_column_index_selection (arg : List Nat) (i0 j0 : Nat) : index_selection :=
  let r1 := sscanf_u_dash_u_n arg
  let i := r1.i.getD i0
  let j := r1.j.getD j0
  let n := r1.n.getD 0
  if r1.k = 2 then
    if n = arg.length ∧ i > 0 ∧ j ≥ i then
      ⟨zsv_select_column_index_selection_type.range, i, j⟩
    else ⟨zsv_select_column_index_selection_type.none, i, j⟩
  else
    let r2 := sscanf_u_n arg
    let i := r2.i.getD i
    let n := r2.n.getD n
    if r2.k ≠ 0 ∧ n = arg.length then
      if i > 0 then ⟨zsv_select_column_index_selection_type.single, i, j⟩
      else ⟨zsv_select_column_index_selection_type.none, i, j⟩
    else
      let r3 := sscanf_u_dash_n arg
      let i := r3.i.getD i
      let n := r3.n.getD n
      if r3.k ≠ 0 ∧ n = arg.length then
        if i > 0 then ⟨zsv_select_column_index_selection_type.lower_bounded, i, 0⟩
        else ⟨zsv_select_column_index_selection_type.none, i, j⟩
      else ⟨zsv_select_column_index_selection_type.none, i, j⟩

/-! ## The session record -/

/-- A cell as `zsv_get_cell` returns it: the bytes at `str` (`len` of them) and
the quoted flag. -/
structure zsv_cell where
  str : List Nat
  quoted : Bool
  deriving DecidableEq, Repr

/-- The field `len` of `struct zsv_cell`. -/
def zsv_cell.len (c : zsv_cell) : Nat := c.str.length

/-- One call to the CSV writer. -/
inductive writer_call where
  | cell (first : Bool) (str : List Nat) (quoted : Bool)
  | cell_zu (first : Bool) (value : Nat)
  | cell_s (first : Bool) (str : Option (List Nat)) (quoted : Bool)
  deriving DecidableEq, Repr

/-- The struct `zsv_select_search_str` (one node of the linked list). -/
structure zsv_select_search_str where
  value : Option (List Nat)
  len : Nat
  deriving DecidableEq, Repr

/-- The row handler registered with the tokenizer. -/
inductive row_handler where
  | zsv_select_header_row
  | zsv_select_data_row
  deriving DecidableEq, Repr

/-- The struct `zsv_select_data`.  `out2in` holds the first `output_cols_count`
entries of the C array; `exclusions` the first `exclusion_count` entries;
`search_strings` is the linked list from its head; `csv_writer` is the
sequence of calls made to the writer so far; `row_handler` is the handler
currently registered with the tokenizer. -/
structure zsv_select_data where
  data_row_count : Nat
  max_columns : Nat
  file_row_count : Nat
  header_rows_processed : Nat
  col_argv : List (List Nat)
  out2in : List Nat
  distinct : Bool
  exclusions : List (List Nat)
  header_name_count : Nat
  header_names : List (Option (List Nat))
  malformed_utf8_replace : Option Nat
  embedded_lineend : Nat
  sample_pct : ℚ
  skip_rows : Nat
  sample_every_n : Nat
  header_depth : Nat
  data_rows_limit : Nat
  skip_data_rows : Nat
  search_strings : List zsv_select_search_str
  csv_writer : List writer_call
  whitspace_clean_flags : Nat
  use_header_indexes : Bool
  no_trim_whitespace : Bool
  cancelled : Bool
  skip_this_row : Bool
  verbose : Bool
  clean_white : Bool
  prepend_line_number : Bool
  any_clean : Bool
  row_handler : row_handler

/-- The field `output_cols_count`. -/
def zsv_select_data.output_cols_count (data : zsv_select_data) : Nat := data.out2in.length

/-- The field `col_argc`. -/
def zsv_select_data.col_argc (data : zsv_select_data) : Nat := data.col_argv.length

/-- The field `exclusion_count`. -/
def zsv_select_data.exclusion_count (data : zsv_select_data) : Nat := data.exclusions.length

/-! ## Column resolution -/

/-- The function `zsv_select_get_header_name`: `NULL` at and beyond `header_name_count`. -/
def zsv_select_get_header_name (data : zsv_select_data) (in_ix : Nat) : Option (List Nat) :=
  if in_ix < data.header_name_count then data.header_names.getD in_ix none else none

/-- The function `zsv_select_excluded_current_header_name`. -/
def zsv_select_excluded_current_header_name (lib : zsv_lib) (data : zsv_select_data)
    (in_ix : Nat) : Bool :=
  if data.exclusion_count ≠ 0 then
    match zsv_select_get_header_name data in_ix with
    | some header_name => data.exclusions.any (fun e => lib.stricmp header_name e == 0)
    | none => false
  else false

/-- The function `zsv_select_already_have_header`. -/
def zsv_select_already_have_header (lib : zsv_lib) (data : zsv_select_data) (in_ix : Nat) : Bool :=
  match zsv_select_get_header_name data in_ix with
  | some header_name =>
    data.out2in.any (fun prior =>
      match zsv_select_get_header_name data prior with
      | some prior_header_name => lib.stricmp header_name prior_header_name == 0
      | none => false)
  | none => false

/-- The function `zsv_select_add_output_col`. -/
def zsv_select_add_output_col (lib : zsv_lib) (data : zsv_select_data) (in_ix : Nat) :
    zsv_select_data :=
  if data.output_cols_count < data.max_columns then
    if data.distinct && zsv_select_already_have_header lib data in_ix then data
    else if zsv_select_excluded_current_header_name lib data in_ix then data
    else { data with out2in := data.out2in ++ [in_ix] }
  else data

/-- The loop of `str_array_ifind` from index `i` with `n` iterations left.
`none`: `zsv_stricmp` was handed a `NULL` entry of the haystack, which the
source does not guard against. -/
def str_array_ifind_loop (lib : zsv_lib) (needle : List Nat) (haystack : List (Option (List Nat))) :
    Nat → Nat → Option Nat
  | 0, _ => some 0
  | n + 1, i =>
    match haystack.getD i none with
    | none => none
    | some h =>
      if lib.stricmp needle h = 0 then some (i + 1)
      else str_array_ifind_loop lib needle haystack n (i + 1)

/-- The function `str_array_ifind`: 1-based position of the first match, 0 when there is none. -/
def str_array_ifind (lib : zsv_lib) (needle : List Nat) (haystack : List (Option (List Nat)))
    (hay_count : Nat) : Option Nat :=
  str_array_ifind_loop lib needle haystack hay_count 0

/-- The loop `while(i <= j && i < max_columns) { add(i-1); i++; }` of the range
case.  Every iteration needs `i < max_columns` and increases `i`, so
`max_columns` units of fuel are never used up. -/
def range_loop (lib : zsv_lib) (j : Nat) : Nat → Nat → zsv_select_data → zsv_select_data
  | 0, _, data => data
  | fuel + 1, i, data =>
    if i ≤ j ∧ i < data.max_columns then
      range_loop lib j fuel (i + 1) (zsv_select_add_output_col lib data (i - 1))
    else data

/-- The body of the index-mode loop of `zsv_select_set_output_columns` for one argument. -/
def set_output_columns_index_arg (lib : zsv_lib) (sel : index_selection)
    (r : Int × zsv_select_data) : Int × zsv_select_data :=
  match sel.type with
  | zsv_select_column_index_selection_type.none => (-1, r.2)
  | zsv_select_column_index_selection_type.single =>
    (r.1, zsv_select_add_output_col lib r.2 (sel.lo - 1))
  | zsv_select_column_index_selection_type.range =>
    (r.1, range_loop lib sel.hi r.2.max_columns sel.lo r.2)
  | zsv_select_column_index_selection_type.lower_bounded =>
    if sel.lo ≠ 0 then
      (r.1, (List.range' (sel.lo - 1) (r.2.header_name_count - (sel.lo - 1))).foldl
        (zsv_select_add_output_col lib) r.2)
    else r

/-- The index-mode loop of `zsv_select_set_output_columns` over the remaining
arguments; `arg_i` is the index of the first of them and `junk arg_i` the
values the uninitialised locals of the parser hold in that call. -/
def set_output_columns_indexes (lib : zsv_lib) (junk : Nat → Nat × Nat) :
    List (List Nat) → Nat → Int × zsv_select_data → Int × zsv_select_data
  | [], _, r => r
  | arg :: rest, arg_i, r =>
    set_output_columns_indexes lib junk rest (arg_i + 1)
      (set_output_columns_index_arg lib
        (zsv_select_column_index_selection arg (junk arg_i).1 (junk arg_i).2) r)

/-- The name-mode loop of `zsv_select_set_output_columns` over the remaining arguments. -/
def set_output_columns_names (lib : zsv_lib) :
    List (List Nat) → Int × zsv_select_data → Option (Int × zsv_select_data)
  | [], r => some r
  | arg :: rest, r =>
    match str_array_ifind lib arg r.2.header_names r.2.header_name_count with
    | none => none
    | some in_pos =>
      if in_pos = 0 then set_output_columns_names lib rest (-1, r.2)
      else set_output_columns_names lib rest (r.1, zsv_select_add_output_col lib r.2 (in_pos - 1))

/-- The function `zsv_select_set_output_columns`: the value returned (`err`) and
the session record afterwards.  `none`: the call does not return because
`zsv_stricmp` was handed a `NULL` header name. -/
def zsv_select_set_output_columns (lib : zsv_lib) (junk : Nat → Nat × Nat)
    (data : zsv_select_data) : Option (Int × zsv_select_data) :=
  if data.col_argc = 0 then
    some (0, (List.range data.header_name_count).foldl (zsv_select_add_output_col lib) data)
  else if data.use_header_indexes then
    some (set_output_columns_indexes lib junk data.col_argv 0 (0, data))
  else set_output_columns_names lib data.col_argv (0, data)

/-! ## Cell cleaning -/

/-- A pointer into a cell buffer together with a length: `str` are the `len`
bytes at the pointer, `pre` the bytes of the buffer in front of it and `post`
the bytes of the buffer behind them. -/
structure cell_view where
  pre : List Nat
  str : List Nat
  post : List Nat
  deriving DecidableEq, Repr

/-- The whole cell buffer of a view. -/
def cell_view.mem (v : cell_view) : List Nat := v.pre ++ v.str ++ v.post

/-- Effect of a routine that rewrites the viewed bytes in place and returns a new length. -/
def cell_view.in_place (v : cell_view) (r : List Nat × Nat) : cell_view :=
  ⟨v.pre, r.1.take r.2, r.1.drop r.2 ++ v.post⟩

/-- Effect of `zsv_strtrim`: the pointer moves forward by `r.1`, the length becomes `r.2`. -/
def cell_view.trimmed (v : cell_view) (r : Nat × Nat) : cell_view :=
  ⟨v.pre ++ v.str.take r.1, (v.str.drop r.1).take r.2, (v.str.drop r.1).drop r.2 ++ v.post⟩

/-- The loop `while((tmp = memmem(utf8_value, len, pat, strlen(pat))))` of
`zsv_select_cell_clean` for one pattern, with `c` the replacement character.
A pattern of one byte is overwritten; for the two-byte pattern the rest of
the value moves one byte to the left (`memmove`), which leaves the old last
byte behind the shortened value.  `none`: the fuel ran out. -/
def lineend_replace (c : Nat) (pat : List Nat) : Nat → cell_view → Option cell_view
  | 0, _ => none
  | fuel + 1, v =>
    match memmem v.str pat with
    | none => some v
    | some p =>
      if pat.length = 1 then lineend_replace c pat fuel { v with str := v.str.set p c }
      else lineend_replace c pat fuel
        ⟨v.pre, v.str.take p ++ c :: v.str.drop (p + 2), v.str.getLast?.toList ++ v.post⟩

/-- The array `to_replace` of `zsv_select_cell_clean`: CR LF, CR, LF. -/
def to_replace : List (List Nat) := [[13, 10], [13], [10]]

/-- The loop `for(int i = 0; i < 3; i++)` over `to_replace`.  Each inner loop gets
one unit of fuel more than the value has bytes; a loop that has not come to
an end by then never does (`lineend_replace_none_forever`), and more fuel
does not change a result (`lineend_replace_fuel_mono`). -/
def lineend_loops (c : Nat) : List (List Nat) → cell_view → Option cell_view
  | [], v => some v
  | pat :: pats, v =>
    match lineend_replace c pat (v.str.length + 1) v with
    | none => none
    | some v1 => lineend_loops c pats v1

/-- The steps of `zsv_select_cell_clean` in front of the line-end replacement:
`zsv_strencode` when a replacement byte is configured, `zsv_strtrim` unless
trimming is off, `zsv_strwhite` when whitespace cleaning is on. -/
def clean_steps (lib : zsv_lib) (data : zsv_select_data) (utf8_value : List Nat) : cell_view :=
  let v0 : cell_view := ⟨[], utf8_value, []⟩
  let v1 := match data.malformed_utf8_replace with
    | some c => v0.in_place (lib.strencode v0.str c)
    | none => v0
  let v2 := if !data.no_trim_whitespace then v1.trimmed (lib.strtrim v1.str) else v1
  if data.clean_white then v2.in_place (lib.strwhite v2.str data.whitspace_clean_flags) else v2

/-- The function `zsv_select_cell_clean` applied to the `len` bytes `utf8_value`:
the view it returns (pointer and `*lenp`) inside the cell buffer as the call
leaves it.  `none`: a replacement loop does not come to an end. -/
def zsv_select_cell_clean (lib : zsv_lib) (data : zsv_select_data) (utf8_value : List Nat)
    (quoted : Bool) : Option cell_view :=
  if data.any_clean = false then some ⟨[], utf8_value, []⟩
  else
    let v3 := clean_steps lib data utf8_value
    if data.embedded_lineend ≠ 0 && quoted then
      match lineend_loops data.embedded_lineend to_replace v3 with
      | none => none
      | some v4 =>
        some (if data.no_trim_whitespace then v4.trimmed (lib.strtrim v4.str) else v4)
    else some v3

/-! ## Search filter -/

/-- The function `zsv_select_add_search`: a new node at the head of the list. -/
def zsv_select_add_search (data : zsv_select_data) (value : Option (List Nat)) :
    zsv_select_data :=
  { data with search_strings :=
      ⟨value, match value with | some v => v.length | none => 0⟩ :: data.search_strings }

/-- The inner loop of `zsv_select_row_search_hit` over the search strings for one cleaned cell. -/
def search_strings_hit (ss : List zsv_select_search_str) (str : List Nat) : Bool :=
  ss.any (fun s =>
    match s.value with
    | some v => !v.isEmpty && (memmem str (v.take s.len)).isSome
    | none => false)

/-- The loop of `zsv_select_row_search_hit` over the cells of the row, in column
order: the result and the row with the buffers of the cells cleaned so far. -/
def row_search_hit_cells (lib : zsv_lib) (data : zsv_select_data) :
    List zsv_cell → Option (Bool × List zsv_cell)
  | [] => some (false, [])
  | cell :: rest =>
    match zsv_select_cell_clean lib data cell.str cell.quoted with
    | none => none
    | some v =>
      if v.str.length ≠ 0 && search_strings_hit data.search_strings v.str then
        some (true, { cell with str := v.mem } :: rest)
      else
        (row_search_hit_cells lib data rest).map
          (fun r => (r.1, { cell with str := v.mem } :: r.2))

/-- The function `zsv_select_row_search_hit` on the current row of the tokenizer. -/
def zsv_select_row_search_hit (lib : zsv_lib) (data : zsv_select_data) (row : List zsv_cell) :
    Option (Bool × List zsv_cell) :=
  if data.search_strings.isEmpty then some (true, row)
  else row_search_hit_cells lib data row

/-! ## Data rows -/

/-- Modelled from the spec: the cell accessor `zsv_get_cell` of the tokenizer
(not among the sources) gives the bytes, the length and the quoted flag of the
cell at `ix` of the current row; beyond the last column of the row it gives
an empty unquoted cell. -/
def zsv_get_cell (row : List zsv_cell) (ix : Nat) : zsv_cell := row.getD ix ⟨[], false⟩

/-- The loop of `zsv_select_output_data_row` over the remaining entries of `out2in`. -/
def output_data_row_cells (lib : zsv_lib) (data : zsv_select_data) :
    List Nat → Bool → List zsv_cell → List writer_call → Option (List writer_call)
  | [], _, _, w => some w
  | in_ix :: rest, first, row, w =>
    let cell := zsv_get_cell row in_ix
    match zsv_select_cell_clean lib data cell.str cell.quoted with
    | none => none
    | some v =>
      output_data_row_cells lib data rest false (row.set in_ix { cell with str := v.mem })
        (w ++ [writer_call.cell first v.str cell.quoted])

/-- The function `zsv_select_output_data_row`. -/
def zsv_select_output_data_row (lib : zsv_lib) (data : zsv_select_data) (row : List zsv_cell) :
    Option zsv_select_data :=
  let w := if data.prepend_line_number then
      data.csv_writer ++ [writer_call.cell_zu true data.data_row_count]
    else data.csv_writer
  (output_data_row_cells lib data data.out2in (!data.prepend_line_number) row w).map
    (fun w1 => { data with csv_writer := w1 })

/-- The sampling decision of `zsv_select_data_row` (the branch taken when
`sample_every_n` or `sample_pct` is set); `draw` is the value of
`demo_random_bw_1_and_100()`, evaluated only when `sample_pct` is non-zero. -/
def sample_skip (data : zsv_select_data) (draw : ℚ) : Bool :=
  let skip := true
  let skip := if data.sample_every_n ≠ 0 ∧ data.data_row_count % data.sample_every_n = 1 then
      false else skip
  if data.sample_pct ≠ 0 ∧ draw ≤ data.sample_pct then false else skip

/-- The first half of the body of `zsv_select_data_row`, which sets
`skip_this_row`: pending skipped data rows come first, then sampling. -/
def data_row_skip (rnd : Nat → ℚ) (data : zsv_select_data) : zsv_select_data :=
  if data.skip_data_rows ≠ 0 then
    { data with skip_data_rows := data.skip_data_rows - 1, skip_this_row := true }
  else if data.sample_every_n ≠ 0 ∨ data.sample_pct ≠ 0 then
    { data with skip_this_row := sample_skip data (rnd data.data_row_count) }
  else { data with skip_this_row := false }

/-- The second half of the body of `zsv_select_data_row`, the block
`if(!data->skip_this_row)`: search filter, output, row limit. -/
def data_row_output (lib : zsv_lib) (data : zsv_select_data) (row : List zsv_cell) :
    Option (zsv_select_data × Bool) :=
  if !data.skip_this_row then
    match zsv_select_row_search_hit lib data row with
    | none => none
    | some (hit, row1) =>
      if hit then
        match zsv_select_output_data_row lib data row1 with
        | none => none
        | some data1 =>
          if data1.data_rows_limit > 0 ∧ data1.data_row_count + 1 ≥ data1.data_rows_limit then
            some ({ data1 with cancelled := true }, true)
          else some (data1, true)
      else some (data, false)
  else some (data, false)

/-- The function `zsv_select_data_row` on the current row of the tokenizer.  `rnd c`
is the value `demo_random_bw_1_and_100()` returns while data row `c` is
handled.  The boolean tells whether the row was handed to
`zsv_select_output_data_row`.  The progress line on `stderr` is not modelled. -/
def zsv_select_data_row (lib : zsv_lib) (rnd : Nat → ℚ) (data0 : zsv_select_data)
    (row : List zsv_cell) : Option (zsv_select_data × Bool) :=
  let data := { data0 with data_row_count := data0.data_row_count + 1 }
  if row.length = 0 ∨ data.cancelled then some (data, false)
  else data_row_output lib (data_row_skip rnd data) row

/-! ## Header rows -/

/-- The function `zsv_select_append_spaced_word` on `*target`; `%.*s` prints the
bytes of the value up to its length or its first NUL byte. -/
def zsv_select_append_spaced_word (target : Option (List Nat)) (utf8_value : List Nat) :
    Option (List Nat) :=
  if utf8_value.length = 0 then target
  else
    match target with
    | none => some (utf8_value.takeWhile (· ≠ 0))
    | some t => some (t ++ 32 :: utf8_value.takeWhile (· ≠ 0))

/-- The loop of `zsv_select_header_row` over the cells of the row from column `i`
on: the header names and `max_header_ix` afterwards. -/
def header_row_cells (lib : zsv_lib) (data : zsv_select_data) :
    List zsv_cell → Nat → List (Option (List Nat)) × Nat → Option (List (Option (List Nat)) × Nat)
  | [], _, acc => some acc
  | cell :: rest, i, acc =>
    match zsv_select_cell_clean lib data cell.str cell.quoted with
    | none => none
    | some v =>
      if i < data.max_columns then
        header_row_cells lib data rest (i + 1)
          (acc.1.set i (zsv_select_append_spaced_word (acc.1.getD i none) v.str),
            if v.str.length ≠ 0 then i + 1 else acc.2)
      else header_row_cells lib data rest (i + 1) acc

/-- The function `zsv_select_print_header_row`. -/
def zsv_select_print_header_row (data : zsv_select_data) : zsv_select_data :=
  let w := if data.prepend_line_number then
      data.csv_writer ++ [writer_call.cell_s true (some [35]) false]
    else data.csv_writer
  { data with csv_writer := w ++ data.out2in.enum.map (fun p =>
      writer_call.cell_s (p.1 == 0 && !data.prepend_line_number)
        (zsv_select_get_header_name data p.2) true) }

/-- The function `zsv_select_header_finish`. -/
def zsv_select_header_finish (lib : zsv_lib) (junk : Nat → Nat × Nat) (data : zsv_select_data) :
    Option zsv_select_data :=
  match zsv_select_set_output_columns lib junk data with
  | none => none
  | some (err, data1) =>
    if err ≠ 0 then some { data1 with cancelled := true }
    else some { zsv_select_print_header_row data1 with
      row_handler := row_handler.zsv_select_data_row }

/-- The function `zsv_select_header_row` on the current row of the tokenizer. -/
def zsv_select_header_row (lib : zsv_lib) (junk : Nat → Nat × Nat) (data0 : zsv_select_data)
    (row : List zsv_cell) : Option zsv_select_data :=
  let data := { data0 with file_row_count := data0.file_row_count + 1 }
  if data.cancelled then some data
  else if data.skip_rows > 0 then some { data with skip_rows := data.skip_rows - 1 }
  else
    let data := { data with header_rows_processed := data.header_rows_processed + 1 }
    match header_row_cells lib data row 0 (data.header_names, 0) with
    | none => none
    | some (names, max_header_ix) =>
      let data := { data with header_names := names }
      let data := if max_header_ix > data.header_name_count then
          { data with header_name_count := max_header_ix }
        else data
      if data.header_rows_processed ≥ data.header_depth then zsv_select_header_finish lib junk data
      else some data

/-! ## The tokenizer and `MAIN` -/

/-- Modelled from the spec: the tokenizer (`zsv_parse_more`, not among the
sources) invokes the registered row handler once per physical row, in input
order.  The result is the session record after the last row and, per row,
whether it was handed to `zsv_select_output_data_row`. -/
def parse_rows (lib : zsv_lib) (junk : Nat → Nat × Nat) (rnd : Nat → ℚ) :
    List (List zsv_cell) → zsv_select_data → Option (zsv_select_data × List Bool)
  | [], data => some (data, [])
  | row :: rest, data =>
    match (match data.row_handler with
      | row_handler.zsv_select_header_row =>
        (zsv_select_header_row lib junk data row).map (fun d => (d, false))
      | row_handler.zsv_select_data_row => zsv_select_data_row lib rnd data row) with
    | none => none
    | some r => (parse_rows lib junk rnd rest r.1).map (fun q => (q.1, r.2 :: q.2))

/-- The session record of `MAIN` after `memset` and the defaults, with
`opts.max_columns` as given (1024 unless `-C` sets it) and the two arrays
allocated by `calloc`. -/
def MAIN_init (max_columns : Nat) : zsv_select_data :=
  { data_row_count := 0, max_columns := max_columns, file_row_count := 0,
    header_rows_processed := 0, col_argv := [], out2in := [], distinct := false,
    exclusions := [], header_name_count := 0,
    header_names := List.replicate max_columns none, malformed_utf8_replace := none,
    embedded_lineend := 0, sample_pct := 0, skip_rows := 0, sample_every_n := 0,
    header_depth := 1, data_rows_limit := 0, skip_data_rows := 0, search_strings := [],
    csv_writer := [], whitspace_clean_flags := 0, use_header_indexes := false,
    no_trim_whitespace := false, cancelled := false, skip_this_row := false, verbose := false,
    clean_white := false, prepend_line_number := false, any_clean := false,
    row_handler := row_handler.zsv_select_header_row }

/-- The assignment to `data.any_clean` in `MAIN`. -/
def MAIN_any_clean (data : zsv_select_data) : zsv_select_data :=
  { data with any_clean := data.malformed_utf8_replace.isSome || !data.no_trim_whitespace
      || data.clean_white || data.embedded_lineend != 0 }

/-- The value the option `-H` / `--head` of `MAIN` stores in `data_rows_limit` for
the value `n` that `atoi` returns: `none` when the option is rejected (`err` is
set), else `atoi(...) + 1`.  The sum is formed in `int`, of 32 bits, and the
assignment converts it to `size_t`, of 64 bits.  For `INT_MAX` the sum
overflows, which C leaves undefined; it is taken as it wraps in two's
complement, to `INT_MIN`, which the conversion turns into `2 ^ 64 - 2 ^ 31`. -/
def head_limit (n : Int) : Option Nat :=
  if ¬ (n ≥ 0) then none
  else some (((n + 1 + 2 ^ 31) % 2 ^ 32 - 2 ^ 31) % 2 ^ 64).toNat

/-- The option `-H` / `--head` of `MAIN` applied to the session record. -/
def MAIN_head (data : zsv_select_data) (n : Int) : Option zsv_select_data :=
  (head_limit n).map (fun limit => { data with data_rows_limit := limit })

/-- The end of `MAIN`, from `if(!err)` behind the option loop and the exclusion
check to `return err`: with `err` still 0 the rows of the input are handed to
the row handler; the value returned is `err`, which the row handlers never
write.  `none`: the run does not come to an end. -/
def MAIN_return (lib : zsv_lib) (junk : Nat → Nat × Nat) (rnd : Nat → ℚ) (err : Int)
    (data : zsv_select_data) (rows : List (List zsv_cell)) : Option Int :=
  if err = 0 then
    match parse_rows lib junk rnd rows (MAIN_any_clean data) with
    | none => none
    | some _ => some err
  else some err

/-! ## The options `--sample-every`, `--sample-pct` and `-e` of `MAIN` -/

/-- The option `--sample-every` of `MAIN` applied to the session record for the
value `n` that `atoi` returns: `none` when the option is rejected (`err` is
set), else the assignment to the `unsigned char` field `sample_every_n`. -/
def MAIN_sample_every (data : zsv_select_data) (n : Int) : Option zsv_select_data :=
  if n ≤ 0 then none else some { data with sample_every_n := n.toNat % 2 ^ 8 }

/-- The option `--sample-pct` of `MAIN` applied to the session record; `d` is the
value `atof` returns (`none`: there is no further argument).  `none`: the
option is rejected (`err` is set). -/
def MAIN_sample_pct (data : zsv_select_data) (d : Option ℚ) : Option zsv_select_data :=
  match d with
  | none => none
  | some d => if d = 0 ∧ d > 0 ∧ d < 100 then none else some { data with sample_pct := d }

/-- The option `-e` of `MAIN` applied to the session record; `value` is the next
command-line argument (`none`: there is none, and `argv[arg_i]` is `NULL`).
Outer `none`: `strlen` is handed the `NULL` pointer.  Inner `none`: the
option is rejected (`err` is set). -/
def MAIN_embedded_lineend (data : zsv_select_data) (value : Option (List Nat)) :
    Option (Option zsv_select_data) :=
  if data.embedded_lineend ≠ 0 then some none
  else
    match value with
    | none => none
    | some v =>
      if v.length ≠ 1 then some none
      else some (some { data with embedded_lineend := v.headD 0 })

/-! ## Exclusions in `MAIN` -/

/-- The constant `MAX_EXCLUSIONS`. -/
def MAX_EXCLUSIONS : Nat := 1024

/-- The function `zsv_select_add_exclusion`. -/
def zsv_select_add_exclusion (data : zsv_select_data) (name : List Nat) : zsv_select_data :=
  if data.exclusion_count < MAX_EXCLUSIONS then
    { data with exclusions := data.exclusions ++ [name] }
  else data

/-- The option `-x` of `MAIN` applied to the session record; `value` is the next
command-line argument (`none`: there is none) and `i0`, `j0` are the values
the uninitialised locals of the parser hold in the call.  `none`: the option
is rejected (`err` is set to the value of `zsv_printerr`). -/
def MAIN_exclude (data : zsv_select_data) (value : Option (List Nat)) (i0 j0 : Nat) :
    Option zsv_select_data :=
  match value with
  | none => none
  | some v =>
    if (zsv_select_column_index_selection v i0 j0).type =
        zsv_select_column_index_selection_type.none then none
    else some (zsv_select_add_exclusion data v)

/-- The function `zsv_select_check_exclusions_are_indexes`: whether `err` is set
(to the value of `zsv_printerr`) when the loop over the exclusions ends;
`junk e` are the values the uninitialised locals of the parser hold in the
call for exclusion `e`. -/
def zsv_select_check_exclusions_are_indexes (junk : Nat → Nat × Nat)
    (data : zsv_select_data) : Bool :=
  data.exclusions.enum.foldl (fun err p =>
    if (zsv_select_column_index_selection p.2 (junk p.1).1 (junk p.1).2).type =
        zsv_select_column_index_selection_type.none then true
    else err) false

/-- The statement `if(data.use_header_indexes && !err) err = ...` of `MAIN` behind
the option loop: whether `err` is set afterwards. -/
def MAIN_check_exclusions (junk : Nat → Nat × Nat) (err : Bool) (data : zsv_select_data) :
    Bool :=
  if data.use_header_indexes && !err then zsv_select_check_exclusions_are_indexes junk data
  else err

/-! ## A concrete instance of the library routines -/

/-- The `tolower` of the C locale. -/
def ascii_tolower (c : Nat) : Nat := if 65 ≤ c ∧ c ≤ 90 then c + 32 else c

/-- Modelled from the spec: `zsv_stricmp` (not among the sources), a
case-insensitive exact match; the result is zero exactly when the two strings
are equal after lower-casing their ASCII letters. -/
def ascii_stricmp (a b : List Nat) : Int :=
  if a.map ascii_tolower = b.map ascii_tolower then 0 else 1

/-- Modelled from the spec: `zsv_strtrim` (not among the sources) trims leading
and trailing whitespace: the number of leading white bytes and the length
that remains without the trailing ones. -/
def ascii_strtrim (s : List Nat) : Nat × Nat :=
  let k := (s.takeWhile isspace).length
  (k, ((s.drop k).reverse.dropWhile isspace).length)

/-- Modelled from the spec: the library routines on input that is valid ASCII
without whitespace runs, where UTF-8 repair and whitespace normalization
leave every byte as it is. -/
def ascii_lib : zsv_lib :=
  ⟨ascii_stricmp, fun s _ => (s, s.length), ascii_strtrim, fun s _ => (s, s.length)⟩

/-! ## Specification-side definitions -/

/-- The 0-based indices a parsed column specification stands for, in the words
of the specification: `N` is `[N-1]`, `lo-hi` is `[lo-1, ..., hi-1]`, `lo-` is
`[lo-1, ..., header_name_count-1]`. -/
def spec_indices (sel : index_selection) (header_name_count : Nat) : List Nat :=
  match sel.type with
  | zsv_select_column_index_selection_type.none => []
  | zsv_select_column_index_selection_type.single => [sel.lo - 1]
  | zsv_select_column_index_selection_type.range => List.range' (sel.lo - 1) (sel.hi + 1 - sel.lo)
  | zsv_select_column_index_selection_type.lower_bounded =>
    List.range' (sel.lo - 1) (header_name_count - (sel.lo - 1))

/-- The parsed form of the column argument at position `p.1`. -/
def parsed_arg (junk : Nat → Nat × Nat) (p : Nat × List Nat) : index_selection :=
  zsv_select_column_index_selection p.2 (junk p.1).1 (junk p.1).2

/-- The concatenation, in argument order, of the indices of every column argument. -/
def spec_out2in (junk : Nat → Nat × Nat) (data : zsv_select_data) : List Nat :=
  (data.col_argv.enum.map (fun p => spec_indices (parsed_arg junk p) data.header_name_count)).flatten

/-- Whether `zsv_select_add_output_col` appends the column. -/
def add_accepts (lib : zsv_lib) (data : zsv_select_data) (in_ix : Nat) : Bool :=
  decide (data.output_cols_count < data.max_columns)
    && !(data.distinct && zsv_select_already_have_header lib data in_ix)
    && !zsv_select_excluded_current_header_name lib data in_ix

/-- The columns the index-mode loop offers to `zsv_select_add_output_col` for one argument. -/
def index_arg_candidates (sel : index_selection) (data : zsv_select_data) : List Nat :=
  match sel.type with
  | zsv_select_column_index_selection_type.none => []
  | zsv_select_column_index_selection_type.single => [sel.lo - 1]
  | zsv_select_column_index_selection_type.range =>
    (List.range' sel.lo (min (sel.hi + 1) data.max_columns - sel.lo)).map (· - 1)
  | zsv_select_column_index_selection_type.lower_bounded =>
    if sel.lo ≠ 0 then List.range' (sel.lo - 1) (data.header_name_count - (sel.lo - 1)) else []

/-- Two session records that differ at most in `out2in`. -/
def same_config (d d0 : zsv_select_data) : Prop := d = { d0 with out2in := d.out2in }

/-- The session record with which the witnesses of column resolution start:
the header `a,b,a` has been read, at most ten columns are allowed. -/
def header_aba : zsv_select_data :=
  { MAIN_init 10 with
    header_name_count := 3, header_rows_processed := 1, file_row_count := 1,
    header_names := [some [97], some [98], some [97]] ++ List.replicate 7 none }

/-- Column `i` and column `j` both have a recorded header name, and
`zsv_stricmp` finds the name of `i` equal to the name of `j`. -/
def same_name (lib : zsv_lib) (data : zsv_select_data) (i j : Nat) : Bool :=
  match zsv_select_get_header_name data i, zsv_select_get_header_name data j with
  | some a, some b => lib.stricmp a b == 0
  | _, _ => false

/-- Column `i` does not repeat the name of a column in front of it. -/
def first_occurrence (lib : zsv_lib) (data : zsv_select_data) (i : Nat) : Bool :=
  (List.range i).all (fun j => !same_name lib data i j)

/-- The header name of column `i` is recorded and `zsv_stricmp` finds it equal
to some entry of the exclusion set. -/
def matches_exclusion (lib : zsv_lib) (data : zsv_select_data) (i : Nat) : Bool :=
  match zsv_select_get_header_name data i with
  | some a => data.exclusions.any (fun e => lib.stricmp a e == 0)
  | none => false

/-- Number of CR and LF bytes of a value. -/
def lineend_count (s : List Nat) : Nat := s.countP (fun b => b == 13 || b == 10)

/-- The embedded-line-end replacement character of the session is neither CR nor LF. -/
def lineend_safe (data : zsv_select_data) : Prop :=
  data.embedded_lineend ≠ 13 ∧ data.embedded_lineend ≠ 10

/-- Two session records that differ at most in the fields `zsv_select_data_row` writes. -/
def same_session (d d0 : zsv_select_data) : Prop :=
  d = { d0 with data_row_count := d.data_row_count, skip_data_rows := d.skip_data_rows,
                skip_this_row := d.skip_this_row, cancelled := d.cancelled,
                csv_writer := d.csv_writer }

/-- The setting of deterministic sampling: data phase, period `n`, no percentage,
no pending skipped rows, no search string, no row limit, not cancelled. -/
def sampling_every (n : Nat) (d : zsv_select_data) : Prop :=
  d.row_handler = row_handler.zsv_select_data_row ∧ d.sample_every_n = n ∧ d.sample_pct = 0 ∧
    d.skip_data_rows = 0 ∧ d.search_strings = [] ∧ d.data_rows_limit = 0 ∧ d.cancelled = false

/-- The session record with which the witnesses of the data phase start: the
defaults of `MAIN`, at most ten columns, after the one-cell header row `h`. -/
def after_header_h : zsv_select_data :=
  { MAIN_any_clean (MAIN_init 10) with
    file_row_count := 1, header_rows_processed := 1, header_name_count := 1,
    header_names := some [104] :: List.replicate 9 none, out2in := [0],
    csv_writer := [writer_call.cell_s true (some [104]) true],
    row_handler := row_handler.zsv_select_data_row }

/-- The lowest input index below `header_name_count` whose recorded header name
`zsv_stricmp` finds equal to the requested name. -/
def lowest_match (lib : zsv_lib) (data : zsv_select_data) (needle : List Nat) : Option Nat :=
  (List.range data.header_name_count).find? (fun i =>
    match data.header_names.getD i none with
    | some h => lib.stricmp needle h == 0
    | none => false)

/-- Every column below `header_name_count` has a recorded header name. -/
def names_present (data : zsv_select_data) : Prop :=
  ∀ i, i < data.header_name_count → (data.header_names.getD i none).isSome = true

/-- The value `s` with every CR LF pair replaced by the single byte `c`, from
left to right. -/
def replace_pairs (c : Nat) : List Nat → List Nat
  | [] => []
  | [x] => [x]
  | x :: y :: t =>
    if x = 13 ∧ y = 10 then c :: replace_pairs c t else x :: replace_pairs c (y :: t)

/-- The number of CR LF pairs of `s`. -/
def crlf_pairs : List Nat → Nat
  | [] => 0
  | [_] => 0
  | x :: y :: t => if x = 13 ∧ y = 10 then crlf_pairs t + 1 else crlf_pairs (y :: t)

/-- The line-end substitution in the words of the specification: every CR LF
pair becomes a single `c`, then every remaining CR and every LF becomes `c`. -/
def spec_lineend (c : Nat) (s : List Nat) : List Nat :=
  (replace_pairs c s).map (fun b => if b = 13 ∨ b = 10 then c else b)

/-- A non-empty run of decimal digits. -/
def is_digits (ds : List Nat) : Prop := ds ≠ [] ∧ ∀ b ∈ ds, isdigit b = true

/-- Two session records with the same cleaning settings. -/
def same_cleaning (d d0 : zsv_select_data) : Prop :=
  d.any_clean = d0.any_clean ∧ d.malformed_utf8_replace = d0.malformed_utf8_replace ∧
    d.no_trim_whitespace = d0.no_trim_whitespace ∧ d.clean_white = d0.clean_white ∧
    d.whitspace_clean_flags = d0.whitspace_clean_flags ∧
    d.embedded_lineend = d0.embedded_lineend

/-- The cleaned content of a cell: the bytes of the view `zsv_select_cell_clean`
returns. -/
def cleaned_str (lib : zsv_lib) (data : zsv_select_data) (cell : zsv_cell) : List Nat :=
  match zsv_select_cell_clean lib data cell.str cell.quoted with
  | some v => v.str
  | none => []

/-- The bytes of a value in front of its first NUL byte: what `%s` prints of it. -/
def c_string (w : List Nat) : List Nat := w.takeWhile (· ≠ 0)

/-- The words joined by single spaces; no string at all for no word. -/
def spaced_words : List (List Nat) → Option (List Nat)
  | [] => none
  | w :: ws => some (ws.foldl (fun acc x => acc ++ 32 :: x) w)

/-- The non-empty cleaned contents of column `i` in the given rows, in row order. -/
def column_words (lib : zsv_lib) (data : zsv_select_data) (rows : List (List zsv_cell))
    (i : Nat) : List (List Nat) :=
  ((rows.filterMap (fun row => row.get? i)).map (cleaned_str lib data)).filter
    (fun w => decide (w ≠ []))

/-- Column `i` holds a cell with non-empty cleaned content in at least one of the rows. -/
def column_nonempty (lib : zsv_lib) (data : zsv_select_data) (rows : List (List zsv_cell))
    (i : Nat) : Prop :=
  ∃ row ∈ rows, ∃ cell, row.get? i = some cell ∧ cleaned_str lib data cell ≠ []

/-- The cleaned content of the cell of column `i` in a row; empty when the row
has no such column. -/
def column_word (lib : zsv_lib) (data : zsv_select_data) (row : List zsv_cell) (i : Nat) :
    List Nat :=
  ((row.get? i).map (cleaned_str lib data)).getD []

/-- The argument `is_first_in_row` of a call to the writer. -/
def writer_call.first : writer_call → Bool
  | writer_call.cell first _ _ => first
  | writer_call.cell_zu first _ => first
  | writer_call.cell_s first _ _ => first

/-- Exactly the first of the calls carries `is_first_in_row`. -/
def only_first_is_first (calls : List writer_call) : Prop :=
  calls.map writer_call.first = (List.range calls.length).map (fun i => i == 0)

/-- Modelled from the spec: the text `zsv_writer_cell_s` (not among the sources)
writes for its string argument, the empty string for `NULL`. -/
def cell_s_text (s : Option (List Nat)) : List Nat := s.getD []

/-- The calls to `zsv_writer_cell` that stand for the entries `cols` of `out2in`
on the row as the tokenizer delivers it: the cleaned cell at each index with
the quoted flag of that cell, the first of them with the flag `first`. -/
def spec_data_cells (lib : zsv_lib) (data : zsv_select_data) (row : List zsv_cell) :
    Bool → List Nat → List writer_call
  | _, [] => []
  | first, ix :: rest =>
    writer_call.cell first (cleaned_str lib data (zsv_get_cell row ix))
        (zsv_get_cell row ix).quoted ::
      spec_data_cells lib data row false rest

/-- The row handler that is registered when each of the rows arrives. -/
def handlers (lib : zsv_lib) (junk : Nat → Nat × Nat) (rnd : Nat → ℚ) :
    List (List zsv_cell) → zsv_select_data → List row_handler
  | [], _ => []
  | row :: rest, d =>
    d.row_handler ::
      (match parse_rows lib junk rnd [row] d with
       | some r => handlers lib junk rnd rest r.1
       | none => [])

/-- The header names and their count in `d1` are those of `data` with the cells
of `rows` accumulated: the array keeps its length, the name of each column
below `max_columns` is extended by the non-empty cleaned cells of the column
in row order, and `header_name_count` is raised to the position behind the
last column below `max_columns` that holds such a cell, when that is more. -/
def header_rows_accumulated (lib : zsv_lib) (data : zsv_select_data)
    (rows : List (List zsv_cell)) (d1 : zsv_select_data) : Prop :=
  d1.header_names.length = data.header_names.length ∧
    (∀ j, j < data.max_columns → d1.header_names.getD j none =
      (column_words lib data rows j).foldl zsv_select_append_spaced_word
        (data.header_names.getD j none)) ∧
    data.header_name_count ≤ d1.header_name_count ∧
    (∀ j, j < data.max_columns → column_nonempty lib data rows j →
      j < d1.header_name_count) ∧
    (d1.header_name_count = data.header_name_count ∨
      (0 < d1.header_name_count ∧ d1.header_name_count - 1 < data.max_columns ∧
        column_nonempty lib data rows (d1.header_name_count - 1)))

/-! ## The function `csv_trim_whitespace` of `vtab_helper.c` -/

/-- The `strlen` of libc on the bytes at a pointer: the number of bytes in front
of the first NUL byte (the terminator stands behind the list when the list
holds none). -/
def strlen (z : List Nat) : Nat := (z.takeWhile (· ≠ 0)).length

/-- The loop `while( n>0 && isspace((unsigned char)z[n]) ) n--;` of
`csv_trim_whitespace`: the value of `n` when it ends. -/
def csv_trim_whitespace_loop (z : List Nat) : Nat → Nat
  | 0 => 0
  | n + 1 => if isspace (z.getD (n + 1) 0) then csv_trim_whitespace_loop z n else n + 1

/-- The function `csv_trim_whitespace`: the string at `z` after the call, which
ends with `z[n] = 0`. -/
def csv_trim_whitespace (z : List Nat) : List Nat :=
  c_string (z.set (csv_trim_whitespace_loop z (strlen z)) 0)

/-! ## The functions `looks_like_date`, `guess_properties` and `prop_arg_value` of `prop.c` -/

/-- The string `LOOKS_LIKE_DATE_CHARS`: the digits, dash, slash, colon, comma,
blank and the letters `abcdefghijlmnoprstuvy`. -/
def LOOKS_LIKE_DATE_CHARS : List Nat :=
  [48, 49, 50, 51, 52, 53, 54, 55, 56, 57, 45, 47, 58, 44, 32,
    97, 98, 99, 100, 101, 102, 103, 104, 105, 106, 108, 109, 110, 111, 112, 114, 115, 116,
    117, 118, 121]

/-- The function `looks_like_date` on the `len` bytes `s`; `zsv_strtrim` is the
library routine of `zsv_lib`, and the argument `flags` is not read. -/
def looks_like_date (lib : zsv_lib) (s : List Nat) : Nat :=
  let r := lib.strtrim s
  let len := r.2
  if len ≤ 5 ∨ len > 30 then 0
  else if (List.range len).all (fun i => LOOKS_LIKE_DATE_CHARS.contains ((s.drop r.1).getD i 0))
    then 1
  else 0

/-- One entry of the array `rows` of `struct detect_properties_data`. -/
structure detect_row where
  date : Nat
  num : Nat
  is_bool : Nat
  null : Nat
  cols_used : Nat
  deriving DecidableEq, Repr

/-- The fields of `struct zsv_file_properties` that `guess_properties` sets. -/
structure zsv_file_properties where
  skip : Nat
  header_span : Nat
  deriving DecidableEq, Repr

/-- The first loop of `guess_properties`, from index `i` with `result.skip = skip`:
the values of `i` and `result.skip` when it ends.  `rows` holds the first
`rows_processed` entries of the array; `none`: an entry outside of them is
read, or the fuel ran out. -/
def guess_skip (rows : List detect_row) (rows_processed : Nat) :
    Nat → Nat → Nat → Option (Nat × Nat)
  | 0, _, _ => none
  | fuel + 1, i, skip =>
    if i < rows_processed then
      match rows.get? i with
      | none => none
      | some ri =>
        if ri.cols_used ≤ ri.null then guess_skip rows rows_processed fuel (i + 1) (skip + 1)
        else if i + 1 < rows_processed then
          match rows.get? (i + 1) with
          | none => none
          | some rn =>
            if rn.cols_used ≤ rn.null then
              guess_skip rows rows_processed fuel (i + 1) (skip + 1)
            else some (i, skip)
        else some (i, skip)
    else some (i, skip)

/-- The second loop of `guess_properties`, from index `i` with
`result.header_span = span`: the value of `result.header_span` when it ends.
`none`: an entry outside the first `rows_processed` is read, or the fuel ran
out. -/
def guess_header_span (rows : List detect_row) (rows_processed : Nat) :
    Nat → Nat → Nat → Option Nat
  | 0, _, _ => none
  | fuel + 1, i, span =>
    if i < rows_processed then
      match rows.get? i with
      | none => none
      | some ri =>
        if ri.cols_used = ri.null then
          guess_header_span rows rows_processed fuel (i + 1) (span + 1)
        else if i = 0 then none
        else
          match rows.get? (i - 1) with
          | none => none
          | some rp =>
            if ri.cols_used > rp.cols_used then
              guess_header_span rows rows_processed fuel (i + 1) (span + 1)
            else
              let data_like := (ri.date + ri.num + ri.is_bool) % 2 ^ 32
              if data_like > 5 ∨ (data_like > 0 ∧ data_like ≥ ri.cols_used / 2) then some span
              else if data_like + ri.null = ri.cols_used then some span
              else if data_like ≤ 5 ∧ data_like > 0 ∧ ri.cols_used ≤ 5 then some span
              else guess_header_span rows rows_processed fuel (i + 1) (span + 1)
    else some span

/-- The function `guess_properties`; `rows` holds the first `rows_processed`
entries of `data->rows`. -/
def guess_properties (rows : List detect_row) (rows_processed : Nat) :
    Option zsv_file_properties :=
  match guess_skip rows rows_processed (rows_processed + 1) 0 0 with
  | none => none
  | some (i, skip) =>
    match guess_header_span rows rows_processed (rows_processed + 1) (i + 1) 1 with
    | none => none
    | some span => some ⟨skip, if span = rows_processed then 1 else span⟩

/-- The constant `ZSV_PROP_ARG_AUTO`. -/
def ZSV_PROP_ARG_AUTO : Int := -2

/-- The constant `ZSV_PROP_ARG_REMOVE`. -/
def ZSV_PROP_ARG_REMOVE : Int := -3

/-- The constant `UINT_MAX` of a 32-bit `unsigned int`. -/
def UINT_MAX : Int := 2 ^ 32 - 1

/-- The value of a character as a digit of `strtoimax`: `0`-`9`, then the letters
in either case from 10 on. -/
def digit_of (c : Nat) : Option Nat :=
  if 48 ≤ c ∧ c ≤ 57 then some (c - 48)
  else if 97 ≤ c ∧ c ≤ 122 then some (c - 97 + 10)
  else if 65 ≤ c ∧ c ≤ 90 then some (c - 65 + 10)
  else none

/-- Whether the character is a digit in the base. -/
def is_digit_in (base : Nat) (c : Nat) : Bool :=
  match digit_of c with
  | some v => decide (v < base)
  | none => false

/-- The value of a run of digits in the base. -/
def digits_in (base : Nat) (ds : List Nat) : Nat :=
  ds.foldl (fun acc c => acc * base + (digit_of c).getD 0) 0

/-- The call `strtoimax(arg, &end, 0)` of libc with a 64-bit `intmax_t`: the value
returned and the offset of `end` in `arg`.  White space is skipped, a sign is
taken, the prefix `0x` with a hexadecimal digit behind it selects base 16, a
leading `0` base 8, anything else base 10; without a digit nothing is
converted and `end` is `arg`; a value out of range is clamped. -/
def strtoimax (arg : List Nat) : Int × Nat :=
  let ws := arg.takeWhile isspace
  let rest := arg.dropWhile isspace
  let neg := rest.head? = some 45
  let signed := rest.head? = some 43 ∨ rest.head? = some 45
  let body := if signed then rest.drop 1 else rest
  let hex := body.head? = some 48 ∧ (body.get? 1 = some 120 ∨ body.get? 1 = some 88) ∧
    ((body.get? 2).map (is_digit_in 16)) = some true
  let base := if hex then 16 else if body.head? = some 48 then 8 else 10
  let digits := if hex then body.drop 2 else body
  let ds := digits.takeWhile (is_digit_in base)
  if ds.isEmpty then (0, 0)
  else
    let v : Int := digits_in base ds
    (if neg then max (-v) (-(2 ^ 63)) else min v (2 ^ 63 - 1),
      ws.length + (if signed then 1 else 0) + (if hex then 2 else 0) + ds.length)

/-- The function `prop_arg_value`: the value returned and `*value` afterwards.
`arg` is `argv[i]` (`none`: `i >= argc`), `value` is `*value` before the call. -/
def prop_arg_value (arg : Option (List Nat)) (value : Int) : Int × Int :=
  match arg with
  | none => (1, value)
  | some a =>
    if a = [97, 117, 116, 111] then (0, ZSV_PROP_ARG_AUTO)
    else if a = [110, 111, 110, 101] ∨ a = [48] ∨ a = [45] then (0, ZSV_PROP_ARG_REMOVE)
    else
      let r := strtoimax a
      if a ≠ [] ∧ r.2 = a.length then
        (0, if r.1 = 0 then ZSV_PROP_ARG_REMOVE
            else if r.1 > 0 ∧ r.1 ≤ UINT_MAX then r.1
            else value)
      else (1, value)

/-! ## Lemmas on column resolution -/

theorem add_output_col_eq (lib : zsv_lib) (data : zsv_select_data) (in_ix : Nat) :
    zsv_select_add_output_col lib data in_ix =
      { data with out2in := if add_accepts lib data in_ix then data.out2in ++ [in_ix]
                            else data.out2in } := by
  unfold zsv_select_add_output_col add_accepts
  by_cases h1 : data.output_cols_count < data.max_columns
  · by_cases h2 : (data.distinct && zsv_select_already_have_header lib data in_ix) = true
    · simp [h1, h2]
    · by_cases h3 : zsv_select_excluded_current_header_name lib data in_ix = true
      · simp [h1, h2, h3]
      · simp [h1, h2, h3]
  · simp [h1]

theorem same_config_refl (d : zsv_select_data) : same_config d d := rfl

theorem same_config_add (lib : zsv_lib) (d d0 : zsv_select_data) (x : Nat)
    (h : same_config d d0) : same_config (zsv_select_add_output_col lib d x) d0 := by
  rw [add_output_col_eq]
  unfold same_config at *
  rw [h]

theorem same_config_foldl (lib : zsv_lib) (cands : List Nat) (d d0 : zsv_select_data)
    (h : same_config d d0) : same_config (cands.foldl (zsv_select_add_output_col lib) d) d0 := by
  induction cands generalizing d with
  | nil => exact h
  | cons x xs ih => exact ih _ (same_config_add lib d d0 x h)

theorem add_max_columns (lib : zsv_lib) (d : zsv_select_data) (x : Nat) :
    (zsv_select_add_output_col lib d x).max_columns = d.max_columns := by
  rw [add_output_col_eq]

theorem range_loop_eq (lib : zsv_lib) (j : Nat) :
    ∀ (fuel i : Nat) (d : zsv_select_data), min (j + 1) d.max_columns - i ≤ fuel →
      range_loop lib j fuel i d =
        ((List.range' i (min (j + 1) d.max_columns - i)).map (· - 1)).foldl
          (zsv_select_add_output_col lib) d := by
  intro fuel
  induction fuel with
  | zero =>
    intro i d h
    have h0 : min (j + 1) d.max_columns - i = 0 := by omega
    simp [range_loop, h0]
  | succ fuel ih =>
    intro i d h
    unfold range_loop
    by_cases hc : i ≤ j ∧ i < d.max_columns
    · have hcnt : min (j + 1) d.max_columns - i = (min (j + 1) d.max_columns - (i + 1)) + 1 := by
        omega
      rw [if_pos hc, hcnt, List.range'_succ, List.map_cons, List.foldl_cons]
      have := ih (i + 1) (zsv_select_add_output_col lib d (i - 1))
        (by rw [add_max_columns]; omega)
      rw [this, add_max_columns]
    · have h0 : min (j + 1) d.max_columns - i = 0 := by omega
      rw [if_neg hc, h0]
      rfl

theorem index_arg_fold (lib : zsv_lib) (sel : index_selection) (r : Int × zsv_select_data) :
    set_output_columns_index_arg lib sel r =
      (if sel.type = zsv_select_column_index_selection_type.none then -1 else r.1,
        (index_arg_candidates sel r.2).foldl (zsv_select_add_output_col lib) r.2) := by
  unfold set_output_columns_index_arg index_arg_candidates
  cases hty : sel.type with
  | none => simp
  | single => simp
  | range => simp; exact range_loop_eq lib sel.hi _ _ _ (by omega)
  | lower_bounded =>
    by_cases hlo : sel.lo = 0
    · simp [hlo]
    · simp [hlo]

theorem selection_range_bounds (arg : List Nat) (i0 j0 : Nat)
    (h : (zsv_select_column_index_selection arg i0 j0).type =
      zsv_select_column_index_selection_type.range) :
    0 < (zsv_select_column_index_selection arg i0 j0).lo ∧
      (zsv_select_column_index_selection arg i0 j0).lo ≤
        (zsv_select_column_index_selection arg i0 j0).hi := by
  unfold zsv_select_column_index_selection at h ⊢
  simp only [] at h ⊢
  split_ifs at h ⊢
  simp_all

theorem selection_lower_bounded_pos (arg : List Nat) (i0 j0 : Nat)
    (h : (zsv_select_column_index_selection arg i0 j0).type =
      zsv_select_column_index_selection_type.lower_bounded) :
    (zsv_select_column_index_selection arg i0 j0).lo ≠ 0 := by
  unfold zsv_select_column_index_selection at h ⊢
  simp only [] at h ⊢
  split_ifs at h ⊢
  simp_all
  omega

theorem foldl_add_plain (lib : zsv_lib) (cands : List Nat) :
    ∀ d : zsv_select_data, d.distinct = false → d.exclusions = [] →
      d.out2in.length + cands.length ≤ d.max_columns →
      cands.foldl (zsv_select_add_output_col lib) d = { d with out2in := d.out2in ++ cands } := by
  induction cands with
  | nil => intro d _ _ _; simp
  | cons x xs ih =>
    intro d hd he hcap
    have hacc : add_accepts lib d x = true := by
      simp only [List.length_cons] at hcap
      simp [add_accepts, zsv_select_data.output_cols_count, hd,
        zsv_select_excluded_current_header_name, zsv_select_data.exclusion_count, he]
      omega
    rw [List.foldl_cons, add_output_col_eq, hacc, if_pos rfl]
    have hstep := ih { d with out2in := d.out2in ++ [x] } hd he
      (by simp only [List.length_append, List.length_cons, List.length_nil] at hcap ⊢; omega)
    rw [hstep]
    simp

theorem indexes_loop_eq (lib : zsv_lib) (junk : Nat → Nat × Nat) (args : List (List Nat)) :
    ∀ (arg_i : Nat) (r : Int × zsv_select_data),
      r.2.distinct = false → r.2.exclusions = [] →
      (∀ p ∈ args.enumFrom arg_i,
        (parsed_arg junk p).type ≠ zsv_select_column_index_selection_type.none) →
      (∀ p ∈ args.enumFrom arg_i,
        (parsed_arg junk p).type = zsv_select_column_index_selection_type.range →
          (parsed_arg junk p).hi < r.2.max_columns) →
      r.2.out2in.length +
        ((args.enumFrom arg_i).map
          (fun p => spec_indices (parsed_arg junk p) r.2.header_name_count)).flatten.length
          ≤ r.2.max_columns →
      set_output_columns_indexes lib junk args arg_i r =
        (r.1, { r.2 with out2in := (r.2.out2in ++
          ((args.enumFrom arg_i).map
            (fun p => spec_indices (parsed_arg junk p) r.2.header_name_count)).flatten) }) := by
  induction args with
  | nil => intro arg_i r _ _ _ _ _; simp [set_output_columns_indexes]
  | cons arg rest ih =>
    intro arg_i r hd he hvalid hrange hcap
    have hv := hvalid (arg_i, arg) (by simp [List.enumFrom])
    have hr := hrange (arg_i, arg) (by simp [List.enumFrom])
    have hcand : index_arg_candidates (parsed_arg junk (arg_i, arg)) r.2 =
        spec_indices (parsed_arg junk (arg_i, arg)) r.2.header_name_count := by
      unfold index_arg_candidates spec_indices
      cases hty : (parsed_arg junk (arg_i, arg)).type with
      | none => exact absurd hty hv
      | single => rfl
      | range =>
        have hb := selection_range_bounds arg (junk arg_i).1 (junk arg_i).2 hty
        have hhi := hr hty
        simp only [parsed_arg] at hb hhi ⊢
        have hmin : min ((zsv_select_column_index_selection arg (junk arg_i).1 (junk arg_i).2).hi + 1)
            r.2.max_columns = (zsv_select_column_index_selection arg (junk arg_i).1 (junk arg_i).2).hi + 1 := by
          omega
        rw [hmin]
        apply List.ext_getElem
        · simp
        · intro n h1 h2
          simp only [List.getElem_map, List.getElem_range']
          omega
      | lower_bounded =>
        have hb := selection_lower_bounded_pos arg (junk arg_i).1 (junk arg_i).2 hty
        simp only [parsed_arg] at hb ⊢
        simp [hb]
    simp only [List.enumFrom, List.map_cons, List.flatten_cons, List.length_append] at hcap
    unfold set_output_columns_indexes
    have harg : set_output_columns_index_arg lib
        (zsv_select_column_index_selection arg (junk arg_i).1 (junk arg_i).2) r =
        (r.1, { r.2 with out2in :=
          (r.2.out2in ++ spec_indices (parsed_arg junk (arg_i, arg)) r.2.header_name_count) }) := by
      rw [index_arg_fold]
      have hv2 : (zsv_select_column_index_selection arg (junk arg_i).1 (junk arg_i).2).type ≠
          zsv_select_column_index_selection_type.none := hv
      rw [if_neg hv2]
      have hc2 : index_arg_candidates
          (zsv_select_column_index_selection arg (junk arg_i).1 (junk arg_i).2) r.2 =
          spec_indices (parsed_arg junk (arg_i, arg)) r.2.header_name_count := hcand
      rw [hc2, foldl_add_plain lib _ r.2 hd he (by omega)]
    rw [harg]
    have hstep := ih (arg_i + 1)
      (r.1, { r.2 with out2in :=
        (r.2.out2in ++ spec_indices (parsed_arg junk (arg_i, arg)) r.2.header_name_count) }) hd he
      (fun p hp => hvalid p (by simp [List.enumFrom, hp]))
      (fun p hp => hrange p (by simp [List.enumFrom, hp]))
      (by simp only [List.length_append]; omega)
    rw [hstep]
    simp [List.enumFrom]

/-! ## Claims C1 and C3: index mode and the default selection -/

/-- Claim C1: in index mode (at least one column argument, `-n` given), with
distinct off, no exclusions, an empty output mapping to start with, every
argument a valid specification, every closed range ending below `max_columns`
and at most `max_columns` resolved indices in total,
`zsv_select_set_output_columns` returns 0 and leaves in `out2in` the
concatenation, in argument order, of the indices of each specification; no
other field of the session changes. -/
theorem index_mode_resolution_in_order (lib : zsv_lib) (junk : Nat → Nat × Nat)
    (data : zsv_select_data)
    (hargs : data.col_argc ≠ 0) (hidx : data.use_header_indexes = true)
    (hdistinct : data.distinct = false) (hexcl : data.exclusions = [])
    (hout : data.out2in = [])
    (hvalid : ∀ p ∈ data.col_argv.enum,
      (parsed_arg junk p).type ≠ zsv_select_column_index_selection_type.none)
    (hrange : ∀ p ∈ data.col_argv.enum,
      (parsed_arg junk p).type = zsv_select_column_index_selection_type.range →
        (parsed_arg junk p).hi < data.max_columns)
    (htotal : (spec_out2in junk data).length ≤ data.max_columns) :
    zsv_select_set_output_columns lib junk data =
      some (0, { data with out2in := spec_out2in junk data }) := by
  unfold zsv_select_set_output_columns
  rw [if_neg hargs, if_pos hidx]
  have h := indexes_loop_eq lib junk data.col_argv 0 (0, data) hdistinct hexcl hvalid hrange
    (by simpa [spec_out2in, List.enum, hout] using htotal)
  rw [h]
  simp [spec_out2in, List.enum, hout]

/-- Witness of claim C1: the arguments `3` and `1-2` give `out2in = [2, 0, 1]`. -/
theorem index_mode_resolution_in_order_witness :
    zsv_select_set_output_columns ascii_lib (fun _ => (0, 0))
        { header_aba with col_argv := [[51], [49, 45, 50]], use_header_indexes := true } =
      some (0, { header_aba with
        col_argv := [[51], [49, 45, 50]], use_header_indexes := true, out2in := [2, 0, 1] }) :=
  index_mode_resolution_in_order ascii_lib (fun _ => (0, 0))
    { header_aba with col_argv := [[51], [49, 45, 50]], use_header_indexes := true }
    (by decide) rfl rfl rfl rfl (by decide) (by decide) (by decide)

/-- Claim C3: with no column argument, distinct off, no exclusions, an empty
output mapping to start with and `header_name_count ≤ max_columns`,
`zsv_select_set_output_columns` returns 0 and yields
`out2in = [0, 1, ..., header_name_count - 1]`, so that `output_cols_count`
is `header_name_count`. -/
theorem no_argument_selects_all_columns (lib : zsv_lib) (junk : Nat → Nat × Nat)
    (data : zsv_select_data)
    (hargs : data.col_argc = 0) (hdistinct : data.distinct = false)
    (hexcl : data.exclusions = []) (hout : data.out2in = [])
    (hcap : data.header_name_count ≤ data.max_columns) :
    zsv_select_set_output_columns lib junk data =
        some (0, { data with out2in := List.range data.header_name_count }) ∧
      zsv_select_data.output_cols_count
        { data with out2in := List.range data.header_name_count } = data.header_name_count := by
  constructor
  · unfold zsv_select_set_output_columns
    rw [if_pos hargs, foldl_add_plain lib _ data hdistinct hexcl (by simp [hout, hcap]), hout]
    simp
  · simp [zsv_select_data.output_cols_count]

/-- Witness of claim C3: the header `a,b,a` and no argument give `out2in = [0, 1, 2]`. -/
theorem no_argument_selects_all_columns_witness :
    zsv_select_set_output_columns ascii_lib (fun _ => (0, 0)) header_aba =
        some (0, { header_aba with out2in := [0, 1, 2] }) ∧
      zsv_select_data.output_cols_count { header_aba with out2in := [0, 1, 2] } = 3 :=
  no_argument_selects_all_columns ascii_lib (fun _ => (0, 0)) header_aba rfl rfl rfl rfl
    (by decide)

/-! ## Column resolution as a fold of `zsv_select_add_output_col` -/

theorem same_config_distinct {d d0 : zsv_select_data} (h : same_config d d0) :
    d.distinct = d0.distinct := by
  rw [h]

theorem same_config_exclusions {d d0 : zsv_select_data} (h : same_config d d0) :
    d.exclusions = d0.exclusions := by
  rw [h]

theorem same_config_max_columns {d d0 : zsv_select_data} (h : same_config d d0) :
    d.max_columns = d0.max_columns := by
  rw [h]

theorem same_config_header_name {d d0 : zsv_select_data} (h : same_config d d0) (i : Nat) :
    zsv_select_get_header_name d i = zsv_select_get_header_name d0 i := by
  rw [h]
  rfl

theorem same_config_same_name (lib : zsv_lib) {d d0 : zsv_select_data} (h : same_config d d0)
    (i j : Nat) : same_name lib d i j = same_name lib d0 i j := by
  unfold same_name
  rw [same_config_header_name h i, same_config_header_name h j]

theorem already_have_header_eq (lib : zsv_lib) (d : zsv_select_data) (x : Nat) :
    zsv_select_already_have_header lib d x = d.out2in.any (fun prior => same_name lib d x prior) := by
  unfold zsv_select_already_have_header same_name
  cases zsv_select_get_header_name d x with
  | none => simp
  | some a =>
    simp only
    congr 1
    funext prior
    cases zsv_select_get_header_name d prior <;> rfl

theorem excluded_eq (lib : zsv_lib) (d : zsv_select_data) (x : Nat) :
    zsv_select_excluded_current_header_name lib d x =
      match zsv_select_get_header_name d x with
      | some a => d.exclusions.any (fun e => lib.stricmp a e == 0)
      | none => false := by
  unfold zsv_select_excluded_current_header_name zsv_select_data.exclusion_count
  by_cases h : d.exclusions = []
  · cases zsv_select_get_header_name d x <;> simp [h]
  · have : d.exclusions.length ≠ 0 := by
      intro hl
      exact h (List.length_eq_zero.mp hl)
    rw [if_pos this]

theorem foldl_add_invariant (lib : zsv_lib) (d0 : zsv_select_data) (Q : List Nat → Prop)
    (hstep : ∀ (d : zsv_select_data) (x : Nat), same_config d d0 → Q d.out2in →
      add_accepts lib d x = true → Q (d.out2in ++ [x])) :
    ∀ (cands : List Nat) (d : zsv_select_data), same_config d d0 → Q d.out2in →
      Q (cands.foldl (zsv_select_add_output_col lib) d).out2in := by
  intro cands
  induction cands with
  | nil => intro d _ hq; exact hq
  | cons x xs ih =>
    intro d hc hq
    rw [List.foldl_cons]
    apply ih _ (same_config_add lib d d0 x hc)
    rw [add_output_col_eq]
    by_cases hacc : add_accepts lib d x = true
    · simp only [hacc, if_true]
      exact hstep d x hc hq hacc
    · simp only [hacc]
      exact hq

theorem indexes_loop_is_fold (lib : zsv_lib) (junk : Nat → Nat × Nat) (args : List (List Nat)) :
    ∀ (arg_i : Nat) (r : Int × zsv_select_data),
      ∃ cands : List Nat, (set_output_columns_indexes lib junk args arg_i r).2 =
        cands.foldl (zsv_select_add_output_col lib) r.2 := by
  induction args with
  | nil => intro arg_i r; exact ⟨[], rfl⟩
  | cons arg rest ih =>
    intro arg_i r
    unfold set_output_columns_indexes
    obtain ⟨cands, hc⟩ := ih (arg_i + 1) (set_output_columns_index_arg lib
      (zsv_select_column_index_selection arg (junk arg_i).1 (junk arg_i).2) r)
    refine ⟨index_arg_candidates
      (zsv_select_column_index_selection arg (junk arg_i).1 (junk arg_i).2) r.2 ++ cands, ?_⟩
    rw [hc, index_arg_fold, List.foldl_append]

theorem names_loop_is_fold (lib : zsv_lib) (args : List (List Nat)) :
    ∀ (r r1 : Int × zsv_select_data), set_output_columns_names lib args r = some r1 →
      ∃ cands : List Nat, r1.2 = cands.foldl (zsv_select_add_output_col lib) r.2 := by
  induction args with
  | nil =>
    intro r r1 h
    simp only [set_output_columns_names, Option.some.injEq] at h
    exact ⟨[], by rw [← h]; rfl⟩
  | cons arg rest ih =>
    intro r r1 h
    unfold set_output_columns_names at h
    cases hf : str_array_ifind lib arg r.2.header_names r.2.header_name_count with
    | none => rw [hf] at h; simp at h
    | some in_pos =>
      rw [hf] at h
      simp only at h
      by_cases hz : in_pos = 0
      · rw [if_pos hz] at h
        exact ih (-1, r.2) r1 h
      · rw [if_neg hz] at h
        obtain ⟨cands, hc⟩ := ih (r.1, zsv_select_add_output_col lib r.2 (in_pos - 1)) r1 h
        exact ⟨(in_pos - 1) :: cands, by rw [hc]; rfl⟩

theorem resolved_is_fold (lib : zsv_lib) (junk : Nat → Nat × Nat) (d d1 : zsv_select_data)
    (err : Int) (h : zsv_select_set_output_columns lib junk d = some (err, d1)) :
    ∃ cands : List Nat, d1 = cands.foldl (zsv_select_add_output_col lib) d := by
  unfold zsv_select_set_output_columns at h
  by_cases h0 : d.col_argc = 0
  · rw [if_pos h0] at h
    simp only [Option.some.injEq, Prod.mk.injEq] at h
    exact ⟨_, h.2.symm⟩
  · rw [if_neg h0] at h
    by_cases hi : d.use_header_indexes = true
    · rw [if_pos hi] at h
      simp only [Option.some.injEq] at h
      obtain ⟨cands, hc⟩ := indexes_loop_is_fold lib junk d.col_argv 0 (0, d)
      rw [h] at hc
      exact ⟨cands, hc⟩
    · rw [if_neg hi] at h
      exact names_loop_is_fold lib d.col_argv (0, d) (err, d1) h

theorem resolved_total (lib : zsv_lib) (junk : Nat → Nat × Nat) (d : zsv_select_data)
    (h : d.col_argc = 0 ∨ d.use_header_indexes = true) :
    (zsv_select_set_output_columns lib junk d).isSome = true := by
  unfold zsv_select_set_output_columns
  by_cases h0 : d.col_argc = 0
  · rw [if_pos h0]; rfl
  · rw [if_neg h0]
    cases h with
    | inl h => exact absurd h h0
    | inr h => rw [if_pos h]; rfl

theorem foldl_add_not_distinct (lib : zsv_lib) (cands : List Nat) :
    ∀ d : zsv_select_data, d.distinct = false →
      d.out2in.length + cands.length ≤ d.max_columns →
      cands.foldl (zsv_select_add_output_col lib) d =
        { d with out2in := (d.out2in ++
          cands.filter (fun i => !zsv_select_excluded_current_header_name lib d i)) } := by
  induction cands with
  | nil => intro d _ _; simp
  | cons x xs ih =>
    intro d hd hcap
    simp only [List.length_cons] at hcap
    rw [List.foldl_cons, add_output_col_eq]
    by_cases hx : zsv_select_excluded_current_header_name lib d x = true
    · have hacc : add_accepts lib d x = false := by simp [add_accepts, hx]
      rw [hacc]
      have hstep := ih d hd (by omega)
      simp only [Bool.false_eq_true, if_false]
      rw [show ({ d with out2in := d.out2in } : zsv_select_data) = d from rfl, hstep]
      simp [List.filter_cons, hx]
    · have hacc : add_accepts lib d x = true := by
        simp [add_accepts, hx, hd, zsv_select_data.output_cols_count]
        omega
      rw [hacc]
      simp only [if_true]
      have hstep := ih { d with out2in := d.out2in ++ [x] } hd
        (by simp only [List.length_append, List.length_cons, List.length_nil]; omega)
      rw [hstep]
      have hfun : (fun i => !zsv_select_excluded_current_header_name lib
          { d with out2in := d.out2in ++ [x] } i) =
          (fun i => !zsv_select_excluded_current_header_name lib d i) := rfl
      rw [hfun]
      simp [List.filter_cons, hx]

theorem same_name_trans (lib : zsv_lib) (d : zsv_select_data)
    (htrans : ∀ a b c, lib.stricmp a b = 0 → lib.stricmp b c = 0 → lib.stricmp a c = 0)
    (i j k : Nat) (h1 : same_name lib d i j = true) (h2 : same_name lib d j k = true) :
    same_name lib d i k = true := by
  unfold same_name at *
  cases hi : zsv_select_get_header_name d i with
  | none => simp [hi] at h1
  | some a =>
    cases hj : zsv_select_get_header_name d j with
    | none => simp [hi, hj] at h1
    | some b =>
      cases hk : zsv_select_get_header_name d k with
      | none => simp [hj, hk] at h2
      | some c =>
        simp only [hi, hj, hk, beq_iff_eq] at h1 h2 ⊢
        exact htrans a b c h1 h2

theorem repeat_has_kept_original (lib : zsv_lib) (d : zsv_select_data)
    (htrans : ∀ a b c, lib.stricmp a b = 0 → lib.stricmp b c = 0 → lib.stricmp a c = 0)
    (n : Nat) :
    ∀ j, j < n → same_name lib d n j = true →
      ∃ k, k < n ∧ first_occurrence lib d k = true ∧ same_name lib d n k = true := by
  intro j
  induction j using Nat.strong_induction_on with
  | _ j ih =>
    intro hj hs
    by_cases hk : first_occurrence lib d j = true
    · exact ⟨j, hj, hk, hs⟩
    · unfold first_occurrence at hk
      simp only [List.all_eq_true, List.mem_range, Bool.not_eq_true', not_forall,
        Bool.not_eq_false] at hk
      obtain ⟨j1, hj1, hs1⟩ := hk
      exact ih j1 hj1 (by omega) (same_name_trans lib d htrans n j j1 hs hs1)

theorem foldl_add_distinct_range (lib : zsv_lib) (d : zsv_select_data)
    (hd : d.distinct = true) (he : d.exclusions = []) (hout : d.out2in = [])
    (htrans : ∀ a b c, lib.stricmp a b = 0 → lib.stricmp b c = 0 → lib.stricmp a c = 0) :
    ∀ n, n ≤ d.max_columns →
      (List.range n).foldl (zsv_select_add_output_col lib) d =
        { d with out2in := (List.range n).filter (first_occurrence lib d) } := by
  intro n
  induction n with
  | zero =>
    intro _
    simp only [List.range_zero, List.foldl_nil, List.filter_nil]
    rw [← hout]
  | succ n ih =>
    intro hn
    rw [List.range_succ, List.foldl_append, ih (by omega), List.foldl_cons, List.foldl_nil,
      add_output_col_eq, List.filter_append]
    have hlen : ((List.range n).filter (first_occurrence lib d)).length ≤ n := by
      have := List.length_filter_le (first_occurrence lib d) (List.range n)
      simpa using this
    have hacc : add_accepts lib { d with out2in := (List.range n).filter (first_occurrence lib d) } n
        = first_occurrence lib d n := by
      unfold add_accepts
      rw [already_have_header_eq, excluded_eq]
      have hcap : decide (zsv_select_data.output_cols_count
          { d with out2in := (List.range n).filter (first_occurrence lib d) } < d.max_columns)
          = true := by
        simp only [zsv_select_data.output_cols_count, decide_eq_true_eq]
        omega
      have hexc : (match zsv_select_get_header_name
            { d with out2in := (List.range n).filter (first_occurrence lib d) } n with
          | some a => List.any d.exclusions (fun e => lib.stricmp a e == 0)
          | none => false) = false := by
        split
        · rw [he]; rfl
        · rfl
      have hsame : (fun prior => same_name lib
          { d with out2in := (List.range n).filter (first_occurrence lib d) } n prior)
          = (fun prior => same_name lib d n prior) := rfl
      show (decide (zsv_select_data.output_cols_count
          { d with out2in := (List.range n).filter (first_occurrence lib d) } < d.max_columns)
        && !(d.distinct && ((List.range n).filter (first_occurrence lib d)).any
          (fun prior => same_name lib
            { d with out2in := (List.range n).filter (first_occurrence lib d) } n prior))
        && !(match zsv_select_get_header_name
            { d with out2in := (List.range n).filter (first_occurrence lib d) } n with
          | some a => List.any d.exclusions (fun e => lib.stricmp a e == 0)
          | none => false)) = first_occurrence lib d n
      rw [hcap, hexc, hsame, hd]
      simp only [Bool.true_and, Bool.not_false, Bool.and_true]
      by_cases hf : first_occurrence lib d n = true
      · rw [hf]
        simp only [Bool.not_eq_true', List.any_eq_false, List.mem_filter, List.mem_range,
          Bool.not_eq_true, and_imp]
        intro k hk _
        unfold first_occurrence at hf
        simp only [List.all_eq_true, List.mem_range, Bool.not_eq_true'] at hf
        exact hf k hk
      · have hf2 : first_occurrence lib d n = false := by simpa using hf
        rw [hf2]
        simp only [Bool.not_eq_false', List.any_eq_true, List.mem_filter, List.mem_range]
        unfold first_occurrence at hf
        simp only [List.all_eq_true, List.mem_range, Bool.not_eq_true', not_forall,
          Bool.not_eq_false] at hf
        obtain ⟨j, hj, hs⟩ := hf
        obtain ⟨k, hk, hkf, hks⟩ := repeat_has_kept_original lib d htrans n j hj hs
        exact ⟨k, ⟨hk, hkf⟩, hks⟩
    rw [hacc]
    by_cases hf : first_occurrence lib d n = true
    · simp [hf]
    · have hf2 : first_occurrence lib d n = false := by simpa using hf
      simp [hf2]

theorem ascii_stricmp_eq_zero (a b : List Nat) :
    ascii_stricmp a b = 0 ↔ a.map ascii_tolower = b.map ascii_tolower := by
  unfold ascii_stricmp
  split_ifs with h
  · simp [h]
  · simp [h]

theorem ascii_stricmp_symm (a b : List Nat) (h : ascii_lib.stricmp a b = 0) :
    ascii_lib.stricmp b a = 0 :=
  (ascii_stricmp_eq_zero b a).mpr ((ascii_stricmp_eq_zero a b).mp h).symm

theorem ascii_stricmp_trans (a b c : List Nat) (h1 : ascii_lib.stricmp a b = 0)
    (h2 : ascii_lib.stricmp b c = 0) : ascii_lib.stricmp a c = 0 :=
  (ascii_stricmp_eq_zero a c).mpr
    (((ascii_stricmp_eq_zero a b).mp h1).trans ((ascii_stricmp_eq_zero b c).mp h2))

/-! ## Claims C4 and C5: distinct mode and exclusions -/

/-- Claim C4: when distinct is set (the output mapping empty to start with, and
`zsv_stricmp` finding equality symmetrically and transitively), resolution
always returns without a column argument and in index mode; whenever it
returns, no two entries of the resulting `out2in` refer to columns whose
recorded header names `zsv_stricmp` finds equal; and with no column argument
(no exclusions, `header_name_count ≤ max_columns`) `out2in` is the ascending
list of the columns that do not repeat the name of a column in front of them. -/
theorem distinct_mode_keeps_first_occurrences (lib : zsv_lib) (junk : Nat → Nat × Nat)
    (data : zsv_select_data)
    (hdistinct : data.distinct = true) (hout : data.out2in = [])
    (hsym : ∀ a b, lib.stricmp a b = 0 → lib.stricmp b a = 0)
    (htrans : ∀ a b c, lib.stricmp a b = 0 → lib.stricmp b c = 0 → lib.stricmp a c = 0) :
    (data.col_argc = 0 ∨ data.use_header_indexes = true →
        (zsv_select_set_output_columns lib junk data).isSome = true) ∧
    (∀ err d1, zsv_select_set_output_columns lib junk data = some (err, d1) →
        d1.out2in.Pairwise (fun x y => ∀ a b, zsv_select_get_header_name d1 x = some a →
          zsv_select_get_header_name d1 y = some b →
            lib.stricmp a b ≠ 0 ∧ lib.stricmp b a ≠ 0)) ∧
    (data.col_argc = 0 → data.exclusions = [] → data.header_name_count ≤ data.max_columns →
        zsv_select_set_output_columns lib junk data =
          some (0, { data with out2in :=
            (List.range data.header_name_count).filter (first_occurrence lib data) })) := by
  refine ⟨resolved_total lib junk data, ?_, ?_⟩
  · intro err d1 h
    obtain ⟨cands, hc⟩ := resolved_is_fold lib junk data d1 err h
    have hcfg : same_config d1 data := by
      rw [hc]; exact same_config_foldl lib cands data data (same_config_refl data)
    have hq := foldl_add_invariant lib data
      (fun out => out.Pairwise (fun x y => ∀ a b, zsv_select_get_header_name data x = some a →
          zsv_select_get_header_name data y = some b →
            lib.stricmp a b ≠ 0 ∧ lib.stricmp b a ≠ 0))
      (by
        intro d x hd hq hacc
        rw [List.pairwise_append]
        refine ⟨hq, List.pairwise_singleton _ _, ?_⟩
        intro prior hprior y hy a b ha hb
        rw [List.mem_singleton] at hy
        subst hy
        unfold add_accepts at hacc
        rw [already_have_header_eq, same_config_distinct hd, hdistinct] at hacc
        simp only [Bool.and_eq_true, decide_eq_true_eq, Bool.true_and, Bool.not_eq_true',
          List.any_eq_false] at hacc
        have hs := hacc.1.2 prior hprior
        rw [same_config_same_name lib hd] at hs
        unfold same_name at hs
        rw [hb, ha] at hs
        simp only [beq_iff_eq] at hs
        exact ⟨fun h0 => hs (hsym a b h0), hs⟩)
      cands data (same_config_refl data) (by rw [hout]; exact List.Pairwise.nil)
    rw [← hc] at hq
    refine hq.imp ?_
    intro x y hxy a b ha hb
    rw [same_config_header_name hcfg] at ha hb
    exact hxy a b ha hb
  · intro hargs hexcl hcap
    unfold zsv_select_set_output_columns
    rw [if_pos hargs, foldl_add_distinct_range lib data hdistinct hexcl hout htrans _ hcap]

/-- Witness of claim C4: the header `a,b,a` with distinct and no column
argument gives `out2in = [0, 1]`. -/
theorem distinct_mode_keeps_first_occurrences_witness :
    zsv_select_set_output_columns ascii_lib (fun _ => (0, 0)) { header_aba with distinct := true }
      = some (0, { header_aba with distinct := true, out2in := [0, 1] }) :=
  (distinct_mode_keeps_first_occurrences ascii_lib (fun _ => (0, 0))
    { header_aba with distinct := true } rfl rfl ascii_stricmp_symm ascii_stricmp_trans).2.2
    rfl rfl (by decide)

/-- Claim C5: with the output mapping empty to start with, resolution always
returns without a column argument and in index mode; whenever it returns, no
entry of the resulting `out2in` refers to a column whose recorded header name
`zsv_stricmp` finds equal to an entry of the exclusion set; and with no
column argument, distinct off and `header_name_count ≤ max_columns`, `out2in`
is the ascending list of the header columns whose name matches no exclusion. -/
theorem excluded_names_are_left_out (lib : zsv_lib) (junk : Nat → Nat × Nat)
    (data : zsv_select_data) (hout : data.out2in = []) :
    (data.col_argc = 0 ∨ data.use_header_indexes = true →
        (zsv_select_set_output_columns lib junk data).isSome = true) ∧
    (∀ err d1, zsv_select_set_output_columns lib junk data = some (err, d1) →
        ∀ x ∈ d1.out2in, ∀ a, zsv_select_get_header_name d1 x = some a →
          ∀ e ∈ d1.exclusions, lib.stricmp a e ≠ 0) ∧
    (data.col_argc = 0 → data.distinct = false → data.header_name_count ≤ data.max_columns →
        zsv_select_set_output_columns lib junk data =
          some (0, { data with out2in :=
            ((List.range data.header_name_count).filter (fun i => !matches_exclusion lib data i)) })) := by
  refine ⟨resolved_total lib junk data, ?_, ?_⟩
  · intro err d1 h
    obtain ⟨cands, hc⟩ := resolved_is_fold lib junk data d1 err h
    have hcfg : same_config d1 data := by
      rw [hc]; exact same_config_foldl lib cands data data (same_config_refl data)
    have hq := foldl_add_invariant lib data
      (fun out => ∀ x ∈ out, ∀ a, zsv_select_get_header_name data x = some a →
          ∀ e ∈ data.exclusions, lib.stricmp a e ≠ 0)
      (by
        intro d x hd hq hacc y hy a ha e he
        rw [List.mem_append, List.mem_singleton] at hy
        cases hy with
        | inl hy => exact hq y hy a ha e he
        | inr hy =>
          subst hy
          unfold add_accepts at hacc
          rw [excluded_eq, same_config_header_name hd, ha, same_config_exclusions hd] at hacc
          simp only [Bool.and_eq_true, Bool.not_eq_true', List.any_eq_false, beq_iff_eq] at hacc
          exact hacc.2 e he)
      cands data (same_config_refl data) (by rw [hout]; intro x hx; cases hx)
    rw [← hc] at hq
    intro x hx a ha e he
    rw [same_config_header_name hcfg] at ha
    rw [same_config_exclusions hcfg] at he
    exact hq x hx a ha e he
  · intro hargs hdistinct hcap
    unfold zsv_select_set_output_columns
    rw [if_pos hargs, foldl_add_not_distinct lib _ data hdistinct (by simp [hout, hcap]), hout]
    have hfun : (fun i => !zsv_select_excluded_current_header_name lib data i) =
        (fun i => !matches_exclusion lib data i) := by
      funext i
      rw [excluded_eq]
      rfl
    rw [hfun]
    rfl

/-- Witness of claim C5: the header `a,b,a` with the exclusion `a` and no column
argument gives `out2in = [1]`. -/
theorem excluded_names_are_left_out_witness :
    zsv_select_set_output_columns ascii_lib (fun _ => (0, 0))
        { header_aba with exclusions := [[97]] }
      = some (0, { header_aba with exclusions := [[97]], out2in := [1] }) :=
  (excluded_names_are_left_out ascii_lib (fun _ => (0, 0))
    { header_aba with exclusions := [[97]] } rfl).2.2 rfl rfl (by decide)

/-! ## Claim C2: name mode -/
theorem str_array_ifind_loop_eq (lib : zsv_lib) (needle : List Nat)
    (haystack : List (Option (List Nat))) :
    ∀ (n i : Nat), (∀ k, i ≤ k → k < i + n → (haystack.getD k none).isSome = true) →
      str_array_ifind_loop lib needle haystack n i =
        some (match (List.range' i n).find? (fun k =>
            match haystack.getD k none with
            | some h => lib.stricmp needle h == 0
            | none => false) with
          | some k => k + 1
          | none => 0) := by
  intro n
  induction n with
  | zero => intro i _; rfl
  | succ n ih =>
    intro i hp
    unfold str_array_ifind_loop
    have hi := hp i (le_refl i) (by omega)
    cases hh : haystack.getD i none with
    | none => rw [hh] at hi; simp at hi
    | some h =>
      simp only [List.range'_succ, List.find?_cons, hh]
      by_cases hz : lib.stricmp needle h = 0
      · simp [hz]
      · have hb : (lib.stricmp needle h == 0) = false := by simp [hz]
        rw [if_neg hz, hb]
        exact ih (i + 1) (fun k hk1 hk2 => hp k (by omega) (by omega))

theorem str_array_ifind_eq (lib : zsv_lib) (data : zsv_select_data) (needle : List Nat)
    (hp : names_present data) :
    str_array_ifind lib needle data.header_names data.header_name_count =
      some (match lowest_match lib data needle with
        | some k => k + 1
        | none => 0) := by
  unfold str_array_ifind lowest_match
  rw [str_array_ifind_loop_eq lib needle data.header_names data.header_name_count 0
    (fun k _ hk => hp k (by omega)), List.range_eq_range']

theorem lowest_match_same_config (lib : zsv_lib) {d d0 : zsv_select_data}
    (h : same_config d d0) (needle : List Nat) :
    lowest_match lib d needle = lowest_match lib d0 needle := by
  rw [h]
  rfl

theorem names_loop_eq (lib : zsv_lib) (d0 : zsv_select_data) (hp : names_present d0)
    (hd : d0.distinct = false) (he : d0.exclusions = []) (args : List (List Nat)) :
    ∀ (r : Int × zsv_select_data), same_config r.2 d0 →
      r.2.out2in.length + args.length ≤ d0.max_columns →
      set_output_columns_names lib args r =
        some (if args.all (fun a => (lowest_match lib d0 a).isSome) then r.1 else -1,
          { d0 with out2in := r.2.out2in ++ args.filterMap (lowest_match lib d0) }) := by
  induction args with
  | nil =>
    intro r hc _
    simp only [set_output_columns_names, List.all_nil, if_true, List.filterMap_nil,
      List.append_nil]
    rw [← hc]
  | cons arg rest ih =>
    intro r hc hcap
    simp only [List.length_cons] at hcap
    unfold set_output_columns_names
    have hpr : names_present r.2 := by
      rw [hc]
      exact hp
    rw [str_array_ifind_eq lib r.2 arg hpr, lowest_match_same_config lib hc]
    cases hl : lowest_match lib d0 arg with
    | none =>
      simp only [if_true]
      rw [ih (-1, r.2) hc (by simp only; omega)]
      simp [hl]
    | some k =>
      simp only [Nat.add_one_ne_zero, if_false, Nat.add_sub_cancel]
      have hadd : zsv_select_add_output_col lib r.2 k =
          { r.2 with out2in := r.2.out2in ++ [k] } := by
        have := foldl_add_plain lib [k] r.2 (by rw [same_config_distinct hc, hd])
          (by rw [same_config_exclusions hc, he])
          (by rw [same_config_max_columns hc]; simp only [List.length_cons, List.length_nil]; omega)
        simpa using this
      rw [hadd, ih (r.1, { r.2 with out2in := r.2.out2in ++ [k] })
        (by
          have := same_config_add lib r.2 d0 k hc
          rw [hadd] at this
          exact this)
        (by simp only [List.length_append, List.length_cons, List.length_nil]; omega)]
      simp [hl]

/-- Name-mode resolution when every header column has a recorded name: each
requested name resolves to the lowest matching input index, `out2in` lists
the indices found in request order, and the result is an error exactly when
some requested name has no match. -/
theorem name_mode_resolution_with_names_present (lib : zsv_lib) (junk : Nat → Nat × Nat)
    (data : zsv_select_data)
    (hargs : data.col_argc ≠ 0) (hidx : data.use_header_indexes = false)
    (hdistinct : data.distinct = false) (hexcl : data.exclusions = [])
    (hout : data.out2in = []) (hcap : data.col_argv.length ≤ data.max_columns)
    (hnames : names_present data) :
    ∃ err, zsv_select_set_output_columns lib junk data =
        some (err, { data with out2in := data.col_argv.filterMap (lowest_match lib data) }) ∧
      (err ≠ 0 ↔ ∃ a ∈ data.col_argv, lowest_match lib data a = none) := by
  have hloop := names_loop_eq lib data hnames hdistinct hexcl data.col_argv (0, data)
    (same_config_refl data) (by simp [hout, hcap])
  simp only [hout, List.nil_append] at hloop
  refine ⟨if data.col_argv.all (fun a => (lowest_match lib data a).isSome) then 0 else -1,
    ?_, ?_⟩
  · unfold zsv_select_set_output_columns
    rw [if_neg hargs, if_neg (by simp [hidx])]
    exact hloop
  by_cases hall : (data.col_argv.all (fun a => (lowest_match lib data a).isSome)) = true
  · rw [if_pos hall]
    simp only [ne_eq, not_true_eq_false, false_iff, not_exists, not_and]
    intro a ha hn
    rw [List.all_eq_true] at hall
    have := hall a ha
    rw [hn] at this
    simp at this
  · rw [if_neg hall]
    simp only [ne_eq, Int.reduceNeg, Int.neg_eq_zero, one_ne_zero, not_false_eq_true, true_iff]
    rw [List.all_eq_true] at hall
    push_neg at hall
    obtain ⟨a, ha, hn⟩ := hall
    refine ⟨a, ha, ?_⟩
    cases hl : lowest_match lib data a with
    | none => rfl
    | some k => rw [hl] at hn; simp at hn

/-- Claim C2, the failing input: after the header row whose first cell is empty
and whose second cell is `b`, column 0 has no recorded name although
`header_name_count` is 2; requesting the column `b` by name then hands the
missing name to `zsv_stricmp` and resolution does not return. -/
theorem name_lookup_meets_missing_header_name :
    (header_row_cells ascii_lib (MAIN_any_clean (MAIN_init 10))
        [⟨[], false⟩, ⟨[98], false⟩] 0 ((MAIN_init 10).header_names, 0)).map
      (fun r => (r.1.take 2, r.2)) = some ([none, some [98]], 2) ∧
    str_array_ifind ascii_lib [98] [none, some [98]] 2 = none ∧
    (parse_rows ascii_lib (fun _ => (0, 0)) (fun _ => 0) [[⟨[], false⟩, ⟨[98], false⟩]]
      (MAIN_any_clean { MAIN_init 10 with col_argv := [[98]] })).isNone = true := by
  refine ⟨by decide, by decide, by rfl⟩

/-! ## Lemmas on cell cleaning and the search filter -/


theorem memmem_isSome_iff (h needle : List Nat) :
    (memmem h needle).isSome = true ↔ needle <:+: h := by
  induction h with
  | nil =>
    unfold memmem
    rw [List.infix_nil]
    cases needle <;> simp
  | cons a t ih =>
    unfold memmem
    rw [List.infix_cons_iff, ← ih, ← List.isPrefixOf_iff_prefix]
    by_cases hp : needle.isPrefixOf (a :: t) = true
    · simp [hp]
    · simp [hp]

theorem memmem_some_split (needle : List Nat) :
    ∀ (h : List Nat) (p : Nat), memmem h needle = some p →
      ∃ A B, h = A ++ needle ++ B ∧ A.length = p := by
  intro h
  induction h with
  | nil =>
    intro p hm
    unfold memmem at hm
    split_ifs at hm with he
    simp only [Option.some.injEq] at hm
    exact ⟨[], [], by simp [List.isEmpty_iff.mp he], by simp [hm]⟩
  | cons a t ih =>
    intro p hm
    unfold memmem at hm
    split_ifs at hm with hp
    · simp only [Option.some.injEq] at hm
      obtain ⟨B, hB⟩ := List.isPrefixOf_iff_prefix.mp hp
      exact ⟨[], B, by simp [hB], by simp [hm]⟩
    · cases hq : memmem t needle with
      | none => simp [hq] at hm
      | some q =>
        rw [hq] at hm
        simp only [Option.map_some', Option.some.injEq] at hm
        obtain ⟨A, B, hAB, hlen⟩ := ih q hq
        exact ⟨a :: A, B, by simp [hAB], by simp [hlen, hm]⟩

theorem lineend_count_le (s : List Nat) : lineend_count s ≤ s.length :=
  List.countP_le_length _

theorem lineend_replace_some (c : Nat) (hc13 : c ≠ 13) (hc10 : c ≠ 10) (pat : List Nat)
    (hpat : pat ∈ to_replace) :
    ∀ (fuel : Nat) (v : cell_view), lineend_count v.str < fuel →
      ∃ v1, lineend_replace c pat fuel v = some v1 := by
  intro fuel
  induction fuel with
  | zero => intro v h; omega
  | succ fuel ih =>
    intro v h
    unfold lineend_replace
    cases hm : memmem v.str pat with
    | none => exact ⟨v, rfl⟩
    | some p =>
      obtain ⟨A, B, hAB, hlen⟩ := memmem_some_split pat v.str p hm
      simp only
      simp only [to_replace, List.mem_cons, List.mem_singleton, List.not_mem_nil, or_false] at hpat
      rcases hpat with hp | hp | hp
      · subst hp
        rw [if_neg (by decide)]
        apply ih
        rw [hAB] at h ⊢
        subst hlen
        simp only [lineend_count, List.append_assoc, List.cons_append, List.nil_append,
          List.countP_append, List.countP_cons, List.take_left', List.length_append] at h ⊢
        have hd : List.drop (A.length + 2) (A ++ 13 :: 10 :: B) = B := by
          rw [List.drop_append]
          rfl
        rw [hd]
        simp [hc13, hc10] at h ⊢
        omega
      · subst hp
        rw [if_pos (by decide)]
        apply ih
        rw [hAB] at h ⊢
        subst hlen
        simp only [lineend_count, List.append_assoc, List.cons_append, List.nil_append,
          List.countP_append, List.countP_cons] at h ⊢
        rw [List.set_append]
        simp only [lt_self_iff_false, if_false, Nat.sub_self, List.set_cons_zero,
          List.countP_append, List.countP_cons]
        simp [hc13, hc10] at h ⊢
        omega
      · subst hp
        rw [if_pos (by decide)]
        apply ih
        rw [hAB] at h ⊢
        subst hlen
        simp only [lineend_count, List.append_assoc, List.cons_append, List.nil_append,
          List.countP_append, List.countP_cons] at h ⊢
        rw [List.set_append]
        simp only [lt_self_iff_false, if_false, Nat.sub_self, List.set_cons_zero,
          List.countP_append, List.countP_cons]
        simp [hc13, hc10] at h ⊢
        omega

theorem lineend_loops_some (c : Nat) (hc13 : c ≠ 13) (hc10 : c ≠ 10) :
    ∀ (pats : List (List Nat)), (∀ p ∈ pats, p ∈ to_replace) →
      ∀ v : cell_view, ∃ v1, lineend_loops c pats v = some v1 := by
  intro pats
  induction pats with
  | nil => intro _ v; exact ⟨v, rfl⟩
  | cons pat pats ih =>
    intro hp v
    unfold lineend_loops
    obtain ⟨v1, h1⟩ := lineend_replace_some c hc13 hc10 pat (hp pat (by simp))
      (v.str.length + 1) v (by have := lineend_count_le v.str; omega)
    rw [h1]
    exact ih (fun p hpp => hp p (by simp [hpp])) v1

theorem cell_clean_some (lib : zsv_lib) (data : zsv_select_data) (hs : lineend_safe data)
    (s : List Nat) (q : Bool) : ∃ v, zsv_select_cell_clean lib data s q = some v := by
  unfold zsv_select_cell_clean
  by_cases h1 : data.any_clean = false
  · rw [if_pos h1]; exact ⟨_, rfl⟩
  · rw [if_neg h1]
    simp only
    by_cases h2 : (decide (data.embedded_lineend ≠ 0) && q) = true
    · rw [if_pos h2]
      obtain ⟨v1, hv1⟩ := lineend_loops_some data.embedded_lineend hs.1 hs.2 to_replace
        (fun p hp => hp) (clean_steps lib data s)
      rw [hv1]
      exact ⟨_, rfl⟩
    · rw [if_neg h2]; exact ⟨_, rfl⟩

theorem search_strings_hit_iff (terms : List (List Nat)) (hne : ∀ t ∈ terms, t ≠ [])
    (str : List Nat) :
    search_strings_hit (terms.map (fun t => ⟨some t, t.length⟩)) str = true ↔
      ∃ t ∈ terms, t <:+: str := by
  unfold search_strings_hit
  simp only [List.any_eq_true, List.mem_map]
  constructor
  · rintro ⟨s, ⟨t, ht, rfl⟩, h⟩
    simp only [List.take_length, Bool.and_eq_true, memmem_isSome_iff] at h
    exact ⟨t, ht, h.2⟩
  · rintro ⟨t, ht, hi⟩
    refine ⟨⟨some t, t.length⟩, ⟨t, ht, rfl⟩, ?_⟩
    simp only [List.take_length, Bool.and_eq_true, memmem_isSome_iff]
    refine ⟨?_, hi⟩
    have := hne t ht
    cases t with
    | nil => exact absurd rfl this
    | cons a r => rfl

theorem row_search_hit_cells_iff (lib : zsv_lib) (data : zsv_select_data) :
    ∀ (row : List zsv_cell) (hit : Bool) (row1 : List zsv_cell),
      row_search_hit_cells lib data row = some (hit, row1) →
      (hit = true ↔ ∃ cell ∈ row, ∃ v, zsv_select_cell_clean lib data cell.str cell.quoted = some v ∧
        v.str.length ≠ 0 ∧ search_strings_hit data.search_strings v.str = true) := by
  intro row
  induction row with
  | nil =>
    intro hit row1 h
    simp only [row_search_hit_cells, Option.some.injEq, Prod.mk.injEq] at h
    simp [← h.1]
  | cons cell rest ih =>
    intro hit row1 h
    unfold row_search_hit_cells at h
    cases hc : zsv_select_cell_clean lib data cell.str cell.quoted with
    | none => rw [hc] at h; simp at h
    | some v =>
      rw [hc] at h
      simp only at h
      by_cases hh : (decide (v.str.length ≠ 0) && search_strings_hit data.search_strings v.str) = true
      · rw [if_pos hh] at h
        simp only [Option.some.injEq, Prod.mk.injEq] at h
        rw [← h.1]
        simp only [true_iff]
        simp only [Bool.and_eq_true, decide_eq_true_eq] at hh
        exact ⟨cell, by simp, v, hc, hh.1, hh.2⟩
      · rw [if_neg hh] at h
        cases hr : row_search_hit_cells lib data rest with
        | none => rw [hr] at h; simp at h
        | some r =>
          rw [hr] at h
          simp only [Option.map_some', Option.some.injEq, Prod.mk.injEq] at h
          rw [← h.1, ih r.1 r.2 hr]
          constructor
          · rintro ⟨c, hcm, w, hw⟩
            exact ⟨c, by simp [hcm], w, hw⟩
          · rintro ⟨c, hcm, w, hw1, hw2, hw3⟩
            rw [List.mem_cons] at hcm
            cases hcm with
            | inl heq =>
              subst heq
              rw [hc] at hw1
              simp only [Option.some.injEq] at hw1
              subst hw1
              exact absurd (by simp [hw2, hw3]) hh
            | inr hm => exact ⟨c, hm, w, hw1, hw2, hw3⟩

theorem row_search_hit_cells_some (lib : zsv_lib) (data : zsv_select_data)
    (hs : lineend_safe data) :
    ∀ row : List zsv_cell, ∃ r, row_search_hit_cells lib data row = some r := by
  intro row
  induction row with
  | nil => exact ⟨_, rfl⟩
  | cons cell rest ih =>
    unfold row_search_hit_cells
    obtain ⟨v, hv⟩ := cell_clean_some lib data hs cell.str cell.quoted
    obtain ⟨r, hr⟩ := ih
    rw [hv]
    simp only
    split_ifs
    · exact ⟨_, rfl⟩
    · rw [hr]; exact ⟨_, rfl⟩

theorem row_search_hit_some (lib : zsv_lib) (data : zsv_select_data)
    (hs : lineend_safe data) (row : List zsv_cell) :
    ∃ r, zsv_select_row_search_hit lib data row = some r := by
  unfold zsv_select_row_search_hit
  split_ifs
  · exact ⟨_, rfl⟩
  · exact row_search_hit_cells_some lib data hs row

/-! ## The fuel of the replacement loops -/

theorem lineend_replace_fuel_succ (c : Nat) (pat : List Nat) :
    ∀ (fuel : Nat) (v r : cell_view), lineend_replace c pat fuel v = some r →
      lineend_replace c pat (fuel + 1) v = some r := by
  intro fuel
  induction fuel with
  | zero => intro v r h; simp [lineend_replace] at h
  | succ fuel ih =>
    intro v r h
    rw [lineend_replace] at h ⊢
    cases hm : memmem v.str pat with
    | none => rw [hm] at h; exact h
    | some p =>
      rw [hm] at h
      simp only at h ⊢
      split_ifs at h ⊢ with h1
      · exact ih _ r h
      · exact ih _ r h

theorem lineend_replace_fuel_mono (c : Nat) (pat : List Nat) (fuel : Nat) (v r : cell_view)
    (h : lineend_replace c pat fuel v = some r) :
    ∀ more, lineend_replace c pat (fuel + more) v = some r := by
  intro more
  induction more with
  | zero => exact h
  | succ more ih => exact lineend_replace_fuel_succ c pat (fuel + more) v r ih

theorem lineend_replace_pair_some (c : Nat) :
    ∀ (fuel : Nat) (v : cell_view), v.str.length < fuel →
      ∃ v1, lineend_replace c [13, 10] fuel v = some v1 := by
  intro fuel
  induction fuel with
  | zero => intro v h; omega
  | succ fuel ih =>
    intro v h
    unfold lineend_replace
    cases hm : memmem v.str [13, 10] with
    | none => exact ⟨v, rfl⟩
    | some p =>
      obtain ⟨A, B, hAB, hlen⟩ := memmem_some_split [13, 10] v.str p hm
      simp only
      rw [if_neg (by decide)]
      apply ih
      rw [hAB] at h ⊢
      simp only [List.length_append, List.length_cons, List.length_nil, List.length_take,
        List.length_drop] at h ⊢
      omega

theorem lineend_replace_byte_some (c x : Nat) (hcx : c ≠ x) :
    ∀ (fuel : Nat) (v : cell_view), v.str.count x < fuel →
      ∃ v1, lineend_replace c [x] fuel v = some v1 := by
  intro fuel
  induction fuel with
  | zero => intro v h; omega
  | succ fuel ih =>
    intro v h
    unfold lineend_replace
    cases hm : memmem v.str [x] with
    | none => exact ⟨v, rfl⟩
    | some p =>
      obtain ⟨A, B, hAB, hlen⟩ := memmem_some_split [x] v.str p hm
      simp only
      rw [if_pos (by rfl)]
      apply ih
      rw [hAB] at h ⊢
      subst hlen
      simp only [List.append_assoc, List.cons_append, List.nil_append] at h ⊢
      rw [List.set_append]
      simp only [lt_self_iff_false, if_false, Nat.sub_self, List.set_cons_zero,
        List.count_append, List.count_cons] at h ⊢
      simp [hcx] at h ⊢
      omega

theorem lineend_replace_same_byte_none (x : Nat) (v : cell_view) (p : Nat)
    (hm : memmem v.str [x] = some p) :
    ∀ fuel, lineend_replace x [x] fuel v = none := by
  intro fuel
  induction fuel with
  | zero => rfl
  | succ fuel ih =>
    unfold lineend_replace
    rw [hm]
    simp only
    rw [if_pos (by rfl)]
    obtain ⟨A, B, hAB, hlen⟩ := memmem_some_split [x] v.str p hm
    have hset : v.str.set p x = v.str := by
      rw [hAB]
      subst hlen
      simp only [List.append_assoc, List.cons_append, List.nil_append]
      rw [List.set_append]
      simp
    rw [hset]
    exact ih

/-- The fuel of the replacement loops is enough: a loop that has not come to an
end after one step more than the value has bytes never does. -/
theorem lineend_replace_none_forever (c : Nat) (pat : List Nat) (hpat : pat ∈ to_replace)
    (v : cell_view) (h : lineend_replace c pat (v.str.length + 1) v = none) :
    ∀ fuel, lineend_replace c pat fuel v = none := by
  simp only [to_replace, List.mem_cons, List.mem_singleton, List.not_mem_nil, or_false] at hpat
  have hbyte : ∀ x, pat = [x] → ∀ fuel, lineend_replace c pat fuel v = none := by
    intro x hx
    subst hx
    by_cases hcx : c = x
    · subst hcx
      cases hm : memmem v.str [c] with
      | none =>
        unfold lineend_replace at h
        rw [hm] at h
        simp at h
      | some p => exact lineend_replace_same_byte_none c v p hm
    · obtain ⟨v1, hv1⟩ := lineend_replace_byte_some c x hcx (v.str.length + 1) v
        (by have := List.count_le_length x v.str; omega)
      rw [hv1] at h
      simp at h
  rcases hpat with hp | hp | hp
  · subst hp
    obtain ⟨v1, hv1⟩ := lineend_replace_pair_some c (v.str.length + 1) v (by omega)
    rw [hv1] at h
    simp at h
  · exact hbyte 13 hp
  · exact hbyte 10 hp

/-! ## Lemmas on the data row handler -/


theorem output_data_row_cells_some (lib : zsv_lib) (data : zsv_select_data)
    (hs : lineend_safe data) :
    ∀ (cols : List Nat) (first : Bool) (row : List zsv_cell) (w : List writer_call),
      ∃ w1, output_data_row_cells lib data cols first row w = some w1 := by
  intro cols
  induction cols with
  | nil => intro _ _ w; exact ⟨w, rfl⟩
  | cons in_ix rest ih =>
    intro first row w
    unfold output_data_row_cells
    obtain ⟨v, hv⟩ := cell_clean_some lib data hs (zsv_get_cell row in_ix).str
      (zsv_get_cell row in_ix).quoted
    simp only
    rw [hv]
    exact ih _ _ _

theorem output_data_row_eq (lib : zsv_lib) (data d1 : zsv_select_data) (row : List zsv_cell)
    (h : zsv_select_output_data_row lib data row = some d1) :
    d1 = { data with csv_writer := d1.csv_writer } := by
  unfold zsv_select_output_data_row at h
  simp only [Option.map_eq_some'] at h
  obtain ⟨w, _, hw⟩ := h
  rw [← hw]

theorem output_data_row_some (lib : zsv_lib) (data : zsv_select_data) (hs : lineend_safe data)
    (row : List zsv_cell) : ∃ d1, zsv_select_output_data_row lib data row = some d1 := by
  unfold zsv_select_output_data_row
  simp only
  obtain ⟨w1, hw1⟩ := output_data_row_cells_some lib data hs data.out2in
    (!data.prepend_line_number) row
    (if data.prepend_line_number = true then
      data.csv_writer ++ [writer_call.cell_zu true data.data_row_count]
    else data.csv_writer)
  rw [hw1]
  exact ⟨_, rfl⟩

theorem same_session_refl (d : zsv_select_data) : same_session d d := rfl

theorem same_session_trans {d2 d1 d0 : zsv_select_data} (h2 : same_session d2 d1)
    (h1 : same_session d1 d0) : same_session d2 d0 := by
  unfold same_session at *
  rw [h2, h1]

theorem data_row_skip_frame (rnd : Nat → ℚ) (d : zsv_select_data) :
    same_session (data_row_skip rnd d) d ∧
      (data_row_skip rnd d).data_row_count = d.data_row_count ∧
      (data_row_skip rnd d).cancelled = d.cancelled ∧
      (data_row_skip rnd d).csv_writer = d.csv_writer := by
  unfold data_row_skip
  split_ifs <;> exact ⟨rfl, rfl, rfl, rfl⟩

theorem data_row_output_frame (lib : zsv_lib) (d d1 : zsv_select_data) (row : List zsv_cell)
    (e : Bool) (h : data_row_output lib d row = some (d1, e)) :
    same_session d1 d ∧ d1.data_row_count = d.data_row_count ∧
      d1.skip_data_rows = d.skip_data_rows := by
  unfold data_row_output at h
  by_cases hskip : (!d.skip_this_row) = true
  · rw [if_pos hskip] at h
    cases hsr : zsv_select_row_search_hit lib d row with
    | none => rw [hsr] at h; simp at h
    | some r =>
      obtain ⟨hit, row1⟩ := r
      rw [hsr] at h
      simp only at h
      by_cases hhit : hit = true
      · rw [if_pos hhit] at h
        cases ho : zsv_select_output_data_row lib d row1 with
        | none => rw [ho] at h; simp at h
        | some data1 =>
          rw [ho] at h
          simp only at h
          have hd := output_data_row_eq lib d data1 row1 ho
          split_ifs at h
          · simp only [Option.some.injEq, Prod.mk.injEq] at h
            rw [← h.1, hd]
            exact ⟨rfl, rfl, rfl⟩
          · simp only [Option.some.injEq, Prod.mk.injEq] at h
            rw [← h.1, hd]
            exact ⟨rfl, rfl, rfl⟩
      · rw [if_neg hhit] at h
        simp only [Option.some.injEq, Prod.mk.injEq] at h
        rw [← h.1]
        exact ⟨rfl, rfl, rfl⟩
  · rw [if_neg hskip] at h
    simp only [Option.some.injEq, Prod.mk.injEq] at h
    rw [← h.1]
    exact ⟨rfl, rfl, rfl⟩

theorem data_row_frame (lib : zsv_lib) (rnd : Nat → ℚ) (d d1 : zsv_select_data)
    (row : List zsv_cell) (e : Bool) (h : zsv_select_data_row lib rnd d row = some (d1, e)) :
    same_session d1 d ∧ d1.data_row_count = d.data_row_count + 1 := by
  unfold zsv_select_data_row at h
  simp only at h
  split_ifs at h
  · simp only [Option.some.injEq, Prod.mk.injEq] at h
    rw [← h.1]
    exact ⟨rfl, rfl⟩
  · obtain ⟨h1, h2, _⟩ := data_row_output_frame lib _ d1 row e h
    obtain ⟨h3, h4, _⟩ := data_row_skip_frame rnd
      { d with data_row_count := d.data_row_count + 1 }
    refine ⟨same_session_trans h1 (same_session_trans h3 rfl), ?_⟩
    rw [h2, h4]

theorem data_row_output_some (lib : zsv_lib) (d : zsv_select_data) (hs : lineend_safe d)
    (row : List zsv_cell) : ∃ r, data_row_output lib d row = some r := by
  unfold data_row_output
  split_ifs
  · obtain ⟨r, hr⟩ := row_search_hit_some lib d hs row
    obtain ⟨hit, row1⟩ := r
    rw [hr]
    simp only
    split_ifs
    · obtain ⟨d1, hd1⟩ := output_data_row_some lib d hs row1
      rw [hd1]
      simp only
      split_ifs <;> exact ⟨_, rfl⟩
    · exact ⟨_, rfl⟩
  · exact ⟨_, rfl⟩

theorem same_session_lineend_safe {d d0 : zsv_select_data} (h : same_session d d0)
    (hs : lineend_safe d0) : lineend_safe d := by
  rw [h]
  exact hs

theorem data_row_some (lib : zsv_lib) (rnd : Nat → ℚ) (d : zsv_select_data)
    (hs : lineend_safe d) (row : List zsv_cell) :
    ∃ r, zsv_select_data_row lib rnd d row = some r := by
  unfold zsv_select_data_row
  simp only
  split_ifs
  · exact ⟨_, rfl⟩
  · exact data_row_output_some lib _
      (same_session_lineend_safe
        (data_row_skip_frame rnd { d with data_row_count := d.data_row_count + 1 }).1 hs) row

theorem parse_rows_data_cons (lib : zsv_lib) (junk : Nat → Nat × Nat) (rnd : Nat → ℚ)
    (row : List zsv_cell) (rest : List (List zsv_cell)) (d : zsv_select_data)
    (hd : d.row_handler = row_handler.zsv_select_data_row) :
    parse_rows lib junk rnd (row :: rest) d =
      match zsv_select_data_row lib rnd d row with
      | none => none
      | some r => (parse_rows lib junk rnd rest r.1).map (fun q => (q.1, r.2 :: q.2)) := by
  rw [parse_rows, hd]

theorem same_session_row_handler {d d0 : zsv_select_data} (h : same_session d d0) :
    d.row_handler = d0.row_handler := by
  rw [h]

theorem parse_rows_data_some (lib : zsv_lib) (junk : Nat → Nat × Nat) (rnd : Nat → ℚ) :
    ∀ (rows : List (List zsv_cell)) (d : zsv_select_data),
      d.row_handler = row_handler.zsv_select_data_row → lineend_safe d →
      ∃ r, parse_rows lib junk rnd rows d = some r := by
  intro rows
  induction rows with
  | nil => intro d _ _; exact ⟨_, rfl⟩
  | cons row rest ih =>
    intro d hd hs
    rw [parse_rows_data_cons lib junk rnd row rest d hd]
    obtain ⟨r, hr⟩ := data_row_some lib rnd d hs row
    rw [hr]
    obtain ⟨hf, _⟩ := data_row_frame lib rnd d r.1 row r.2 (by rw [hr])
    obtain ⟨q, hq⟩ := ih r.1 (by rw [same_session_row_handler hf, hd])
      (same_session_lineend_safe hf hs)
    simp only
    rw [hq]
    exact ⟨_, rfl⟩

theorem search_hit_no_strings (lib : zsv_lib) (d : zsv_select_data) (row : List zsv_cell)
    (h : d.search_strings = []) : zsv_select_row_search_hit lib d row = some (true, row) := by
  unfold zsv_select_row_search_hit
  rw [h]
  rfl

theorem sampling_every_step (lib : zsv_lib) (rnd : Nat → ℚ) (n : Nat) (hn : 0 < n)
    (d d1 : zsv_select_data) (row : List zsv_cell) (e : Bool)
    (hcfg : sampling_every n d) (h : zsv_select_data_row lib rnd d row = some (d1, e)) :
    sampling_every n d1 ∧ d1.data_row_count = d.data_row_count + 1 ∧
      e = decide (row.length ≠ 0 ∧ (d.data_row_count + 1) % n = 1) := by
  obtain ⟨hph, hsn, hpct, hskip, hss, hlim, hcanc⟩ := hcfg
  obtain ⟨hf, hcount⟩ := data_row_frame lib rnd d d1 row e h
  have hd1 : d1.row_handler = row_handler.zsv_select_data_row ∧ d1.sample_every_n = n ∧
      d1.sample_pct = 0 ∧ d1.search_strings = [] ∧ d1.data_rows_limit = 0 := by
    rw [hf]
    exact ⟨hph, hsn, hpct, hss, hlim⟩
  unfold zsv_select_data_row at h
  simp only at h
  by_cases hrow : row.length = 0
  · rw [if_pos (Or.inl hrow)] at h
    simp only [Option.some.injEq, Prod.mk.injEq] at h
    refine ⟨⟨hd1.1, hd1.2.1, hd1.2.2.1, ?_, hd1.2.2.2.1, hd1.2.2.2.2, ?_⟩, hcount, ?_⟩
    · rw [← h.1]; exact hskip
    · rw [← h.1]; exact hcanc
    · rw [← h.2]; simp [hrow]
  · rw [if_neg (by simp [hrow, hcanc])] at h
    have hskipd : data_row_skip rnd { d with data_row_count := d.data_row_count + 1 } =
        { d with data_row_count := d.data_row_count + 1,
                 skip_this_row := !decide ((d.data_row_count + 1) % n = 1) } := by
      unfold data_row_skip
      have hn0 : n ≠ 0 := by omega
      simp only [hskip, ne_eq, not_true_eq_false, if_false, hsn, hn0, not_false_eq_true,
        true_or, if_true, sample_skip, hpct, false_and, true_and]
      by_cases hm : (d.data_row_count + 1) % n = 1
      · simp [hm]
      · simp [hm]
    rw [hskipd] at h
    unfold data_row_output at h
    by_cases hm : (d.data_row_count + 1) % n = 1
    · simp only [hm, decide_True, Bool.not_true, Bool.not_false, if_true] at h
      have hsh := search_hit_no_strings lib
        { d with data_row_count := d.data_row_count + 1, skip_this_row := false } row hss
      rw [hsh] at h
      simp only [if_true] at h
      cases ho : zsv_select_output_data_row lib
          { d with data_row_count := d.data_row_count + 1, skip_this_row := false } row with
      | none => rw [ho] at h; simp at h
      | some data1 =>
        rw [ho] at h
        have hd := output_data_row_eq lib _ data1 row ho
        have hl : data1.data_rows_limit = 0 := by rw [hd]; exact hlim
        simp only [hl, gt_iff_lt, lt_self_iff_false, false_and, if_false, Option.some.injEq,
          Prod.mk.injEq] at h
        refine ⟨⟨hd1.1, hd1.2.1, hd1.2.2.1, ?_, hd1.2.2.2.1, hd1.2.2.2.2, ?_⟩, hcount, ?_⟩
        · rw [← h.1, hd]; exact hskip
        · rw [← h.1, hd]; exact hcanc
        · rw [← h.2]; simp [hrow, hm]
    · simp only [hm, decide_False, Bool.not_false, Bool.not_true, Bool.false_eq_true,
        if_false, Option.some.injEq, Prod.mk.injEq] at h
      refine ⟨⟨hd1.1, hd1.2.1, hd1.2.2.1, ?_, hd1.2.2.2.1, hd1.2.2.2.2, ?_⟩, hcount, ?_⟩
      · rw [← h.1]; exact hskip
      · rw [← h.1]; exact hcanc
      · rw [← h.2]; simp [hm]

theorem sampling_every_rows (lib : zsv_lib) (junk : Nat → Nat × Nat) (rnd : Nat → ℚ) (n : Nat)
    (hn : 0 < n) :
    ∀ (rows : List (List zsv_cell)) (d d1 : zsv_select_data) (flags : List Bool),
      sampling_every n d → parse_rows lib junk rnd rows d = some (d1, flags) →
      flags = (rows.enumFrom (d.data_row_count + 1)).map
        (fun p => decide (p.2.length ≠ 0 ∧ p.1 % n = 1)) := by
  intro rows
  induction rows with
  | nil =>
    intro d d1 flags _ h
    simp only [parse_rows, Option.some.injEq, Prod.mk.injEq] at h
    simp [← h.2]
  | cons row rest ih =>
    intro d d1 flags hcfg h
    rw [parse_rows_data_cons lib junk rnd row rest d hcfg.1] at h
    cases hr : zsv_select_data_row lib rnd d row with
    | none => rw [hr] at h; simp at h
    | some r =>
      obtain ⟨dm, e⟩ := r
      rw [hr] at h
      simp only [Option.map_eq_some'] at h
      obtain ⟨q, hq, hq2⟩ := h
      obtain ⟨hcfg1, hc1, he⟩ := sampling_every_step lib rnd n hn d dm row e hcfg hr
      have := ih dm q.1 q.2 hcfg1 hq
      simp only [Prod.mk.injEq] at hq2
      rw [← hq2.2, this, hc1, he]
      simp [List.enumFrom]

/-- Adding one search string to the defaults of `MAIN` yields the list of nodes
that the theorem on the search filter starts from. -/
theorem search_filter_semantics_setup (term : List Nat) :
    (zsv_select_add_search (MAIN_any_clean (MAIN_init 10)) (some term)).search_strings =
      [term].map (fun t => ⟨some t, t.length⟩) := rfl

/-- Claim C6: `zsv_select_row_search_hit` returns true, without touching the row,
when no search string is configured.  When the search strings are a non-empty
list of non-empty terms (each node as `zsv_select_add_search` builds it), the
call returns whenever the replacement character is neither CR nor LF, and
whenever it returns its result is true exactly if some term is an infix (a
contiguous run of bytes) of the cleaned value of some cell of the row. -/
theorem search_filter_semantics (lib : zsv_lib) (data : zsv_select_data) (row : List zsv_cell) :
    (data.search_strings = [] → zsv_select_row_search_hit lib data row = some (true, row)) ∧
    (∀ terms : List (List Nat), terms ≠ [] → (∀ t ∈ terms, t ≠ []) →
      data.search_strings = terms.map (fun t => ⟨some t, t.length⟩) →
        (lineend_safe data → (zsv_select_row_search_hit lib data row).isSome = true) ∧
        ∀ hit row1, zsv_select_row_search_hit lib data row = some (hit, row1) →
          (hit = true ↔ ∃ t ∈ terms, ∃ cell ∈ row, ∃ v,
            zsv_select_cell_clean lib data cell.str cell.quoted = some v ∧ t <:+: v.str)) := by
  constructor
  · intro h
    unfold zsv_select_row_search_hit
    rw [h]
    rfl
  · intro terms hterms hne hss
    constructor
    · intro hs
      obtain ⟨r, hr⟩ := row_search_hit_some lib data hs row
      rw [hr]
      rfl
    · intro hit row1 h
      unfold zsv_select_row_search_hit at h
      have hnil : data.search_strings.isEmpty = false := by
        rw [hss]
        cases terms with
        | nil => exact absurd rfl hterms
        | cons t ts => rfl
      rw [hnil] at h
      simp only [Bool.false_eq_true, if_false] at h
      rw [row_search_hit_cells_iff lib data row hit row1 h, hss]
      constructor
      · rintro ⟨cell, hc, v, hv, _, hh⟩
        obtain ⟨t, ht, hi⟩ := (search_strings_hit_iff terms hne v.str).mp hh
        exact ⟨t, ht, cell, hc, v, hv, hi⟩
      · rintro ⟨t, ht, cell, hc, v, hv, hi⟩
        refine ⟨cell, hc, v, hv, ?_, (search_strings_hit_iff terms hne v.str).mpr ⟨t, ht, hi⟩⟩
        intro hlen
        have hnil2 : v.str = [] := List.length_eq_zero.mp hlen
        rw [hnil2, List.infix_nil] at hi
        exact hne t ht hi

/-- Witness of claim C6: for the cells `foo` and `bar`, the term `baz` gives no
hit and the term `ba` gives a hit. -/
theorem search_filter_semantics_witness :
    (zsv_select_row_search_hit ascii_lib
        (zsv_select_add_search (MAIN_any_clean (MAIN_init 10)) (some [98, 97, 122]))
        [⟨[102, 111, 111], false⟩, ⟨[98, 97, 114], false⟩]).map Prod.fst = some false ∧
    (zsv_select_row_search_hit ascii_lib
        (zsv_select_add_search (MAIN_any_clean (MAIN_init 10)) (some [98, 97]))
        [⟨[102, 111, 111], false⟩, ⟨[98, 97, 114], false⟩]).map Prod.fst = some true ∧
    (true = true ↔ ∃ t ∈ [[98, 97]],
      ∃ cell ∈ [(⟨[102, 111, 111], false⟩ : zsv_cell), ⟨[98, 97, 114], false⟩], ∃ v,
        zsv_select_cell_clean ascii_lib
          (zsv_select_add_search (MAIN_any_clean (MAIN_init 10)) (some [98, 97]))
          cell.str cell.quoted = some v ∧ t <:+: v.str) :=
  ⟨by decide, by decide,
    ((search_filter_semantics ascii_lib
      (zsv_select_add_search (MAIN_any_clean (MAIN_init 10)) (some [98, 97]))
      [⟨[102, 111, 111], false⟩, ⟨[98, 97, 114], false⟩]).2 [[98, 97]] (by decide) (by decide)
      rfl).2 true
      [⟨[102, 111, 111], false⟩, ⟨[98, 97, 114], false⟩] (by decide)⟩

/-- Claim C10: when `any_clean` is false, `zsv_select_cell_clean` returns, for
every cell content and either value of the quoted flag, the view it was
given (same pointer, same length, same bytes) and the cell buffer holds the
same bytes as before. -/
theorem cell_clean_is_identity_without_any_clean (lib : zsv_lib) (data : zsv_select_data)
    (utf8_value : List Nat) (quoted : Bool) (hclean : data.any_clean = false) :
    ∃ v, zsv_select_cell_clean lib data utf8_value quoted = some v ∧
      v.pre = [] ∧ v.str = utf8_value ∧ v.str.length = utf8_value.length ∧
      v.mem = utf8_value := by
  refine ⟨⟨[], utf8_value, []⟩, ?_, rfl, rfl, rfl, ?_⟩
  · unfold zsv_select_cell_clean
    rw [if_pos hclean]
  · simp [cell_view.mem]

/-- Witness of claim C10: with every cleaning feature off, the quoted cell
` a` followed by CR LF comes back unchanged. -/
theorem cell_clean_is_identity_without_any_clean_witness :
    ∃ v, zsv_select_cell_clean ascii_lib (MAIN_init 10) [32, 97, 13, 10] true = some v ∧
      v.pre = [] ∧ v.str = [32, 97, 13, 10] ∧ v.str.length = [32, 97, 13, 10].length ∧
      v.mem = [32, 97, 13, 10] :=
  cell_clean_is_identity_without_any_clean ascii_lib (MAIN_init 10) [32, 97, 13, 10] true rfl

/-! ## Claims C7, C8 and C9: sampling and the row limit -/

theorem after_header_h_reached :
    parse_rows ascii_lib (fun _ => (0, 0)) (fun _ => 0) [[⟨[104], false⟩]]
      (MAIN_any_clean (MAIN_init 10)) = some (after_header_h, [false]) := by
  rfl

/-- Claim C7: in the data phase with `sample_every_n = n > 0`, `sample_pct = 0`,
no pending skipped data rows, no search string, no row limit and the
cancelled flag clear, any sequence of data rows is handled to the end
whenever the replacement character is neither CR nor LF, and whenever it is
handled to the end the rows handed to `zsv_select_output_data_row` are exactly
those with at least one column whose 1-based `data_row_count` `c` satisfies
`c mod n = 1`. -/
theorem deterministic_sampling_keeps_count_mod_n (lib : zsv_lib) (junk : Nat → Nat × Nat)
    (rnd : Nat → ℚ) (n : Nat) (data : zsv_select_data) (rows : List (List zsv_cell))
    (hpos : 0 < n)
    (hphase : data.row_handler = row_handler.zsv_select_data_row)
    (hn : data.sample_every_n = n) (hpct : data.sample_pct = 0)
    (hskip : data.skip_data_rows = 0) (hsearch : data.search_strings = [])
    (hlimit : data.data_rows_limit = 0) (hcanc : data.cancelled = false) :
    (lineend_safe data → (parse_rows lib junk rnd rows data).isSome = true) ∧
    (∀ d1 flags, parse_rows lib junk rnd rows data = some (d1, flags) →
      flags = (rows.enumFrom (data.data_row_count + 1)).map
        (fun p => decide (p.2.length ≠ 0 ∧ p.1 % n = 1))) := by
  constructor
  · intro hs
    obtain ⟨r, hr⟩ := parse_rows_data_some lib junk rnd rows data hphase hs
    rw [hr]
    rfl
  · intro d1 flags h
    exact sampling_every_rows lib junk rnd n hpos rows data d1 flags
      ⟨hphase, hn, hpct, hskip, hsearch, hlimit, hcanc⟩ h

/-- Witness of claim C7: with `n = 3`, ten data rows of one cell each are handled
to the end and exactly rows 1, 4, 7 and 10 are emitted. -/
theorem deterministic_sampling_keeps_count_mod_n_witness :
    (parse_rows ascii_lib (fun _ => (0, 0)) (fun _ => 0) (List.replicate 10 [⟨[120], false⟩])
        { after_header_h with sample_every_n := 3 }).map Prod.snd =
      some [true, false, false, true, false, false, true, false, false, true] := by
  obtain ⟨hsome, hflags⟩ := deterministic_sampling_keeps_count_mod_n ascii_lib (fun _ => (0, 0))
    (fun _ => 0) 3 { after_header_h with sample_every_n := 3 }
    (List.replicate 10 [⟨[120], false⟩]) (by decide) rfl rfl rfl rfl rfl rfl rfl
  cases hp : parse_rows ascii_lib (fun _ => (0, 0)) (fun _ => 0)
      (List.replicate 10 [⟨[120], false⟩]) { after_header_h with sample_every_n := 3 } with
  | none =>
    rw [hp] at hsome
    exact absurd (hsome ⟨by decide, by decide⟩) (by simp)
  | some r =>
    rw [Option.map_some', hflags r.1 r.2 hp]
    rfl

/-- Claim C9, the failing input: with `--head 0` accepted by `MAIN`, the header
row `h` followed by the data rows `x` and `y` still has its first data row
emitted, so more than 0 data rows are written. -/
theorem head_zero_emits_one_row :
    (MAIN_head (MAIN_any_clean (MAIN_init 10)) 0).bind (fun d =>
      (parse_rows ascii_lib (fun _ => (0, 0)) (fun _ => 0)
        [[⟨[104], false⟩], [⟨[120], false⟩], [⟨[121], false⟩]] d).map
        (fun r => (r.2, r.1.csv_writer))) =
      some ([false, true, false],
        [writer_call.cell_s true (some [104]) true, writer_call.cell true [120] false]) := by
  decide

/-! ## Lemmas for the claims on skipped rows and on resolution failure -/
theorem skip_data_step (lib : zsv_lib) (rnd : Nat → ℚ) (d : zsv_select_data)
    (row : List zsv_cell) (hskip : d.skip_data_rows ≠ 0) (hrow : row.length ≠ 0)
    (hcanc : d.cancelled = false) :
    zsv_select_data_row lib rnd d row =
      some ({ d with data_row_count := d.data_row_count + 1,
                     skip_data_rows := d.skip_data_rows - 1, skip_this_row := true }, false) := by
  unfold zsv_select_data_row
  simp only
  rw [if_neg (by simp [hrow, hcanc])]
  unfold data_row_skip
  rw [if_pos hskip]
  unfold data_row_output
  simp

theorem empty_row_step (lib : zsv_lib) (rnd : Nat → ℚ) (d : zsv_select_data)
    (row : List zsv_cell) (hrow : row.length = 0) :
    zsv_select_data_row lib rnd d row =
      some ({ d with data_row_count := d.data_row_count + 1 }, false) := by
  unfold zsv_select_data_row
  simp only
  rw [if_pos (Or.inl hrow)]

theorem skip_data_rows_seq (lib : zsv_lib) (junk : Nat → Nat × Nat) (rnd : Nat → ℚ) :
    ∀ (rows : List (List zsv_cell)) (d : zsv_select_data),
      d.row_handler = row_handler.zsv_select_data_row → d.cancelled = false →
      (rows.filter (fun r => decide (r.length ≠ 0))).length ≤ d.skip_data_rows →
      ∃ d1, parse_rows lib junk rnd rows d = some (d1, List.replicate rows.length false) ∧
        d1.skip_data_rows =
          d.skip_data_rows - (rows.filter (fun r => decide (r.length ≠ 0))).length ∧
        d1.csv_writer = d.csv_writer ∧ d1.cancelled = false := by
  intro rows
  induction rows with
  | nil => intro d _ hc _; exact ⟨d, rfl, by simp, rfl, hc⟩
  | cons row rest ih =>
    intro d hph hc hK
    rw [parse_rows_data_cons lib junk rnd row rest d hph]
    by_cases hrow : row.length = 0
    · rw [empty_row_step lib rnd d row hrow]
      have hf : (List.filter (fun r => decide (r.length ≠ 0)) (row :: rest)) =
          List.filter (fun r => decide (r.length ≠ 0)) rest := by
        rw [List.filter_cons]
        simp only [ne_eq, hrow, not_true_eq_false, decide_False, Bool.false_eq_true, if_false]
      rw [hf] at hK ⊢
      obtain ⟨d1, h1, h2, h3, h4⟩ := ih { d with data_row_count := d.data_row_count + 1 }
        hph hc hK
      refine ⟨d1, ?_, h2, h3, h4⟩
      simp only
      rw [h1]
      rfl
    · have hf : (List.filter (fun r => decide (r.length ≠ 0)) (row :: rest)) =
          row :: List.filter (fun r => decide (r.length ≠ 0)) rest := by
        rw [List.filter_cons]
        simp only [ne_eq, hrow, not_false_eq_true, decide_True, if_true]
      rw [hf] at hK ⊢
      simp only [List.length_cons] at hK ⊢
      rw [skip_data_step lib rnd d row (by omega) hrow hc]
      obtain ⟨d1, h1, h2, h3, h4⟩ := ih
        { d with data_row_count := d.data_row_count + 1,
                 skip_data_rows := d.skip_data_rows - 1, skip_this_row := true }
        hph hc (by show _ ≤ d.skip_data_rows - 1; omega)
      refine ⟨d1, ?_, ?_, h3, h4⟩
      · simp only
        rw [h1]
        rfl
      · rw [h2]
        show d.skip_data_rows - 1 - _ = _
        omega

theorem resolved_same_config (lib : zsv_lib) (junk : Nat → Nat × Nat) (d d1 : zsv_select_data)
    (err : Int) (h : zsv_select_set_output_columns lib junk d = some (err, d1)) :
    same_config d1 d := by
  obtain ⟨cands, hc⟩ := resolved_is_fold lib junk d d1 err h
  rw [hc]
  exact same_config_foldl lib cands d d (same_config_refl d)

theorem header_row_cancelled (lib : zsv_lib) (junk : Nat → Nat × Nat) (d : zsv_select_data)
    (row : List zsv_cell) (hc : d.cancelled = true) :
    zsv_select_header_row lib junk d row =
      some { d with file_row_count := d.file_row_count + 1 } := by
  unfold zsv_select_header_row
  simp only
  rw [if_pos hc]

theorem parse_rows_cancelled_header (lib : zsv_lib) (junk : Nat → Nat × Nat) (rnd : Nat → ℚ) :
    ∀ (rows : List (List zsv_cell)) (d : zsv_select_data),
      d.row_handler = row_handler.zsv_select_header_row → d.cancelled = true →
      ∃ d2, parse_rows lib junk rnd rows d = some (d2, List.replicate rows.length false) ∧
        d2.csv_writer = d.csv_writer ∧ d2.cancelled = true ∧
        d2.row_handler = row_handler.zsv_select_header_row ∧ d2.out2in = d.out2in := by
  intro rows
  induction rows with
  | nil => intro d hp hc; exact ⟨d, rfl, rfl, hc, hp, rfl⟩
  | cons row rest ih =>
    intro d hp hc
    rw [parse_rows, hp]
    simp only
    rw [header_row_cancelled lib junk d row hc]
    obtain ⟨d2, h1, h2, h3, h4, h5⟩ := ih { d with file_row_count := d.file_row_count + 1 } hp hc
    refine ⟨d2, ?_, h2, h3, h4, h5⟩
    simp only [Option.map_some']
    rw [h1]
    rfl

theorem indexes_loop_err (lib : zsv_lib) (junk : Nat → Nat × Nat) (args : List (List Nat)) :
    ∀ (arg_i : Nat) (r : Int × zsv_select_data),
      (set_output_columns_indexes lib junk args arg_i r).1 =
        if (args.enumFrom arg_i).any (fun p =>
            decide ((parsed_arg junk p).type = zsv_select_column_index_selection_type.none))
        then -1 else r.1 := by
  induction args with
  | nil => intro arg_i r; rfl
  | cons arg rest ih =>
    intro arg_i r
    unfold set_output_columns_indexes
    rw [ih, index_arg_fold]
    simp only [List.enumFrom, List.any_cons, parsed_arg]
    by_cases hn : (zsv_select_column_index_selection arg (junk arg_i).1 (junk arg_i).2).type =
        zsv_select_column_index_selection_type.none
    · simp [hn]
    · rw [if_neg hn]
      simp only [decide_eq_false hn, Bool.false_or]

theorem names_loop_err (lib : zsv_lib) (d0 : zsv_select_data) (args : List (List Nat)) :
    ∀ (r r1 : Int × zsv_select_data), same_config r.2 d0 →
      set_output_columns_names lib args r = some r1 →
      r1.1 = if args.any (fun a =>
            decide (str_array_ifind lib a d0.header_names d0.header_name_count = some 0))
        then -1 else r.1 := by
  induction args with
  | nil =>
    intro r r1 _ h
    simp only [set_output_columns_names, Option.some.injEq] at h
    rw [← h]
    rfl
  | cons arg rest ih =>
    intro r r1 hc h
    unfold set_output_columns_names at h
    have hn : r.2.header_names = d0.header_names := by rw [hc]
    have hk : r.2.header_name_count = d0.header_name_count := by rw [hc]
    rw [hn, hk] at h
    cases hf : str_array_ifind lib arg d0.header_names d0.header_name_count with
    | none => rw [hf] at h; simp at h
    | some in_pos =>
      rw [hf] at h
      simp only at h
      by_cases hz : in_pos = 0
      · rw [if_pos hz] at h
        rw [ih (-1, r.2) r1 hc h]
        simp [hf, hz]
      · rw [if_neg hz] at h
        rw [ih (r.1, zsv_select_add_output_col lib r.2 (in_pos - 1)) r1
          (same_config_add lib r.2 d0 (in_pos - 1) hc) h]
        simp [hf, hz]

theorem header_finish_failure (lib : zsv_lib) (junk : Nat → Nat × Nat) (d dr : zsv_select_data)
    (err : Int) (h : zsv_select_set_output_columns lib junk d = some (err, dr))
    (herr : err ≠ 0) :
    zsv_select_header_finish lib junk d = some { dr with cancelled := true } := by
  unfold zsv_select_header_finish
  rw [h]
  simp only
  rw [if_pos herr]

/-! ## Claims C14, C15 and C16: resolution failure and the output width -/

/-- Claim C14: if `zsv_select_set_output_columns` reports an error while the
header handler is registered, then `zsv_select_header_finish` returns with the
cancelled flag set, without a call to the writer and without switching the
row handler; and whatever rows follow, every one of them is handled to the
end, none is emitted, the writer gets no call and the flag stays set. -/
theorem resolution_failure_aborts_before_output (lib : zsv_lib) (junk : Nat → Nat × Nat)
    (rnd : Nat → ℚ) (data dr : zsv_select_data) (err : Int)
    (hphase : data.row_handler = row_handler.zsv_select_header_row)
    (hres : zsv_select_set_output_columns lib junk data = some (err, dr)) (herr : err ≠ 0) :
    ∃ d1, zsv_select_header_finish lib junk data = some d1 ∧ d1.cancelled = true ∧
      d1.csv_writer = data.csv_writer ∧
      d1.row_handler = row_handler.zsv_select_header_row ∧
      ∀ rows : List (List zsv_cell), ∃ d2,
        parse_rows lib junk rnd rows d1 = some (d2, List.replicate rows.length false) ∧
          d2.csv_writer = data.csv_writer ∧ d2.cancelled = true ∧
          d2.row_handler = row_handler.zsv_select_header_row := by
  have hcfg := resolved_same_config lib junk data dr err hres
  have hw : dr.csv_writer = data.csv_writer := by rw [hcfg]
  have hh : dr.row_handler = data.row_handler := by rw [hcfg]
  refine ⟨{ dr with cancelled := true }, header_finish_failure lib junk data dr err hres herr,
    rfl, hw, by rw [← hphase, ← hh], ?_⟩
  intro rows
  obtain ⟨d2, h1, h2, h3, h4, _⟩ := parse_rows_cancelled_header lib junk rnd rows
    { dr with cancelled := true } (by rw [← hphase, ← hh]) rfl
  exact ⟨d2, h1, by rw [h2]; exact hw, h3, h4⟩

/-- Witness of claim C14: the header `a,b,a` and the requested name `z`. -/
theorem resolution_failure_aborts_before_output_witness :
    ∃ d1, zsv_select_header_finish ascii_lib (fun _ => (0, 0))
        { header_aba with col_argv := [[122]] } = some d1 ∧ d1.cancelled = true ∧
      d1.csv_writer = [] ∧
      d1.row_handler = row_handler.zsv_select_header_row ∧
      ∀ rows : List (List zsv_cell), ∃ d2,
        parse_rows ascii_lib (fun _ => (0, 0)) (fun _ => 0) rows d1 =
            some (d2, List.replicate rows.length false) ∧
          d2.csv_writer = [] ∧ d2.cancelled = true ∧
          d2.row_handler = row_handler.zsv_select_header_row :=
  resolution_failure_aborts_before_output ascii_lib (fun _ => (0, 0)) (fun _ => 0)
    { header_aba with col_argv := [[122]] } { header_aba with col_argv := [[122]] } (-1)
    rfl rfl (by decide)

/-- Claim C15, the failing input: for the input lines `a` and `x` and the
requested column name `z`, resolution fails after the header row (the
cancelled flag is set and nothing is written), and `MAIN` returns 0. -/
theorem MAIN_returns_zero_after_resolution_failure :
    MAIN_return ascii_lib (fun _ => (0, 0)) (fun _ => 0) 0
        { MAIN_init 10 with col_argv := [[122]] } [[⟨[97], false⟩], [⟨[120], false⟩]] = some 0 ∧
    (parse_rows ascii_lib (fun _ => (0, 0)) (fun _ => 0) [[⟨[97], false⟩], [⟨[120], false⟩]]
        (MAIN_any_clean { MAIN_init 10 with col_argv := [[122]] })).map
      (fun r => (r.1.cancelled, r.1.csv_writer, r.2)) = some (true, [], [false, false]) := by
  constructor
  · rfl
  · decide

/-- Claim C16: when `output_cols_count ≤ max_columns` holds before resolution (it
starts at 0), resolution always returns without a column argument and in
index mode, and whenever it returns `output_cols_count ≤ max_columns` holds
afterwards, for every header, argument list, distinct and exclusion setting.
The value returned does not depend on the capacity: it is 0 without a column
argument, and otherwise non-zero exactly when an argument is not a valid
index specification (index mode) or names no header column (name mode). -/
theorem output_width_is_bounded (lib : zsv_lib) (junk : Nat → Nat × Nat)
    (data : zsv_select_data) (hout : data.output_cols_count ≤ data.max_columns) :
    (data.col_argc = 0 ∨ data.use_header_indexes = true →
        (zsv_select_set_output_columns lib junk data).isSome = true) ∧
    ∀ err d1, zsv_select_set_output_columns lib junk data = some (err, d1) →
      d1.output_cols_count ≤ d1.max_columns ∧ d1.max_columns = data.max_columns ∧
      (data.col_argc = 0 → err = 0) ∧
      (data.col_argc ≠ 0 → data.use_header_indexes = true →
        (err ≠ 0 ↔ ∃ p ∈ data.col_argv.enum,
          (parsed_arg junk p).type = zsv_select_column_index_selection_type.none)) ∧
      (data.col_argc ≠ 0 → data.use_header_indexes = false →
        (err ≠ 0 ↔ ∃ a ∈ data.col_argv,
          str_array_ifind lib a data.header_names data.header_name_count = some 0)) := by
  refine ⟨resolved_total lib junk data, ?_⟩
  intro err d1 h
  obtain ⟨cands, hc⟩ := resolved_is_fold lib junk data d1 err h
  have hcfg := resolved_same_config lib junk data d1 err h
  have hmax : d1.max_columns = data.max_columns := same_config_max_columns hcfg
  have hlen := foldl_add_invariant lib data (fun out => out.length ≤ data.max_columns)
    (by
      intro d x hd _ hacc
      unfold add_accepts at hacc
      simp only [Bool.and_eq_true, decide_eq_true_eq, zsv_select_data.output_cols_count] at hacc
      rw [same_config_max_columns hd] at hacc
      simp only [List.length_append, List.length_cons, List.length_nil]
      omega)
    cands data (same_config_refl data) hout
  rw [← hc] at hlen
  refine ⟨by rw [hmax]; exact hlen, hmax, ?_, ?_, ?_⟩
  · intro h0
    unfold zsv_select_set_output_columns at h
    rw [if_pos h0] at h
    simp only [Option.some.injEq, Prod.mk.injEq] at h
    exact h.1.symm
  · intro h0 hi
    unfold zsv_select_set_output_columns at h
    rw [if_neg h0, if_pos hi] at h
    simp only [Option.some.injEq] at h
    have he := indexes_loop_err lib junk data.col_argv 0 (0, data)
    rw [h] at he
    simp only at he
    rw [he]
    by_cases hany : ((List.enumFrom 0 data.col_argv).any (fun p =>
        decide ((parsed_arg junk p).type = zsv_select_column_index_selection_type.none))) = true
    · rw [if_pos hany]
      simp only [ne_eq, Int.reduceNeg, Int.neg_eq_zero, one_ne_zero, not_false_eq_true, true_iff]
      rw [List.any_eq_true] at hany
      obtain ⟨p, hp, hd⟩ := hany
      exact ⟨p, hp, of_decide_eq_true hd⟩
    · rw [if_neg hany]
      simp only [ne_eq, not_true_eq_false, false_iff, not_exists, not_and]
      intro p hp hn
      exact hany (List.any_eq_true.mpr ⟨p, hp, decide_eq_true hn⟩)
  · intro h0 hi
    unfold zsv_select_set_output_columns at h
    rw [if_neg h0, if_neg (by simp [hi])] at h
    have he := names_loop_err lib data data.col_argv (0, data) (err, d1)
      (same_config_refl data) h
    simp only at he
    rw [he]
    by_cases hany : (data.col_argv.any (fun a =>
        decide (str_array_ifind lib a data.header_names data.header_name_count = some 0))) = true
    · rw [if_pos hany]
      simp only [ne_eq, Int.reduceNeg, Int.neg_eq_zero, one_ne_zero, not_false_eq_true, true_iff]
      rw [List.any_eq_true] at hany
      obtain ⟨a, ha, hd⟩ := hany
      exact ⟨a, ha, of_decide_eq_true hd⟩
    · rw [if_neg hany]
      simp only [ne_eq, not_true_eq_false, false_iff, not_exists, not_and]
      intro a ha hn
      exact hany (List.any_eq_true.mpr ⟨a, ha, decide_eq_true hn⟩)

/-- Witness of claim C16: the header `a,b,a`, at most ten columns, and four
times the argument `1-3` in index mode: ten of the twelve columns are kept and
no error is reported. -/
theorem output_width_is_bounded_witness :
    ∃ d1, zsv_select_set_output_columns ascii_lib (fun _ => (0, 0))
        { header_aba with
          col_argv := [[49, 45, 51], [49, 45, 51], [49, 45, 51], [49, 45, 51]],
          use_header_indexes := true } = some (0, d1) ∧
      d1.output_cols_count ≤ d1.max_columns ∧ d1.out2in = [0, 1, 2, 0, 1, 2, 0, 1, 2, 0] :=
  ⟨_, rfl,
    ((output_width_is_bounded ascii_lib (fun _ => (0, 0))
      { header_aba with
        col_argv := [[49, 45, 51], [49, 45, 51], [49, 45, 51], [49, 45, 51]],
        use_header_indexes := true } (by decide)).2 0 _ rfl).1, rfl⟩

/-! ## Claims C18, C19 and C20: skipped rows, the period 1, and the search filter -/

/-- Claim C18: in the data phase with the cancelled flag clear, a row with at
least one column that arrives while `skip_data_rows` is not 0 lowers it by
one, is not emitted and causes no call to the writer, whatever the sampling
and search settings; hence as long as no more rows with a column have arrived
than `skip_data_rows` counted at the start, no row is emitted. -/
theorem skip_data_rows_take_precedence (lib : zsv_lib) (junk : Nat → Nat × Nat)
    (rnd : Nat → ℚ) (data : zsv_select_data)
    (hphase : data.row_handler = row_handler.zsv_select_data_row)
    (hcanc : data.cancelled = false) :
    (∀ row : List zsv_cell, data.skip_data_rows ≠ 0 → row.length ≠ 0 →
      ∃ d1, zsv_select_data_row lib rnd data row = some (d1, false) ∧
        d1.skip_data_rows = data.skip_data_rows - 1 ∧ d1.csv_writer = data.csv_writer ∧
        d1.cancelled = false) ∧
    (∀ rows : List (List zsv_cell),
      (rows.filter (fun r => decide (r.length ≠ 0))).length ≤ data.skip_data_rows →
      ∃ d1, parse_rows lib junk rnd rows data = some (d1, List.replicate rows.length false) ∧
        d1.skip_data_rows =
          data.skip_data_rows - (rows.filter (fun r => decide (r.length ≠ 0))).length ∧
        d1.csv_writer = data.csv_writer) := by
  constructor
  · intro row hskip hrow
    exact ⟨_, skip_data_step lib rnd data row hskip hrow hcanc, rfl, rfl, hcanc⟩
  · intro rows hK
    obtain ⟨d1, h1, h2, h3, _⟩ := skip_data_rows_seq lib junk rnd rows data hphase hcanc hK
    exact ⟨d1, h1, h2, h3⟩

/-- Witness of claim C18: with two data rows to skip and the sampling period 3,
the first two rows are not emitted, although sampling would keep row 1. -/
theorem skip_data_rows_take_precedence_witness :
    ∃ d1, parse_rows ascii_lib (fun _ => (0, 0)) (fun _ => 0)
        [[⟨[120], false⟩], [⟨[121], false⟩]]
        { after_header_h with skip_data_rows := 2, sample_every_n := 3 } =
          some (d1, List.replicate 2 false) ∧
      d1.skip_data_rows = 2 - 2 ∧
      d1.csv_writer = [writer_call.cell_s true (some [104]) true] :=
  (skip_data_rows_take_precedence ascii_lib (fun _ => (0, 0)) (fun _ => 0)
    { after_header_h with skip_data_rows := 2, sample_every_n := 3 } rfl rfl).2
    [[⟨[120], false⟩], [⟨[121], false⟩]] (by decide)

/-- Claim C19, the failing input: with the sampling period 1 (`--sample-every 1`)
none of three data rows is emitted, not even the first, and the writer gets
no call beyond the header. -/
theorem sample_every_one_emits_nothing :
    (parse_rows ascii_lib (fun _ => (0, 0)) (fun _ => 0)
        [[⟨[120], false⟩], [⟨[121], false⟩], [⟨[122], false⟩]]
        { after_header_h with sample_every_n := 1 }).map
      (fun r => (r.2, r.1.csv_writer)) =
      some ([false, false, false], [writer_call.cell_s true (some [104]) true]) := by
  decide

/-- Claim C20, the failing input: with the replacement character `X` for embedded
line ends, the quoted cell `a` CR LF `b` is written as `aXb` when no search
string is configured, and as `aXbb` when the search string `a` is: the search
pass has cleaned the cell in place, and the output pass cleans the changed
buffer again over its old length. -/
theorem search_changes_the_cells_written :
    (zsv_select_data_row ascii_lib (fun _ => 0) { after_header_h with embedded_lineend := 88 }
        [⟨[97, 13, 10, 98], true⟩]).map (fun r => (r.2, r.1.csv_writer)) =
      some (true, [writer_call.cell_s true (some [104]) true,
        writer_call.cell true [97, 88, 98] true]) ∧
    (zsv_select_data_row ascii_lib (fun _ => 0)
        (zsv_select_add_search { after_header_h with embedded_lineend := 88 } (some [97]))
        [⟨[97, 13, 10, 98], true⟩]).map (fun r => (r.2, r.1.csv_writer)) =
      some (true, [writer_call.cell_s true (some [104]) true,
        writer_call.cell true [97, 88, 98, 98] true]) := by
  constructor <;> decide

/-! ## Claim C17: the replacement of embedded line ends -/

theorem memmem_cons_succ (a : Nat) (t pat : List Nat) (p : Nat)
    (h : memmem (a :: t) pat = some (p + 1)) :
    pat.isPrefixOf (a :: t) = false ∧ memmem t pat = some p := by
  unfold memmem at h
  by_cases hp : pat.isPrefixOf (a :: t) = true
  · rw [if_pos hp] at h; simp at h
  · rw [if_neg hp] at h
    refine ⟨Bool.eq_false_iff.mpr hp, ?_⟩
    cases hm : memmem t pat with
    | none => rw [hm] at h; simp at h
    | some q =>
      rw [hm] at h
      simp only [Option.map_some', Option.some.injEq, Nat.add_right_cancel_iff] at h
      rw [h]

theorem memmem_cons_none (a : Nat) (t pat : List Nat) (h : memmem (a :: t) pat = none) :
    pat.isPrefixOf (a :: t) = false ∧ memmem t pat = none := by
  unfold memmem at h
  by_cases hp : pat.isPrefixOf (a :: t) = true
  · rw [if_pos hp] at h; simp at h
  · rw [if_neg hp] at h
    refine ⟨Bool.eq_false_iff.mpr hp, ?_⟩
    cases hm : memmem t pat with
    | none => rfl
    | some q => rw [hm] at h; simp at h
theorem pair_prefix_iff (x y : Nat) (t : List Nat) :
    ([13, 10] : List Nat).isPrefixOf (x :: y :: t) = true ↔ x = 13 ∧ y = 10 := by
  simp only [List.isPrefixOf, Bool.and_true, Bool.and_eq_true, beq_iff_eq]
  exact ⟨fun h => ⟨h.1.symm, h.2.symm⟩, fun h => ⟨h.1.symm, h.2.symm⟩⟩

theorem replace_pairs_of_not_found (c : Nat) :
    ∀ s : List Nat, memmem s [13, 10] = none → replace_pairs c s = s := by
  intro s
  induction s using replace_pairs.induct c with
  | case1 => intro _; rfl
  | case2 x => intro _; rfl
  | case3 x y t hxy _ =>
    intro h
    have := (memmem_cons_none x (y :: t) [13, 10] h).1
    rw [Bool.eq_false_iff] at this
    exact absurd ((pair_prefix_iff x y t).mpr hxy) this
  | case4 x y t hxy ih =>
    intro h
    rw [replace_pairs, if_neg hxy, ih (memmem_cons_none x (y :: t) [13, 10] h).2]

theorem replace_pairs_cons_of_not_pair (c x : Nat) (t : List Nat)
    (h : ([13, 10] : List Nat).isPrefixOf (x :: t) = false) :
    replace_pairs c (x :: t) = x :: replace_pairs c t := by
  cases t with
  | nil => rfl
  | cons y t =>
    have hxy : ¬ (x = 13 ∧ y = 10) := by
      intro hh
      rw [(pair_prefix_iff x y t).mpr hh] at h
      exact absurd h (by decide)
    rw [replace_pairs, if_neg hxy]

theorem replace_pairs_at_first (c : Nat) :
    ∀ (A B : List Nat), memmem (A ++ 13 :: 10 :: B) [13, 10] = some A.length →
      replace_pairs c (A ++ 13 :: 10 :: B) = A ++ c :: replace_pairs c B := by
  intro A
  induction A with
  | nil =>
    intro B _
    simp only [List.nil_append]
    rw [replace_pairs, if_pos ⟨rfl, rfl⟩]
  | cons a A ih =>
    intro B h
    simp only [List.cons_append, List.length_cons] at h ⊢
    obtain ⟨h1, h2⟩ := memmem_cons_succ a (A ++ 13 :: 10 :: B) [13, 10] A.length h
    rw [replace_pairs_cons_of_not_pair c a _ h1, ih B h2]

theorem replace_pairs_after_first (c : Nat) (hc13 : c ≠ 13) (hc10 : c ≠ 10) :
    ∀ (A B : List Nat), memmem (A ++ 13 :: 10 :: B) [13, 10] = some A.length →
      replace_pairs c (A ++ c :: B) = A ++ c :: replace_pairs c B := by
  intro A
  induction A with
  | nil =>
    intro B _
    simp only [List.nil_append]
    apply replace_pairs_cons_of_not_pair
    cases B with
    | nil => simp [List.isPrefixOf]
    | cons y B =>
      rw [Bool.eq_false_iff]
      intro hp
      exact hc13 ((pair_prefix_iff c y B).mp hp).1
  | cons a A ih =>
    intro B h
    simp only [List.cons_append, List.length_cons] at h ⊢
    obtain ⟨h1, h2⟩ := memmem_cons_succ a (A ++ 13 :: 10 :: B) [13, 10] A.length h
    rw [replace_pairs_cons_of_not_pair c a _ ?_, ih B h2]
    cases A with
    | nil =>
      simp only [List.nil_append]
      rw [Bool.eq_false_iff]
      intro hp
      exact hc10 ((pair_prefix_iff a c B).mp hp).2
    | cons a2 A =>
      simp only [List.cons_append] at h1 ⊢
      rw [Bool.eq_false_iff] at h1 ⊢
      intro hp
      exact h1 ((pair_prefix_iff a a2 _).mpr ((pair_prefix_iff a a2 _).mp hp))

theorem lineend_replace_pair_eq (c : Nat) (hc13 : c ≠ 13) (hc10 : c ≠ 10) :
    ∀ (fuel : Nat) (v : cell_view), v.str.length < fuel →
      ∃ v1, lineend_replace c [13, 10] fuel v = some v1 ∧ v1.pre = v.pre ∧
        v1.str = replace_pairs c v.str ∧ v1.mem.length = v.mem.length := by
  intro fuel
  induction fuel with
  | zero => intro v h; omega
  | succ fuel ih =>
    intro v h
    unfold lineend_replace
    cases hm : memmem v.str [13, 10] with
    | none =>
      exact ⟨v, rfl, rfl, (replace_pairs_of_not_found c v.str hm).symm, rfl⟩
    | some p =>
      obtain ⟨A, B, hAB, hlen⟩ := memmem_some_split [13, 10] v.str p hm
      simp only [List.append_assoc, List.cons_append, List.nil_append] at hAB
      simp only
      rw [if_neg (by decide)]
      subst hlen
      have htake : List.take A.length v.str = A := by rw [hAB, List.take_left' rfl]
      have hdrop : List.drop (A.length + 2) v.str = B := by
        rw [hAB, List.drop_append]
        rfl
      rw [htake, hdrop]
      obtain ⟨v1, h1, h2, h3, h4⟩ := ih ⟨v.pre, A ++ c :: B, v.str.getLast?.toList ++ v.post⟩
        (by
          rw [hAB] at h
          simp only [List.length_append, List.length_cons] at h ⊢
          omega)
      refine ⟨v1, h1, h2, ?_, ?_⟩
      · rw [h3]
        simp only
        rw [hAB] at hm
        rw [replace_pairs_after_first c hc13 hc10 A B hm, hAB,
          replace_pairs_at_first c A B hm]
      · rw [h4]
        have hl : (v.str.getLast?.toList).length = 1 := by
          cases hg : v.str.getLast? with
          | none =>
            rw [List.getLast?_eq_none_iff] at hg
            rw [hg] at hAB
            simp at hAB
          | some x => rfl
        simp only [cell_view.mem, List.length_append, List.length_cons, hl]
        rw [hAB]
        simp only [List.length_append, List.length_cons]
        omega

theorem byte_prefix_iff (x a : Nat) (t : List Nat) :
    ([x] : List Nat).isPrefixOf (a :: t) = true ↔ a = x := by
  simp only [List.isPrefixOf, Bool.and_true, beq_iff_eq]
  exact ⟨fun h => h.symm, fun h => h.symm⟩

theorem not_mem_of_not_found (x : Nat) :
    ∀ s : List Nat, memmem s [x] = none → x ∉ s := by
  intro s
  induction s with
  | nil => intro _; simp
  | cons a t ih =>
    intro h
    obtain ⟨h1, h2⟩ := memmem_cons_none a t [x] h
    rw [Bool.eq_false_iff] at h1
    rw [List.mem_cons, not_or]
    exact ⟨fun hax => h1 ((byte_prefix_iff x a t).mpr hax.symm), ih h2⟩

theorem not_mem_before_first (x : Nat) :
    ∀ (A B : List Nat), memmem (A ++ x :: B) [x] = some A.length → x ∉ A := by
  intro A
  induction A with
  | nil => intro B _; simp
  | cons a A ih =>
    intro B h
    simp only [List.cons_append, List.length_cons] at h
    obtain ⟨h1, h2⟩ := memmem_cons_succ a (A ++ x :: B) [x] A.length h
    rw [Bool.eq_false_iff] at h1
    rw [List.mem_cons, not_or]
    exact ⟨fun hax => h1 ((byte_prefix_iff x a _).mpr hax.symm), ih B h2⟩

theorem map_replace_of_not_mem (c x : Nat) :
    ∀ s : List Nat, x ∉ s → s.map (fun b => if b = x then c else b) = s := by
  intro s
  induction s with
  | nil => intro _; rfl
  | cons a t ih =>
    intro h
    rw [List.mem_cons, not_or] at h
    rw [List.map_cons, ih h.2, if_neg (fun hax => h.1 hax.symm)]

theorem lineend_replace_byte_eq (c x : Nat) (hcx : c ≠ x) :
    ∀ (fuel : Nat) (v : cell_view), v.str.count x < fuel →
      lineend_replace c [x] fuel v =
        some { v with str := v.str.map (fun b => if b = x then c else b) } := by
  intro fuel
  induction fuel with
  | zero => intro v h; omega
  | succ fuel ih =>
    intro v h
    unfold lineend_replace
    cases hm : memmem v.str [x] with
    | none =>
      simp only
      rw [map_replace_of_not_mem c x v.str (not_mem_of_not_found x v.str hm)]
    | some p =>
      obtain ⟨A, B, hAB, hlen⟩ := memmem_some_split [x] v.str p hm
      simp only [List.append_assoc, List.cons_append, List.nil_append] at hAB
      simp only
      rw [if_pos (by rfl)]
      subst hlen
      have hset : v.str.set A.length c = A ++ c :: B := by
        rw [hAB, List.set_append]
        simp
      rw [hset]
      have hA : x ∉ A := by
        rw [hAB] at hm
        exact not_mem_before_first x A B hm
      rw [ih { v with str := A ++ c :: B } (by
        rw [hAB] at h
        simp only [List.count_append, List.count_cons] at h ⊢
        simp [hcx] at h ⊢
        omega)]
      simp only [hAB, List.map_append, List.map_cons, if_pos, if_neg hcx,
        map_replace_of_not_mem c x A hA]

theorem lineend_loops_eq (c : Nat) (hc13 : c ≠ 13) (hc10 : c ≠ 10) (v : cell_view) :
    ∃ v4, lineend_loops c to_replace v = some v4 ∧ v4.pre = v.pre ∧
      v4.str = spec_lineend c v.str ∧ v4.mem.length = v.mem.length := by
  obtain ⟨v1, h1, hp1, hs1, hm1⟩ := lineend_replace_pair_eq c hc13 hc10 (v.str.length + 1) v
    (by omega)
  have h2 := lineend_replace_byte_eq c 13 hc13 (v1.str.length + 1) v1
    (by have := List.count_le_length 13 v1.str; omega)
  have h3 := lineend_replace_byte_eq c 10 hc10
    ((v1.str.map (fun b => if b = 13 then c else b)).length + 1)
    { v1 with str := v1.str.map (fun b => if b = 13 then c else b) }
    (by
      have := List.count_le_length 10 (v1.str.map (fun b => if b = 13 then c else b))
      simp only at this ⊢
      omega)
  refine ⟨{ v1 with
    str := (v1.str.map (fun b => if b = 13 then c else b)).map
      (fun b => if b = 10 then c else b) }, ?_, ?_, ?_, ?_⟩
  · unfold to_replace lineend_loops
    rw [h1]
    simp only
    unfold lineend_loops
    rw [h2]
    simp only
    unfold lineend_loops
    rw [h3]
    simp only
    unfold lineend_loops
    rfl
  · exact hp1
  · simp only [spec_lineend, hs1, List.map_map]
    apply List.map_congr_left
    intro b _
    simp only [Function.comp]
    by_cases h13 : b = 13
    · simp [h13, hc10]
    · simp [h13]
  · rw [← hm1]
    simp [cell_view.mem]

theorem spec_lineend_no_lineend (c : Nat) (hc13 : c ≠ 13) (hc10 : c ≠ 10) (s : List Nat) :
    ∀ b ∈ spec_lineend c s, b ≠ 13 ∧ b ≠ 10 := by
  intro b hb
  unfold spec_lineend at hb
  rw [List.mem_map] at hb
  obtain ⟨a, _, ha⟩ := hb
  by_cases h : a = 13 ∨ a = 10
  · rw [if_pos h] at ha
    rw [← ha]
    exact ⟨hc13, hc10⟩
  · rw [if_neg h] at ha
    rw [← ha]
    exact ⟨fun h1 => h (Or.inl h1), fun h2 => h (Or.inr h2)⟩

theorem replace_pairs_length (c : Nat) (s : List Nat) :
    (replace_pairs c s).length + crlf_pairs s = s.length := by
  induction s using replace_pairs.induct c with
  | case1 => rfl
  | case2 x => rfl
  | case3 x y t hxy ih =>
    rw [replace_pairs, crlf_pairs, if_pos hxy, if_pos hxy]
    simp only [List.length_cons]
    omega
  | case4 x y t hxy ih =>
    rw [replace_pairs, crlf_pairs, if_neg hxy, if_neg hxy]
    simp only [List.length_cons] at ih ⊢
    omega

theorem spec_lineend_length (c : Nat) (s : List Nat) :
    (spec_lineend c s).length + crlf_pairs s = s.length := by
  unfold spec_lineend
  rw [List.length_map]
  exact replace_pairs_length c s

/-- Claim C17: with cleaning on and a replacement character `c` configured that
is neither CR nor LF, the line-end loops of `zsv_select_cell_clean` on a quoted
cell come to an end and turn the value `s` that the earlier steps left into
`spec_lineend c s`: every CR LF pair replaced by one `c`, then every CR and
every LF left replaced by `c`.  The value starts where it started, the
buffer keeps its size, and the call returns that view, trimmed once more when
trimming was off.  The result holds no CR and no LF, and its length is the
length of `s` less the number of CR LF pairs.  On an unquoted cell the call
returns what the earlier steps left. -/
theorem embedded_lineend_substitution (lib : zsv_lib) (data : zsv_select_data)
    (utf8_value : List Nat) (hany : data.any_clean = true)
    (hc0 : data.embedded_lineend ≠ 0) (hc13 : data.embedded_lineend ≠ 13)
    (hc10 : data.embedded_lineend ≠ 10) :
    (∃ v4, lineend_loops data.embedded_lineend to_replace
          (clean_steps lib data utf8_value) = some v4 ∧
        v4.pre = (clean_steps lib data utf8_value).pre ∧
        v4.str = spec_lineend data.embedded_lineend (clean_steps lib data utf8_value).str ∧
        v4.mem.length = (clean_steps lib data utf8_value).mem.length ∧
        zsv_select_cell_clean lib data utf8_value true =
          some (if data.no_trim_whitespace then v4.trimmed (lib.strtrim v4.str) else v4)) ∧
    (∀ b ∈ spec_lineend data.embedded_lineend (clean_steps lib data utf8_value).str,
        b ≠ 13 ∧ b ≠ 10) ∧
    (spec_lineend data.embedded_lineend (clean_steps lib data utf8_value).str).length +
        crlf_pairs (clean_steps lib data utf8_value).str =
      (clean_steps lib data utf8_value).str.length ∧
    zsv_select_cell_clean lib data utf8_value false =
      some (clean_steps lib data utf8_value) := by
  refine ⟨?_, spec_lineend_no_lineend _ hc13 hc10 _, spec_lineend_length _ _, ?_⟩
  · obtain ⟨v4, h4, hp, hs, hm⟩ :=
      lineend_loops_eq data.embedded_lineend hc13 hc10 (clean_steps lib data utf8_value)
    refine ⟨v4, h4, hp, hs, hm, ?_⟩
    unfold zsv_select_cell_clean
    rw [if_neg (by simp [hany])]
    simp only
    rw [if_pos (by simp [hc0]), h4]
  · unfold zsv_select_cell_clean
    rw [if_neg (by simp [hany])]
    simp only
    rw [if_neg (by simp)]

/-- Witness of claim C17: with the replacement character `X` and trimming on, the
value `a` CR LF `b` CR `c` LF. -/
theorem embedded_lineend_substitution_witness :
    (∃ v4, lineend_loops 88 to_replace
          (clean_steps ascii_lib (MAIN_any_clean { MAIN_init 10 with embedded_lineend := 88 })
            [97, 13, 10, 98, 13, 99, 10]) = some v4 ∧
        v4.pre = (clean_steps ascii_lib
          (MAIN_any_clean { MAIN_init 10 with embedded_lineend := 88 })
          [97, 13, 10, 98, 13, 99, 10]).pre ∧
        v4.str = spec_lineend 88 (clean_steps ascii_lib
          (MAIN_any_clean { MAIN_init 10 with embedded_lineend := 88 })
          [97, 13, 10, 98, 13, 99, 10]).str ∧
        v4.mem.length = (clean_steps ascii_lib
          (MAIN_any_clean { MAIN_init 10 with embedded_lineend := 88 })
          [97, 13, 10, 98, 13, 99, 10]).mem.length ∧
        zsv_select_cell_clean ascii_lib
            (MAIN_any_clean { MAIN_init 10 with embedded_lineend := 88 })
            [97, 13, 10, 98, 13, 99, 10] true =
          some (if (MAIN_any_clean { MAIN_init 10 with embedded_lineend := 88 }).no_trim_whitespace
            then v4.trimmed (ascii_lib.strtrim v4.str) else v4)) ∧
    (∀ b ∈ spec_lineend 88 (clean_steps ascii_lib
        (MAIN_any_clean { MAIN_init 10 with embedded_lineend := 88 })
        [97, 13, 10, 98, 13, 99, 10]).str, b ≠ 13 ∧ b ≠ 10) ∧
    (spec_lineend 88 (clean_steps ascii_lib
        (MAIN_any_clean { MAIN_init 10 with embedded_lineend := 88 })
        [97, 13, 10, 98, 13, 99, 10]).str).length +
        crlf_pairs (clean_steps ascii_lib
          (MAIN_any_clean { MAIN_init 10 with embedded_lineend := 88 })
          [97, 13, 10, 98, 13, 99, 10]).str =
      (clean_steps ascii_lib (MAIN_any_clean { MAIN_init 10 with embedded_lineend := 88 })
        [97, 13, 10, 98, 13, 99, 10]).str.length ∧
    zsv_select_cell_clean ascii_lib
        (MAIN_any_clean { MAIN_init 10 with embedded_lineend := 88 })
        [97, 13, 10, 98, 13, 99, 10] false =
      some (clean_steps ascii_lib (MAIN_any_clean { MAIN_init 10 with embedded_lineend := 88 })
        [97, 13, 10, 98, 13, 99, 10]) :=
  embedded_lineend_substitution ascii_lib
    (MAIN_any_clean { MAIN_init 10 with embedded_lineend := 88 })
    [97, 13, 10, 98, 13, 99, 10] rfl (by decide) (by decide) (by decide)

/-! ## Claim C13: the parsing of index specifications -/

theorem isdigit_not_isspace (c : Nat) (h : isdigit c = true) : isspace c = false := by
  unfold isdigit at h
  unfold isspace
  simp only [Bool.and_eq_true, decide_eq_true_eq] at h
  simp only [Bool.or_eq_false_iff, Bool.and_eq_false_iff, beq_eq_false_iff_ne, ne_eq,
    decide_eq_false_iff_not]
  omega

theorem isdigit_not_sign (c : Nat) (h : isdigit c = true) : (c == 43 || c == 45) = false := by
  unfold isdigit at h
  simp only [Bool.and_eq_true, decide_eq_true_eq] at h
  simp only [Bool.or_eq_false_iff, beq_eq_false_iff_ne, ne_eq]
  omega

theorem takeWhile_digits (ds rest : List Nat) (hd : ∀ b ∈ ds, isdigit b = true)
    (hr : ∀ b, rest.head? = some b → isdigit b = false) :
    (ds ++ rest).takeWhile isdigit = ds := by
  induction ds with
  | nil =>
    cases rest with
    | nil => rfl
    | cons b t =>
      simp only [List.nil_append]
      rw [List.takeWhile_cons, hr b rfl]
      rfl
  | cons a t ih =>
    rw [List.cons_append, List.takeWhile_cons, hd a (List.mem_cons_self a t)]
    simp only [if_true]
    rw [ih (fun b hb => hd b (List.mem_cons_of_mem a hb))]

/-- A run of digits at the start of the input, followed by no digit, is what
`%u` reads. -/
theorem scan_u_digits (ds rest : List Nat) (hd : is_digits ds)
    (hr : ∀ b, rest.head? = some b → isdigit b = false) :
    scan_u (ds ++ rest) = scan_result.ok (u_stored false (digits_value ds)) ds.length := by
  obtain ⟨hne, hall⟩ := hd
  cases ds with
  | nil => exact absurd rfl hne
  | cons c t =>
    have hc : isdigit c = true := hall c (List.mem_cons_self c t)
    have htw : (c :: (t ++ rest)).takeWhile isdigit = c :: t :=
      takeWhile_digits (c :: t) rest hall hr
    have hsg := isdigit_not_sign c hc
    have h45 : (c == 45) = false := by
      simp only [Bool.or_eq_false_iff] at hsg
      exact hsg.2
    unfold scan_u
    simp only [List.cons_append, List.takeWhile_cons, List.dropWhile_cons,
      isdigit_not_isspace c hc]
    have h43 : (c == 43) = false := by
      simp only [Bool.or_eq_false_iff] at hsg
      exact hsg.1
    simp only [h43, h45, Bool.or_false, Bool.false_eq_true, if_false]
    rw [htw]
    simp

theorem u_stored_small (v : Nat) (h : v < 2 ^ 32) : u_stored false v = v := by
  unfold u_stored
  rw [if_neg (by omega)]
  simp only [Bool.false_eq_true, if_false]
  exact Nat.mod_eq_of_lt h

/-- What holds of claim C13, the form number: a digit string with a value from
1 below `2^32` is a single index. -/
theorem index_selection_of_number (ds : List Nat) (i0 j0 : Nat) (hd : is_digits ds)
    (hpos : 0 < digits_value ds) (hlt : digits_value ds < 2 ^ 32) :
    zsv_select_column_index_selection ds i0 j0 =
      ⟨zsv_select_column_index_selection_type.single, digits_value ds, j0⟩ := by
  have hs := scan_u_digits ds [] hd (by simp)
  rw [List.append_nil, u_stored_small _ hlt] at hs
  unfold zsv_select_column_index_selection sscanf_u_dash_u_n sscanf_u_n
  simp only [hs, List.drop_length]
  simp [hpos]

/-- What holds of claim C13, the form number-dash: a digit string with a value
from 1 below `2^32` followed by a dash is a lower bound, with `hi` set to 0. -/
theorem index_selection_of_number_dash (ds : List Nat) (i0 j0 : Nat) (hd : is_digits ds)
    (hpos : 0 < digits_value ds) (hlt : digits_value ds < 2 ^ 32) :
    zsv_select_column_index_selection (ds ++ [45]) i0 j0 =
      ⟨zsv_select_column_index_selection_type.lower_bounded, digits_value ds, 0⟩ := by
  have hs := scan_u_digits ds [45] hd (by simp [isdigit])
  rw [u_stored_small _ hlt] at hs
  have hdrop : (ds ++ [45]).drop ds.length = [45] := by simp
  unfold zsv_select_column_index_selection sscanf_u_dash_u_n sscanf_u_n sscanf_u_dash_n
  simp only [hs, hdrop]
  simp [scan_u, hpos]

/-- What holds of claim C13, the form number-dash-number: two digit strings with
values `N ≤ M` from 1 below `2^32` around a dash are a range. -/
theorem index_selection_of_number_dash_number (ds es : List Nat) (i0 j0 : Nat)
    (hd : is_digits ds) (he : is_digits es)
    (hpos : 0 < digits_value ds) (hle : digits_value ds ≤ digits_value es)
    (hlt : digits_value es < 2 ^ 32) :
    zsv_select_column_index_selection (ds ++ 45 :: es) i0 j0 =
      ⟨zsv_select_column_index_selection_type.range, digits_value ds, digits_value es⟩ := by
  have hs := scan_u_digits ds (45 :: es) hd (by simp [isdigit])
  rw [u_stored_small _ (by omega)] at hs
  have hs2 := scan_u_digits es [] he (by simp)
  rw [List.append_nil, u_stored_small _ hlt] at hs2
  have hdrop : (ds ++ 45 :: es).drop ds.length = 45 :: es := by simp
  unfold zsv_select_column_index_selection sscanf_u_dash_u_n
  simp only [hs, hdrop, hs2]
  simp [hpos, hle]
  omega

/-- What holds of claim C13, the value zero and the reversed range. -/
theorem index_selection_zero_or_reversed (ds es : List Nat) (i0 j0 : Nat)
    (hd : is_digits ds) (he : is_digits es) (hlt : digits_value ds < 2 ^ 32)
    (hlt2 : digits_value es < 2 ^ 32) :
    (digits_value ds = 0 →
      (zsv_select_column_index_selection ds i0 j0).type =
        zsv_select_column_index_selection_type.none ∧
      (zsv_select_column_index_selection (ds ++ [45]) i0 j0).type =
        zsv_select_column_index_selection_type.none) ∧
    (digits_value ds = 0 ∨ digits_value es < digits_value ds →
      (zsv_select_column_index_selection (ds ++ 45 :: es) i0 j0).type =
        zsv_select_column_index_selection_type.none) := by
  have hs0 := scan_u_digits ds [] hd (by simp)
  rw [List.append_nil, u_stored_small _ hlt] at hs0
  have hs1 := scan_u_digits ds [45] hd (by simp [isdigit])
  rw [u_stored_small _ hlt] at hs1
  have hs := scan_u_digits ds (45 :: es) hd (by simp [isdigit])
  rw [u_stored_small _ hlt] at hs
  have hs2 := scan_u_digits es [] he (by simp)
  rw [List.append_nil, u_stored_small _ hlt2] at hs2
  have hdrop : (ds ++ 45 :: es).drop ds.length = 45 :: es := by simp
  have hdrop1 : (ds ++ [45]).drop ds.length = [45] := by simp
  refine ⟨fun hz => ⟨?_, ?_⟩, fun h => ?_⟩
  · unfold zsv_select_column_index_selection sscanf_u_dash_u_n sscanf_u_n
    simp only [hs0, List.drop_length]
    simp [hz]
  · unfold zsv_select_column_index_selection sscanf_u_dash_u_n sscanf_u_n sscanf_u_dash_n
    simp only [hs1, hdrop1]
    simp [scan_u, hz]
  · unfold zsv_select_column_index_selection sscanf_u_dash_u_n
    simp only [hs, hdrop, hs2]
    rcases h with h | h
    · simp [h]
    · have : ¬ digits_value es ≥ digits_value ds := by omega
      simp [this]

/-- Claim C13, the failing inputs.  On the empty string every `sscanf` call returns
`EOF`, which is non-zero in the unsigned `k`, and `n` is still 0, the length of
the string: the function tests the local `i` that nothing has written, and
answers `single` with that value whenever it is not 0.  The strings ` 3` and
`+3` are answered `single` with `lo = 3`, `-3` with `lo = 2^32 - 3`, the
string `4294967297` with `lo = 1`, and `1--2` is answered `range` with
`hi = 2^32 - 2`: the conversion `%u` skips white space, takes a sign and wraps. -/
theorem index_selection_accepts_more_than_the_three_forms :
    (∀ i0 j0 : Nat, 0 < i0 →
      zsv_select_column_index_selection [] i0 j0 =
        ⟨zsv_select_column_index_selection_type.single, i0, j0⟩) ∧
    zsv_select_column_index_selection [32, 51] 0 0 =
      ⟨zsv_select_column_index_selection_type.single, 3, 0⟩ ∧
    zsv_select_column_index_selection [43, 51] 0 0 =
      ⟨zsv_select_column_index_selection_type.single, 3, 0⟩ ∧
    zsv_select_column_index_selection [45, 51] 0 0 =
      ⟨zsv_select_column_index_selection_type.single, 4294967293, 0⟩ ∧
    zsv_select_column_index_selection [52, 50, 57, 52, 57, 54, 55, 50, 57, 55] 0 0 =
      ⟨zsv_select_column_index_selection_type.single, 1, 0⟩ ∧
    zsv_select_column_index_selection [49, 45, 45, 50] 0 0 =
      ⟨zsv_select_column_index_selection_type.range, 1, 4294967294⟩ := by
  refine ⟨?_, by decide, by decide, by decide, by decide, by decide⟩
  intro i0 j0 h
  unfold zsv_select_column_index_selection sscanf_u_dash_u_n sscanf_u_n
  simp [scan_u, EOF_unsigned, h]

/-! ## Lemmas on the header phase -/

theorem clean_steps_congr (lib : zsv_lib) (d d0 : zsv_select_data) (h : same_cleaning d d0)
    (s : List Nat) : clean_steps lib d s = clean_steps lib d0 s := by
  obtain ⟨_, h2, h3, h4, h5, _⟩ := h
  unfold clean_steps
  rw [h2, h3, h4, h5]

theorem cell_clean_congr (lib : zsv_lib) (d d0 : zsv_select_data) (h : same_cleaning d d0)
    (s : List Nat) (q : Bool) :
    zsv_select_cell_clean lib d s q = zsv_select_cell_clean lib d0 s q := by
  have hs := clean_steps_congr lib d d0 h s
  obtain ⟨h1, _, h3, _, _, h6⟩ := h
  unfold zsv_select_cell_clean
  rw [h1, h3, h6, hs]

theorem cleaned_str_congr (lib : zsv_lib) (d d0 : zsv_select_data) (h : same_cleaning d d0)
    (cell : zsv_cell) : cleaned_str lib d cell = cleaned_str lib d0 cell := by
  unfold cleaned_str
  rw [cell_clean_congr lib d d0 h]

theorem append_spaced_word_nil (t : Option (List Nat)) :
    zsv_select_append_spaced_word t [] = t := by
  unfold zsv_select_append_spaced_word
  simp

theorem getD_set_none (names : List (Option (List Nat))) (i j : Nat) (x : Option (List Nat))
    (hi : i < names.length) :
    (names.set i x).getD j none = if j = i then x else names.getD j none := by
  rw [List.getD_eq_getElem?_getD, List.getD_eq_getElem?_getD, List.getElem?_set]
  by_cases h : i = j
  · subst h
    simp [hi]
  · have h2 : ¬ j = i := fun e => h e.symm
    simp [h, h2]

/-- The loop of `zsv_select_header_row` over the cells from column `i` on: it comes
to an end when the line-end loops do, and then column `j` of the names is
appended the cleaned word of its cell when `i ≤ j < max_columns`, and
`max_header_ix` is the position behind the last such column with a non-empty
word, if there is one. -/
theorem header_row_cells_spec (lib : zsv_lib) (d : zsv_select_data) :
    ∀ (cells : List zsv_cell) (i : Nat) (names : List (Option (List Nat))) (m : Nat),
      d.max_columns ≤ names.length →
      (lineend_safe d → ∃ r, header_row_cells lib d cells i (names, m) = some r) ∧
      ∀ names1 m1, header_row_cells lib d cells i (names, m) = some (names1, m1) →
        names1.length = names.length ∧
        (∀ j, names1.getD j none =
          if i ≤ j ∧ j < d.max_columns then
            zsv_select_append_spaced_word (names.getD j none)
              (((cells.get? (j - i)).map (cleaned_str lib d)).getD [])
          else names.getD j none) ∧
        (∀ k cell, cells.get? k = some cell → i + k < d.max_columns →
          cleaned_str lib d cell ≠ [] → i + k < m1) ∧
        (m1 = m ∨ ∃ k cell, cells.get? k = some cell ∧ i + k < d.max_columns ∧
          cleaned_str lib d cell ≠ [] ∧ m1 = i + k + 1) := by
  intro cells
  induction cells with
  | nil =>
    intro i names m _
    refine ⟨fun _ => ⟨_, rfl⟩, ?_⟩
    intro names1 m1 h
    unfold header_row_cells at h
    simp only [Option.some.injEq, Prod.mk.injEq] at h
    obtain ⟨rfl, rfl⟩ := h
    refine ⟨rfl, ?_, ?_, Or.inl rfl⟩
    · intro j
      simp [append_spaced_word_nil]
    · intro k cell hk
      simp at hk
  | cons cell rest ih =>
    intro i names m hlen
    constructor
    · intro hs
      obtain ⟨v, hv⟩ := cell_clean_some lib d hs cell.str cell.quoted
      unfold header_row_cells
      rw [hv]
      simp only
      by_cases hi : i < d.max_columns
      · rw [if_pos hi]
        exact (ih (i + 1) _ _ (by rw [List.length_set]; exact hlen)).1 hs
      · rw [if_neg hi]
        exact (ih (i + 1) names m hlen).1 hs
    · intro names1 m1 h
      unfold header_row_cells at h
      cases hv : zsv_select_cell_clean lib d cell.str cell.quoted with
      | none => rw [hv] at h; simp at h
      | some v =>
        rw [hv] at h
        simp only at h
        have hcl : cleaned_str lib d cell = v.str := by
          unfold cleaned_str
          rw [hv]
        by_cases hi : i < d.max_columns
        · rw [if_pos hi] at h
          obtain ⟨h1, h2, h3, h4⟩ := (ih (i + 1) _ _
            (by rw [List.length_set]; exact hlen)).2 names1 m1 h
          rw [List.length_set] at h1
          refine ⟨h1, ?_, ?_, ?_⟩
          · intro j
            rw [h2 j, getD_set_none names i j _ (by omega)]
            by_cases hji : j = i
            · subst hji
              rw [if_neg (by omega), if_pos rfl, if_pos ⟨le_refl _, hi⟩]
              simp [hcl]
            · rw [if_neg hji]
              by_cases hlt : j < i
              · rw [if_neg (by omega), if_neg (by omega)]
              · by_cases hmax : j < d.max_columns
                · rw [if_pos ⟨by omega, hmax⟩, if_pos ⟨by omega, hmax⟩]
                  have hsub : j - i = (j - (i + 1)) + 1 := by omega
                  rw [hsub, List.get?_cons_succ]
                · rw [if_neg (by omega), if_neg (by omega)]
          · intro k c hk hlt hne
            cases k with
            | zero =>
              simp only [List.get?_cons_zero, Option.some.injEq] at hk
              subst hk
              rw [hcl] at hne
              have hl : v.str.length ≠ 0 := fun e => hne (List.length_eq_zero.mp e)
              rw [if_pos hl] at h4
              rcases h4 with h4 | ⟨k, c, _, _, _, h4⟩
              · omega
              · omega
            | succ k =>
              rw [List.get?_cons_succ] at hk
              have := h3 k c hk (by omega) hne
              omega
          · rcases h4 with h4 | ⟨k, c, hk, hlt, hne, h4⟩
            · by_cases hl : v.str.length ≠ 0
              · rw [if_pos hl] at h4
                refine Or.inr ⟨0, cell, rfl, by omega, ?_, by omega⟩
                rw [hcl]
                exact fun e => hl (by rw [e]; rfl)
              · rw [if_neg hl] at h4
                exact Or.inl h4
            · exact Or.inr ⟨k + 1, c, by rw [List.get?_cons_succ]; exact hk, by omega, hne,
                by omega⟩
        · rw [if_neg hi] at h
          obtain ⟨h1, h2, h3, h4⟩ := (ih (i + 1) names m hlen).2 names1 m1 h
          refine ⟨h1, ?_, ?_, ?_⟩
          · intro j
            rw [h2 j, if_neg (by omega), if_neg (by omega)]
          · intro k c hk hlt
            omega
          · rcases h4 with h4 | ⟨k, c, _, hlt, _, _⟩
            · exact Or.inl h4
            · omega

theorem column_word_congr (lib : zsv_lib) (d d0 : zsv_select_data) (h : same_cleaning d d0)
    (row : List zsv_cell) (j : Nat) : column_word lib d row j = column_word lib d0 row j := by
  unfold column_word
  cases row.get? j with
  | none => rfl
  | some cell => simp [cleaned_str_congr lib d d0 h cell]

theorem column_word_ne_nil_iff (lib : zsv_lib) (d : zsv_select_data) (row : List zsv_cell)
    (j : Nat) :
    column_word lib d row j ≠ [] ↔ ∃ cell, row.get? j = some cell ∧ cleaned_str lib d cell ≠ [] := by
  unfold column_word
  cases row.get? j with
  | none => simp
  | some cell => simp

theorem column_words_cons (lib : zsv_lib) (d : zsv_select_data) (row : List zsv_cell)
    (rest : List (List zsv_cell)) (j : Nat) :
    column_words lib d (row :: rest) j =
      (if column_word lib d row j ≠ [] then [column_word lib d row j] else []) ++
        column_words lib d rest j := by
  unfold column_words column_word
  rw [List.filterMap_cons]
  cases row.get? j with
  | none => simp
  | some cell =>
    simp only [List.map_cons, Option.map_some', Option.getD_some]
    rw [List.filter_cons]
    by_cases hne : cleaned_str lib d cell ≠ []
    · simp [hne]
    · simp [hne]

theorem column_nonempty_cons (lib : zsv_lib) (d : zsv_select_data) (row : List zsv_cell)
    (rest : List (List zsv_cell)) (j : Nat) :
    column_nonempty lib d (row :: rest) j ↔
      column_word lib d row j ≠ [] ∨ column_nonempty lib d rest j := by
  rw [column_word_ne_nil_iff]
  unfold column_nonempty
  simp only [List.mem_cons, exists_eq_or_imp]

theorem column_nonempty_nil (lib : zsv_lib) (d : zsv_select_data) (j : Nat) :
    ¬ column_nonempty lib d [] j := by
  unfold column_nonempty
  simp

theorem header_finish_frame (lib : zsv_lib) (junk : Nat → Nat × Nat) (d d1 : zsv_select_data)
    (h : zsv_select_header_finish lib junk d = some d1) :
    ∃ o c w r, d1 = { d with out2in := o, cancelled := c, csv_writer := w, row_handler := r } := by
  unfold zsv_select_header_finish at h
  cases hr : zsv_select_set_output_columns lib junk d with
  | none => rw [hr] at h; simp at h
  | some p =>
    obtain ⟨err, dr⟩ := p
    obtain ⟨o, ho⟩ : ∃ o, dr = { d with out2in := o } :=
      ⟨_, resolved_same_config lib junk d dr err hr⟩
    subst ho
    rw [hr] at h
    simp only at h
    by_cases he : err ≠ 0
    · rw [if_pos he] at h
      simp only [Option.some.injEq] at h
      exact ⟨o, true, d.csv_writer, d.row_handler, h.symm⟩
    · rw [if_neg he] at h
      simp only [Option.some.injEq] at h
      exact ⟨o, d.cancelled, (zsv_select_print_header_row { d with out2in := o }).csv_writer,
        row_handler.zsv_select_data_row, h.symm⟩

theorem header_finish_some (lib : zsv_lib) (junk : Nat → Nat × Nat) (d : zsv_select_data)
    (h : d.col_argc = 0 ∨ d.use_header_indexes = true) :
    ∃ d1, zsv_select_header_finish lib junk d = some d1 := by
  have ht := resolved_total lib junk d h
  unfold zsv_select_header_finish
  cases hr : zsv_select_set_output_columns lib junk d with
  | none => rw [hr] at ht; simp at ht
  | some p =>
    simp only
    by_cases he : p.1 ≠ 0
    · rw [if_pos he]; exact ⟨_, rfl⟩
    · rw [if_neg he]; exact ⟨_, rfl⟩

theorem header_row_eq (lib : zsv_lib) (junk : Nat → Nat × Nat) (d : zsv_select_data)
    (row : List zsv_cell) (hc : d.cancelled = false) (hs : d.skip_rows = 0) :
    zsv_select_header_row lib junk d row =
      match header_row_cells lib
        { d with
          file_row_count := d.file_row_count + 1,
          header_rows_processed := d.header_rows_processed + 1 } row 0 (d.header_names, 0) with
      | none => none
      | some (names, m) =>
        if d.header_rows_processed + 1 ≥ d.header_depth then
          zsv_select_header_finish lib junk
            { d with
              file_row_count := d.file_row_count + 1,
              header_rows_processed := d.header_rows_processed + 1,
              header_names := names,
              header_name_count := if m > d.header_name_count then m else d.header_name_count }
        else
          some { d with
            file_row_count := d.file_row_count + 1,
            header_rows_processed := d.header_rows_processed + 1,
            header_names := names,
            header_name_count := if m > d.header_name_count then m else d.header_name_count } := by
  unfold zsv_select_header_row
  simp only
  rw [if_neg (by simp [hc]), if_neg (by simp [hs])]
  cases header_row_cells lib
      { d with
        file_row_count := d.file_row_count + 1,
        header_rows_processed := d.header_rows_processed + 1 } row 0 (d.header_names, 0) with
  | none => rfl
  | some p =>
    obtain ⟨names, m⟩ := p
    simp only
    by_cases hm : m > d.header_name_count
    · simp only [if_pos hm]
    · simp only [if_neg hm]

theorem header_row_step (lib : zsv_lib) (junk : Nat → Nat × Nat) (d : zsv_select_data)
    (row : List zsv_cell) (hc : d.cancelled = false) (hs : d.skip_rows = 0)
    (hlen : d.max_columns ≤ d.header_names.length) :
    (lineend_safe d →
      (d.header_rows_processed + 1 < d.header_depth ∨ d.col_argc = 0 ∨
        d.use_header_indexes = true) →
      ∃ d1, zsv_select_header_row lib junk d row = some d1) ∧
    ∀ d1, zsv_select_header_row lib junk d row = some d1 →
      ∃ names1 n1 o c w r,
        d1 = { d with
          file_row_count := d.file_row_count + 1,
          header_rows_processed := d.header_rows_processed + 1,
          header_names := names1, header_name_count := n1, out2in := o, cancelled := c,
          csv_writer := w, row_handler := r } ∧
        names1.length = d.header_names.length ∧
        (∀ j, j < d.max_columns → names1.getD j none =
          zsv_select_append_spaced_word (d.header_names.getD j none) (column_word lib d row j)) ∧
        d.header_name_count ≤ n1 ∧
        (∀ j, j < d.max_columns → column_word lib d row j ≠ [] → j < n1) ∧
        (n1 = d.header_name_count ∨
          (0 < n1 ∧ n1 - 1 < d.max_columns ∧ column_word lib d row (n1 - 1) ≠ [])) ∧
        (d.header_rows_processed + 1 < d.header_depth → c = false ∧ r = d.row_handler) := by
  have hcl : same_cleaning
      { d with
        file_row_count := d.file_row_count + 1,
        header_rows_processed := d.header_rows_processed + 1 } d :=
    ⟨rfl, rfl, rfl, rfl, rfl, rfl⟩
  have hspec := header_row_cells_spec lib
    { d with
      file_row_count := d.file_row_count + 1,
      header_rows_processed := d.header_rows_processed + 1 } row 0 d.header_names 0 hlen
  rw [header_row_eq lib junk d row hc hs]
  constructor
  · intro hsafe hres
    obtain ⟨⟨names1, m1⟩, hr⟩ := hspec.1 hsafe
    rw [hr]
    simp only
    by_cases hfin : d.header_rows_processed + 1 ≥ d.header_depth
    · rw [if_pos hfin]
      rcases hres with hres | hres
      · omega
      · exact header_finish_some lib junk _ hres
    · rw [if_neg hfin]
      exact ⟨_, rfl⟩
  · intro d1 h
    cases hr : header_row_cells lib
        { d with
          file_row_count := d.file_row_count + 1,
          header_rows_processed := d.header_rows_processed + 1 } row 0 (d.header_names, 0) with
    | none => rw [hr] at h; simp at h
    | some p =>
      obtain ⟨names1, m1⟩ := p
      rw [hr] at h
      simp only at h
      obtain ⟨h1, h2, h3, h4⟩ := hspec.2 names1 m1 hr
      have hprops : names1.length = d.header_names.length ∧
          (∀ j, j < d.max_columns → names1.getD j none =
            zsv_select_append_spaced_word (d.header_names.getD j none)
              (column_word lib d row j)) ∧
          d.header_name_count ≤
            (if m1 > d.header_name_count then m1 else d.header_name_count) ∧
          (∀ j, j < d.max_columns → column_word lib d row j ≠ [] →
            j < (if m1 > d.header_name_count then m1 else d.header_name_count)) ∧
          ((if m1 > d.header_name_count then m1 else d.header_name_count) =
              d.header_name_count ∨
            (0 < (if m1 > d.header_name_count then m1 else d.header_name_count) ∧
              (if m1 > d.header_name_count then m1 else d.header_name_count) - 1 <
                d.max_columns ∧
              column_word lib d row
                ((if m1 > d.header_name_count then m1 else d.header_name_count) - 1) ≠ [])) := by
        refine ⟨h1, ?_, ?_, ?_, ?_⟩
        · intro j hj
          have := h2 j
          rw [if_pos ⟨Nat.zero_le j, hj⟩, Nat.sub_zero] at this
          rw [this, ← column_word_congr lib _ d hcl row j]
          rfl
        · split <;> omega
        · intro j hj hne
          rw [column_word_ne_nil_iff] at hne
          obtain ⟨cell, hcell, hne⟩ := hne
          rw [← cleaned_str_congr lib _ d hcl cell] at hne
          have := h3 j cell hcell (by simpa using hj) hne
          split <;> omega
        · by_cases hm : m1 > d.header_name_count
          · rw [if_pos hm]
            rcases h4 with h4 | ⟨k, cell, hk, hlt, hne, h4⟩
            · omega
            · right
              rw [cleaned_str_congr lib _ d hcl cell] at hne
              have hk1 : m1 - 1 = k := by omega
              refine ⟨by omega, ?_, ?_⟩
              · rw [hk1]; simpa using hlt
              · rw [hk1, column_word_ne_nil_iff]
                exact ⟨cell, hk, hne⟩
          · rw [if_neg hm]
            exact Or.inl rfl
      by_cases hfin : d.header_rows_processed + 1 ≥ d.header_depth
      · rw [if_pos hfin] at h
        obtain ⟨o, c, w, r, hd1⟩ := header_finish_frame lib junk _ d1 h
        exact ⟨names1, _, o, c, w, r, hd1, hprops.1, hprops.2.1, hprops.2.2.1, hprops.2.2.2.1,
          hprops.2.2.2.2, fun hlt => absurd hlt (by omega)⟩
      · rw [if_neg hfin] at h
        simp only [Option.some.injEq] at h
        exact ⟨names1, _, d.out2in, d.cancelled, d.csv_writer, d.row_handler, h.symm, hprops.1,
          hprops.2.1, hprops.2.2.1, hprops.2.2.2.1, hprops.2.2.2.2, fun _ => ⟨hc, rfl⟩⟩

/-- The header phase: `d` rows handled by `zsv_select_header_row` when the header is
`d` rows deep. -/
theorem header_phase (lib : zsv_lib) (junk : Nat → Nat × Nat) (rnd : Nat → ℚ)
    (data : zsv_select_data) :
    ∀ (rows : List (List zsv_cell)) (d : zsv_select_data), rows ≠ [] →
      d.row_handler = row_handler.zsv_select_header_row → d.cancelled = false →
      d.skip_rows = 0 → d.header_rows_processed + rows.length = d.header_depth →
      d.max_columns ≤ d.header_names.length → same_cleaning d data →
      d.max_columns = data.max_columns →
      (lineend_safe d → (d.col_argc = 0 ∨ d.use_header_indexes = true) →
        ∃ r, parse_rows lib junk rnd rows d = some r) ∧
      ∀ d1 flags, parse_rows lib junk rnd rows d = some (d1, flags) →
        (∀ j, j < data.max_columns → d1.header_names.getD j none =
          (column_words lib data rows j).foldl zsv_select_append_spaced_word
            (d.header_names.getD j none)) ∧
        d.header_name_count ≤ d1.header_name_count ∧
        (∀ j, j < data.max_columns → column_nonempty lib data rows j →
          j < d1.header_name_count) ∧
        (d1.header_name_count = d.header_name_count ∨
          (0 < d1.header_name_count ∧ d1.header_name_count - 1 < data.max_columns ∧
            column_nonempty lib data rows (d1.header_name_count - 1))) := by
  intro rows
  induction rows with
  | nil => intro d hne; exact absurd rfl hne
  | cons row rest ih =>
    intro d _ hh hc hs hdepth hlen hcl hmax
    obtain ⟨stot, sspec⟩ := header_row_step lib junk d row hc hs hlen
    simp only [List.length_cons] at hdepth
    constructor
    · intro hsafe hres
      obtain ⟨d2, hd2⟩ := stot hsafe (Or.inr hres)
      rw [parse_rows, hh]
      simp only
      rw [hd2]
      simp only [Option.map_some']
      cases rest with
      | nil => exact ⟨_, rfl⟩
      | cons r rest1 =>
        obtain ⟨names1, n1, o, c, w, rh, hrec, hl1, _, _, _, _, hcont⟩ := sspec d2 hd2
        simp only [List.length_cons] at hdepth
        obtain ⟨hc2, hrh⟩ := hcont (by omega)
        obtain ⟨q, hq⟩ := (ih d2 (by simp)
          (by subst hrec; subst hrh; exact hh) (by subst hrec; exact hc2)
          (by subst hrec; exact hs)
          (by subst hrec; simp only [List.length_cons]; omega)
          (by subst hrec; rw [hl1]; exact hlen) (by subst hrec; exact hcl)
          (by subst hrec; exact hmax)).1 (by subst hrec; exact hsafe) (by subst hrec; exact hres)
        rw [hq]
        exact ⟨_, rfl⟩
    · intro d1 flags h
      rw [parse_rows, hh] at h
      simp only at h
      cases hd2 : zsv_select_header_row lib junk d row with
      | none => rw [hd2] at h; simp at h
      | some d2 =>
        rw [hd2] at h
        simp only [Option.map_some'] at h
        obtain ⟨names1, n1, o, c, w, rh, hrec, hl1, hn, hle, hall, hlast, hcont⟩ := sspec d2 hd2
        have hd2n : d2.header_names = names1 := by rw [hrec]
        have hd2c : d2.header_name_count = n1 := by rw [hrec]
        have htail : (∀ j, j < data.max_columns → d1.header_names.getD j none =
              (column_words lib data rest j).foldl zsv_select_append_spaced_word
                (d2.header_names.getD j none)) ∧
            d2.header_name_count ≤ d1.header_name_count ∧
            (∀ j, j < data.max_columns → column_nonempty lib data rest j →
              j < d1.header_name_count) ∧
            (d1.header_name_count = d2.header_name_count ∨
              (0 < d1.header_name_count ∧ d1.header_name_count - 1 < data.max_columns ∧
                column_nonempty lib data rest (d1.header_name_count - 1))) := by
          cases rest with
          | nil =>
            rw [parse_rows] at h
            simp only [Option.map_some', Option.some.injEq, Prod.mk.injEq] at h
            obtain ⟨h, _⟩ := h
            subst h
            refine ⟨fun j _ => rfl, le_refl _, ?_, Or.inl rfl⟩
            intro j _ hcn
            exact absurd hcn (column_nonempty_nil lib data j)
          | cons r rest1 =>
            simp only [List.length_cons] at hdepth
            obtain ⟨hc2, hrh⟩ := hcont (by omega)
            cases hq : parse_rows lib junk rnd (r :: rest1) d2 with
            | none => rw [hq] at h; simp at h
            | some q =>
              rw [hq] at h
              simp only [Option.map_some', Option.some.injEq, Prod.mk.injEq] at h
              obtain ⟨h, _⟩ := h
              subst h
              exact (ih d2 (by simp)
                (by subst hrec; subst hrh; exact hh) (by subst hrec; exact hc2)
                (by subst hrec; exact hs)
                (by subst hrec; simp only [List.length_cons]; omega)
                (by subst hrec; rw [hl1]; exact hlen) (by subst hrec; exact hcl)
                (by subst hrec; exact hmax)).2 q.1 q.2 hq
        obtain ⟨t1, t2, t3, t4⟩ := htail
        rw [hd2n] at t1
        rw [hd2c] at t2 t4
        rw [← hmax]
        rw [← hmax] at t1 t3 t4
        refine ⟨?_, by omega, ?_, ?_⟩
        · intro j hj
          rw [t1 j hj, hn j hj, column_words_cons, List.foldl_append,
            column_word_congr lib d data hcl row j]
          by_cases hw : column_word lib data row j ≠ []
          · rw [if_pos hw]
            rfl
          · rw [if_neg hw]
            rw [not_not] at hw
            rw [hw, append_spaced_word_nil]
            rfl
        · intro j hj hcn
          rw [column_nonempty_cons] at hcn
          rcases hcn with hw | hcn
          · rw [← column_word_congr lib d data hcl row j] at hw
            have := hall j hj hw
            omega
          · exact t3 j hj hcn
        · rcases t4 with t4 | ⟨t4a, t4b, t4c⟩
          · rcases hlast with hlast | ⟨l1, l2, l3⟩
            · left; omega
            · right
              rw [t4]
              refine ⟨l1, l2, ?_⟩
              rw [column_nonempty_cons]
              left
              rw [← column_word_congr lib d data hcl row _]
              exact l3
          · right
            refine ⟨t4a, t4b, ?_⟩
            rw [column_nonempty_cons]
            exact Or.inr t4c

theorem foldl_append_some (ws : List (List Nat)) (hne : ∀ w ∈ ws, w ≠ []) :
    ∀ t : List Nat, ws.foldl zsv_select_append_spaced_word (some t) =
      some ((ws.map c_string).foldl (fun acc x => acc ++ 32 :: x) t) := by
  induction ws with
  | nil => intro t; rfl
  | cons w ws ih =>
    intro t
    have hw : w.length ≠ 0 := fun e => hne w (List.mem_cons_self w ws) (List.length_eq_zero.mp e)
    rw [List.foldl_cons, List.map_cons, List.foldl_cons]
    rw [← ih (fun x hx => hne x (List.mem_cons_of_mem w hx))]
    congr 1
    unfold zsv_select_append_spaced_word c_string
    rw [if_neg hw]

theorem foldl_append_none (ws : List (List Nat)) (hne : ∀ w ∈ ws, w ≠ []) :
    ws.foldl zsv_select_append_spaced_word none = spaced_words (ws.map c_string) := by
  cases ws with
  | nil => rfl
  | cons w ws =>
    have hw : w.length ≠ 0 := fun e => hne w (List.mem_cons_self w ws) (List.length_eq_zero.mp e)
    rw [List.foldl_cons, List.map_cons, spaced_words]
    rw [← foldl_append_some ws (fun x hx => hne x (List.mem_cons_of_mem w hx))]
    congr 1
    unfold zsv_select_append_spaced_word c_string
    rw [if_neg hw]

theorem column_words_ne_nil (lib : zsv_lib) (d : zsv_select_data) (rows : List (List zsv_cell))
    (j : Nat) : ∀ w ∈ column_words lib d rows j, w ≠ [] := by
  intro w hw
  unfold column_words at hw
  rw [List.mem_filter] at hw
  exact of_decide_eq_true hw.2

/-! ## Claims C11 and C12: the width and the names of the logical header -/

/-- Claim C11: let the header handler be registered for a header of `d ≥ 1` rows,
with nothing cancelled, no row to skip, no header row processed yet, the
count of header names 0 and the array of names as long as `max_columns`.
Then the `d` rows are handled to the end whenever the replacement character
is neither CR nor LF and the columns are resolved by position or not
requested at all; and whenever they are handled to the end,
`header_name_count` is at least `i + 1` for every column `i` below
`max_columns` that holds a non-empty cleaned cell in one of the rows, and it
is either 0 or the position of such a column. -/
theorem header_name_count_is_last_nonempty_column (lib : zsv_lib) (junk : Nat → Nat × Nat)
    (rnd : Nat → ℚ) (data : zsv_select_data) (rows : List (List zsv_cell))
    (hd : 1 ≤ rows.length) (hdepth : data.header_depth = rows.length)
    (hh : data.row_handler = row_handler.zsv_select_header_row)
    (hc : data.cancelled = false) (hs : data.skip_rows = 0)
    (hp : data.header_rows_processed = 0) (hn : data.header_name_count = 0)
    (hlen : data.max_columns ≤ data.header_names.length) :
    (lineend_safe data → (data.col_argc = 0 ∨ data.use_header_indexes = true) →
      ∃ r, parse_rows lib junk rnd rows data = some r) ∧
    ∀ data1 flags, parse_rows lib junk rnd rows data = some (data1, flags) →
      (∀ i, i < data.max_columns → column_nonempty lib data rows i →
        i + 1 ≤ data1.header_name_count) ∧
      (data1.header_name_count = 0 ∨
        (data1.header_name_count - 1 < data.max_columns ∧
          column_nonempty lib data rows (data1.header_name_count - 1))) := by
  have hne : rows ≠ [] := by
    intro e
    rw [e] at hd
    simp at hd
  obtain ⟨htot, hspec⟩ := header_phase lib junk rnd data rows data hne hh hc hs
    (by rw [hp, hdepth]; omega) hlen ⟨rfl, rfl, rfl, rfl, rfl, rfl⟩ rfl
  refine ⟨htot, ?_⟩
  intro data1 flags h
  obtain ⟨_, _, h3, h4⟩ := hspec data1 flags h
  refine ⟨fun i hi hcn => h3 i hi hcn, ?_⟩
  rcases h4 with h4 | ⟨_, h5, h6⟩
  · left; rw [h4, hn]
  · exact Or.inr ⟨h5, h6⟩

/-- Witness of claim C11: a header of two rows, `a,,` and `,b,`, gives the count 2. -/
theorem header_name_count_is_last_nonempty_column_witness :
    (parse_rows ascii_lib (fun _ => (0, 0)) (fun _ => 0)
        [[⟨[97], false⟩, ⟨[], false⟩, ⟨[], false⟩], [⟨[], false⟩, ⟨[98], false⟩, ⟨[], false⟩]]
        (MAIN_any_clean { MAIN_init 10 with header_depth := 2 })).map
      (fun r => r.1.header_name_count) = some 2 ∧
    ((lineend_safe (MAIN_any_clean { MAIN_init 10 with header_depth := 2 }) →
      ((MAIN_any_clean { MAIN_init 10 with header_depth := 2 }).col_argc = 0 ∨
        (MAIN_any_clean { MAIN_init 10 with header_depth := 2 }).use_header_indexes = true) →
      ∃ r, parse_rows ascii_lib (fun _ => (0, 0)) (fun _ => 0)
        [[⟨[97], false⟩, ⟨[], false⟩, ⟨[], false⟩], [⟨[], false⟩, ⟨[98], false⟩, ⟨[], false⟩]]
        (MAIN_any_clean { MAIN_init 10 with header_depth := 2 }) = some r) ∧
    ∀ data1 flags, parse_rows ascii_lib (fun _ => (0, 0)) (fun _ => 0)
        [[⟨[97], false⟩, ⟨[], false⟩, ⟨[], false⟩], [⟨[], false⟩, ⟨[98], false⟩, ⟨[], false⟩]]
        (MAIN_any_clean { MAIN_init 10 with header_depth := 2 }) = some (data1, flags) →
      (∀ i, i < (MAIN_any_clean { MAIN_init 10 with header_depth := 2 }).max_columns →
        column_nonempty ascii_lib (MAIN_any_clean { MAIN_init 10 with header_depth := 2 })
          [[⟨[97], false⟩, ⟨[], false⟩, ⟨[], false⟩],
            [⟨[], false⟩, ⟨[98], false⟩, ⟨[], false⟩]] i →
        i + 1 ≤ data1.header_name_count) ∧
      (data1.header_name_count = 0 ∨
        (data1.header_name_count - 1 <
            (MAIN_any_clean { MAIN_init 10 with header_depth := 2 }).max_columns ∧
          column_nonempty ascii_lib (MAIN_any_clean { MAIN_init 10 with header_depth := 2 })
            [[⟨[97], false⟩, ⟨[], false⟩, ⟨[], false⟩],
              [⟨[], false⟩, ⟨[98], false⟩, ⟨[], false⟩]]
            (data1.header_name_count - 1)))) :=
  ⟨by decide,
    header_name_count_is_last_nonempty_column ascii_lib (fun _ => (0, 0)) (fun _ => 0)
      (MAIN_any_clean { MAIN_init 10 with header_depth := 2 })
      [[⟨[97], false⟩, ⟨[], false⟩, ⟨[], false⟩], [⟨[], false⟩, ⟨[98], false⟩, ⟨[], false⟩]]
      (by decide) rfl rfl rfl rfl rfl rfl (by decide)⟩

/-- Claim C12, the counterexample: the header cell `a` NUL `b` is a non-empty
content of three bytes, and the name recorded for its column is `a`. -/
theorem header_name_stops_at_nul_byte :
    (parse_rows ascii_lib (fun _ => (0, 0)) (fun _ => 0) [[⟨[97, 0, 98], false⟩]]
        (MAIN_init 10)).map (fun r => r.1.header_names.getD 0 none) = some (some [97]) ∧
    spaced_words (column_words ascii_lib (MAIN_init 10) [[⟨[97, 0, 98], false⟩]] 0) =
      some [97, 0, 98] := by
  decide

/-- Claim C12, amended: let the header handler be registered for a header of
`d ≥ 1` rows, with nothing cancelled, no row to skip, no header row
processed yet and no name recorded in the `max_columns` entries of the array
of names.  Then the `d` rows are handled to the end whenever the
replacement character is neither CR nor LF and the columns are resolved by
position or not requested at all; and whenever they are handled to the end,
the name of every column `i` below `max_columns` is made of the non-empty
cleaned contents of column `i` in row order, each cut at its first NUL byte,
joined by single spaces, and no name is recorded when there is no such
content. -/
theorem header_names_are_spaced_words (lib : zsv_lib) (junk : Nat → Nat × Nat)
    (rnd : Nat → ℚ) (data : zsv_select_data) (rows : List (List zsv_cell))
    (hd : 1 ≤ rows.length) (hdepth : data.header_depth = rows.length)
    (hh : data.row_handler = row_handler.zsv_select_header_row)
    (hc : data.cancelled = false) (hs : data.skip_rows = 0)
    (hp : data.header_rows_processed = 0)
    (hnames : data.header_names = List.replicate data.max_columns none) :
    (lineend_safe data → (data.col_argc = 0 ∨ data.use_header_indexes = true) →
      ∃ r, parse_rows lib junk rnd rows data = some r) ∧
    ∀ data1 flags, parse_rows lib junk rnd rows data = some (data1, flags) →
      ∀ i, i < data.max_columns →
        data1.header_names.getD i none =
          spaced_words ((column_words lib data rows i).map c_string) := by
  have hne : rows ≠ [] := by
    intro e
    rw [e] at hd
    simp at hd
  obtain ⟨htot, hspec⟩ := header_phase lib junk rnd data rows data hne hh hc hs
    (by rw [hp, hdepth]; omega) (by rw [hnames, List.length_replicate])
    ⟨rfl, rfl, rfl, rfl, rfl, rfl⟩ rfl
  refine ⟨htot, ?_⟩
  intro data1 flags h i hi
  obtain ⟨h1, _, _, _⟩ := hspec data1 flags h
  rw [h1 i hi, ← foldl_append_none _ (column_words_ne_nil lib data rows i)]
  congr 1
  rw [hnames, List.getD_eq_getElem?_getD]
  simp [hi]

/-- Witness of claim C12: a header of three rows `a,x`, `,y` and `b c,` gives the
names `a b c` and `x y`. -/
theorem header_names_are_spaced_words_witness :
    (parse_rows ascii_lib (fun _ => (0, 0)) (fun _ => 0)
        [[⟨[97], false⟩, ⟨[120], false⟩], [⟨[], false⟩, ⟨[121], false⟩],
          [⟨[98, 32, 99], false⟩, ⟨[], false⟩]]
        (MAIN_any_clean { MAIN_init 10 with header_depth := 3 })).map
      (fun r => r.1.header_names.take 3) =
      some [some [97, 32, 98, 32, 99], some [120, 32, 121], none] ∧
    ((lineend_safe (MAIN_any_clean { MAIN_init 10 with header_depth := 3 }) →
      ((MAIN_any_clean { MAIN_init 10 with header_depth := 3 }).col_argc = 0 ∨
        (MAIN_any_clean { MAIN_init 10 with header_depth := 3 }).use_header_indexes = true) →
      ∃ r, parse_rows ascii_lib (fun _ => (0, 0)) (fun _ => 0)
        [[⟨[97], false⟩, ⟨[120], false⟩], [⟨[], false⟩, ⟨[121], false⟩],
          [⟨[98, 32, 99], false⟩, ⟨[], false⟩]]
        (MAIN_any_clean { MAIN_init 10 with header_depth := 3 }) = some r) ∧
    ∀ data1 flags, parse_rows ascii_lib (fun _ => (0, 0)) (fun _ => 0)
        [[⟨[97], false⟩, ⟨[120], false⟩], [⟨[], false⟩, ⟨[121], false⟩],
          [⟨[98, 32, 99], false⟩, ⟨[], false⟩]]
        (MAIN_any_clean { MAIN_init 10 with header_depth := 3 }) = some (data1, flags) →
      ∀ i, i < (MAIN_any_clean { MAIN_init 10 with header_depth := 3 }).max_columns →
        data1.header_names.getD i none =
          spaced_words ((column_words ascii_lib
            (MAIN_any_clean { MAIN_init 10 with header_depth := 3 })
            [[⟨[97], false⟩, ⟨[120], false⟩], [⟨[], false⟩, ⟨[121], false⟩],
              [⟨[98, 32, 99], false⟩, ⟨[], false⟩]] i).map c_string)) :=
  ⟨by decide,
    header_names_are_spaced_words ascii_lib (fun _ => (0, 0)) (fun _ => 0)
      (MAIN_any_clean { MAIN_init 10 with header_depth := 3 })
      [[⟨[97], false⟩, ⟨[120], false⟩], [⟨[], false⟩, ⟨[121], false⟩],
        [⟨[98, 32, 99], false⟩, ⟨[], false⟩]]
      (by decide) rfl rfl rfl rfl rfl rfl⟩

/-! ## Claims C21 to C24: the range cap, exclusions and the option `--no-trim` -/

/-- What the code does in the setting of claim C21: in index mode, with distinct
off, no exclusions and an empty output mapping, one closed range `lo-hi` with
`hi ≥ max_columns` resolves to the indices `lo-1, ..., max_columns-2`; the
column at position `max_columns` is left out. -/
theorem range_capped_below_max_columns (lib : zsv_lib) (junk : Nat → Nat × Nat)
    (data : zsv_select_data) (arg : List Nat) (lo hi : Nat)
    (hargs : data.col_argv = [arg]) (hidx : data.use_header_indexes = true)
    (hdistinct : data.distinct = false) (hexcl : data.exclusions = [])
    (hout : data.out2in = [])
    (hsel : zsv_select_column_index_selection arg (junk 0).1 (junk 0).2 =
      ⟨zsv_select_column_index_selection_type.range, lo, hi⟩)
    (hlo : 1 ≤ lo) (hhi : data.max_columns ≤ hi) :
    zsv_select_set_output_columns lib junk data =
      some (0, { data with out2in := List.range' (lo - 1) (data.max_columns - lo) }) := by
  unfold zsv_select_set_output_columns
  rw [if_neg (by simp [zsv_select_data.col_argc, hargs]), if_pos hidx, hargs]
  unfold set_output_columns_indexes set_output_columns_indexes
  rw [hsel, index_arg_fold]
  simp only [index_arg_candidates]
  have hmin : min (hi + 1) data.max_columns = data.max_columns := by omega
  rw [hmin]
  have hmap : (List.range' lo (data.max_columns - lo)).map (· - 1) =
      List.range' (lo - 1) (data.max_columns - lo) := by
    apply List.ext_getElem
    · simp
    · intro n h1 h2
      simp only [List.length_map, List.length_range'] at h1
      simp only [List.getElem_map, List.getElem_range']
      omega
  rw [hmap, foldl_add_plain lib _ data hdistinct hexcl
    (by rw [hout, List.length_range']; simp), hout]
  simp
  exact hargs

/-- Claim C21, the failing input: ten header columns, `max_columns = 10`, index
mode.  The range `1-10` resolves to the nine indices 0 to 8: the tenth column
is left out, although the single index `10` resolves to index 9 and the open
range `1-` to all ten columns. -/
theorem range_cap_drops_column_max_columns :
    (zsv_select_set_output_columns ascii_lib (fun _ => (0, 0))
        { MAIN_init 10 with
          header_name_count := 10, header_names := List.replicate 10 (some [97]),
          col_argv := [[49, 45, 49, 48]], use_header_indexes := true }).map
      (fun r => (r.1, r.2.out2in)) = some (0, [0, 1, 2, 3, 4, 5, 6, 7, 8]) ∧
    (zsv_select_set_output_columns ascii_lib (fun _ => (0, 0))
        { MAIN_init 10 with
          header_name_count := 10, header_names := List.replicate 10 (some [97]),
          col_argv := [[49, 48]], use_header_indexes := true }).map
      (fun r => (r.1, r.2.out2in)) = some (0, [9]) ∧
    (zsv_select_set_output_columns ascii_lib (fun _ => (0, 0))
        { MAIN_init 10 with
          header_name_count := 10, header_names := List.replicate 10 (some [97]),
          col_argv := [[49, 45]], use_header_indexes := true }).map
      (fun r => (r.1, r.2.out2in)) = some (0, [0, 1, 2, 3, 4, 5, 6, 7, 8, 9]) := by
  refine ⟨by decide, by decide, by decide⟩

/-- Claim C22, the failing input: the option `-x a` is rejected by the option
loop of `MAIN` whatever the session record holds, so also when columns are
selected by name; the value never reaches the exclusion set.  The check
behind the option loop is the one that depends on the mode: had `a` been
stored, it would pass in name mode and fail in index mode. -/
theorem exclusion_name_is_rejected_in_every_mode :
    (∀ (data : zsv_select_data) (i0 j0 : Nat), MAIN_exclude data (some [97]) i0 j0 = none) ∧
    (∀ (junk : Nat → Nat × Nat),
      MAIN_check_exclusions junk false (zsv_select_add_exclusion (MAIN_init 10) [97]) = false) ∧
    (∀ (junk : Nat → Nat × Nat),
      MAIN_check_exclusions junk false
        (zsv_select_add_exclusion { MAIN_init 10 with use_header_indexes := true } [97]) =
          true) := by
  refine ⟨?_, ?_, ?_⟩
  · intro data i0 j0
    rfl
  · intro junk
    rfl
  · intro junk
    rfl

/-- Claim C23, the failing input: the option `-x 2` is accepted and stored, and
with the header `a,b,c` and no column argument all three columns are kept,
the one at position 2 included, also in index mode with the argument `1-3`
and for the range form `-x 1-2`.  What `-x 2` leaves out is a column whose
header name is `2`. -/
theorem exclusion_by_position_keeps_the_column :
    MAIN_exclude (MAIN_init 10) (some [50]) 0 0 =
      some { MAIN_init 10 with exclusions := [[50]] } ∧
    (parse_rows ascii_lib (fun _ => (0, 0)) (fun _ => 0)
        [[⟨[97], false⟩, ⟨[98], false⟩, ⟨[99], false⟩]]
        (MAIN_any_clean { MAIN_init 10 with exclusions := [[50]] })).map
      (fun r => (r.1.cancelled, r.1.out2in)) = some (false, [0, 1, 2]) ∧
    (parse_rows ascii_lib (fun _ => (0, 0)) (fun _ => 0)
        [[⟨[97], false⟩, ⟨[98], false⟩, ⟨[99], false⟩]]
        (MAIN_any_clean { MAIN_init 10 with
          exclusions := [[50]], use_header_indexes := true,
          col_argv := [[49, 45, 51]] })).map
      (fun r => (r.1.cancelled, r.1.out2in)) = some (false, [0, 1, 2]) ∧
    (parse_rows ascii_lib (fun _ => (0, 0)) (fun _ => 0)
        [[⟨[97], false⟩, ⟨[98], false⟩, ⟨[99], false⟩]]
        (MAIN_any_clean { MAIN_init 10 with exclusions := [[49, 45, 50]] })).map
      (fun r => (r.1.cancelled, r.1.out2in)) = some (false, [0, 1, 2]) ∧
    (parse_rows ascii_lib (fun _ => (0, 0)) (fun _ => 0)
        [[⟨[97], false⟩, ⟨[50], false⟩, ⟨[99], false⟩]]
        (MAIN_any_clean { MAIN_init 10 with exclusions := [[50]] })).map
      (fun r => (r.1.cancelled, r.1.out2in)) = some (false, [0, 2]) := by
  refine ⟨rfl, by decide, by decide, by decide, by decide⟩

/-- Claim C24, the failing input: with `--no-trim` and `-e X` the quoted cell
` a ` (blank, `a`, blank) is cleaned to `a`: the trim step is called behind the
line-end step.  The same cell unquoted keeps its blanks. -/
theorem no_trim_still_trims_quoted_cells :
    (MAIN_any_clean { MAIN_init 10 with
        no_trim_whitespace := true, embedded_lineend := 88 }).no_trim_whitespace = true ∧
    (zsv_select_cell_clean ascii_lib
        (MAIN_any_clean { MAIN_init 10 with no_trim_whitespace := true, embedded_lineend := 88 })
        [32, 97, 32] true).map (fun v => v.str) = some [97] ∧
    (zsv_select_cell_clean ascii_lib
        (MAIN_any_clean { MAIN_init 10 with no_trim_whitespace := true, embedded_lineend := 88 })
        [32, 97, 32] false).map (fun v => v.str) = some [32, 97, 32] := by
  refine ⟨rfl, by decide, by decide⟩

/-- What holds of claim C24: with `no_trim_whitespace` set, on an unquoted cell or
without a replacement character for line ends, `zsv_select_cell_clean` does
not depend on `zsv_strtrim` and returns a view that starts where the cell
starts. -/
theorem no_trim_without_lineend_step (lib : zsv_lib) (f : List Nat → Nat × Nat)
    (data : zsv_select_data) (s : List Nat) (q : Bool)
    (hno : data.no_trim_whitespace = true) (hq : data.embedded_lineend = 0 ∨ q = false) :
    zsv_select_cell_clean lib data s q =
        zsv_select_cell_clean { lib with strtrim := f } data s q ∧
      ∃ v, zsv_select_cell_clean lib data s q = some v ∧ v.pre = [] := by
  have hcond : ¬ ((decide (data.embedded_lineend ≠ 0) && q) = true) := by
    rcases hq with h | h
    · simp [h]
    · simp [h]
  have hsteps : ∀ l : zsv_lib, (clean_steps l data s).pre = [] := by
    intro l
    unfold clean_steps
    simp only [hno, Bool.not_true, Bool.false_eq_true, if_false]
    cases data.malformed_utf8_replace <;> cases data.clean_white <;> rfl
  have heq : clean_steps lib data s = clean_steps { lib with strtrim := f } data s := by
    unfold clean_steps
    simp only [hno, Bool.not_true, Bool.false_eq_true, if_false]
  unfold zsv_select_cell_clean
  by_cases h1 : data.any_clean = false
  · rw [if_pos h1, if_pos h1]
    exact ⟨rfl, _, rfl, rfl⟩
  · rw [if_neg h1, if_neg h1]
    simp only
    rw [if_neg hcond, if_neg hcond]
    exact ⟨by rw [heq], _, rfl, hsteps lib⟩

/-! ## Claim C25: the header row written -/

theorem enum_map_first_flags (f : Nat × Nat → writer_call) (b : Bool) (l : List Nat)
    (hf : ∀ p, (f p).first = (p.1 == 0 && b)) :
    (l.enum.map f).map writer_call.first = (List.range l.length).map (fun i => i == 0 && b) := by
  rw [List.map_map]
  have h1 : (writer_call.first ∘ f) = (fun i => i == 0 && b) ∘ Prod.fst := by
    funext p
    simp [Function.comp, hf]
  rw [h1, ← List.map_map, List.enum_map_fst]

theorem range_succ_first_flags (n : Nat) :
    (List.range (n + 1)).map (fun i => i == 0) =
      true :: (List.range n).map (fun i => i == 0 && false) := by
  rw [List.range_succ_eq_map, List.map_cons, List.map_map]
  congr 1
  apply List.map_congr_left
  intro i _
  simp

/-- Claim C25: `zsv_select_print_header_row` changes nothing but the calls made to
the writer, to which it adds one call of `zsv_writer_cell_s` per entry of
`out2in`, in order, with the header name of column `out2in[i]` as its value
(`NULL`, written as the empty string, for a column at or beyond
`header_name_count`), in front of them one call with the value `#` when
line numbering is on; and exactly the first of the added calls carries
`is_first_in_row`. -/
theorem header_row_is_written_per_output_column (data : zsv_select_data) :
    ∃ calls, zsv_select_print_header_row data =
        { data with csv_writer := data.csv_writer ++ calls } ∧
      calls.length = (if data.prepend_line_number then 1 else 0) + data.output_cols_count ∧
      (data.prepend_line_number = true →
        calls.head? = some (writer_call.cell_s true (some [35]) false)) ∧
      (∀ i, i < data.output_cols_count →
        ∃ first, calls.get? ((if data.prepend_line_number then 1 else 0) + i) =
          some (writer_call.cell_s first
            (zsv_select_get_header_name data (data.out2in.getD i 0)) true)) ∧
      (∀ ix, ix < data.header_name_count →
        zsv_select_get_header_name data ix = data.header_names.getD ix none) ∧
      (∀ ix, data.header_name_count ≤ ix →
        cell_s_text (zsv_select_get_header_name data ix) = []) ∧
      only_first_is_first calls := by
  have hname1 : ∀ ix, ix < data.header_name_count →
      zsv_select_get_header_name data ix = data.header_names.getD ix none := by
    intro ix h
    unfold zsv_select_get_header_name
    rw [if_pos h]
  have hname2 : ∀ ix, data.header_name_count ≤ ix →
      cell_s_text (zsv_select_get_header_name data ix) = [] := by
    intro ix h
    unfold zsv_select_get_header_name
    rw [if_neg (by omega)]
    rfl
  have hget : ∀ (b : Bool) (i : Nat), i < data.out2in.length →
      (data.out2in.enum.map (fun p => writer_call.cell_s (p.1 == 0 && b)
        (zsv_select_get_header_name data p.2) true)).get? i =
      some (writer_call.cell_s (i == 0 && b)
        (zsv_select_get_header_name data (data.out2in.getD i 0)) true) := by
    intro b i hi
    rw [List.get?_eq_getElem?, List.getElem?_map, List.getElem?_enum,
      List.getElem?_eq_getElem hi]
    simp [List.getD_eq_getElem?_getD, List.getElem?_eq_getElem hi]
  unfold zsv_select_data.output_cols_count
  by_cases hp : data.prepend_line_number = true
  · refine ⟨writer_call.cell_s true (some [35]) false ::
      data.out2in.enum.map (fun p => writer_call.cell_s (p.1 == 0 && false)
        (zsv_select_get_header_name data p.2) true), ?_, ?_, ?_, ?_, hname1, hname2, ?_⟩
    · unfold zsv_select_print_header_row
      simp [hp]
    · simp [hp]
      omega
    · intro _; rfl
    · intro i hi
      refine ⟨(i == 0 && false), ?_⟩
      rw [if_pos hp, Nat.add_comm, List.get?_cons_succ]
      exact hget false i hi
    · unfold only_first_is_first
      rw [List.length_cons, List.map_cons, range_succ_first_flags, List.length_map,
        List.enum_length]
      congr 1
      exact enum_map_first_flags _ false data.out2in (fun p => rfl)
  · have hp2 : data.prepend_line_number = false := by
      cases h : data.prepend_line_number
      · rfl
      · exact absurd h hp
    refine ⟨data.out2in.enum.map (fun p => writer_call.cell_s (p.1 == 0 && true)
        (zsv_select_get_header_name data p.2) true), ?_, ?_, ?_, ?_, hname1, hname2, ?_⟩
    · unfold zsv_select_print_header_row
      simp [hp2]
    · simp [hp2]
    · intro h; exact absurd h hp
    · intro i hi
      refine ⟨(i == 0 && true), ?_⟩
      rw [if_neg hp, Nat.zero_add]
      exact hget true i hi
    · unfold only_first_is_first
      rw [List.length_map, List.enum_length,
        enum_map_first_flags (fun p => writer_call.cell_s (p.1 == 0 && true)
          (zsv_select_get_header_name data p.2) true) true data.out2in (fun p => rfl)]
      apply List.map_congr_left
      intro i _
      simp

/-! ## Claim C26: the data row written -/

theorem getD_set_ne_cell (row : List zsv_cell) (i j : Nat) (x : zsv_cell) (h : i ≠ j) :
    zsv_get_cell (row.set i x) j = zsv_get_cell row j := by
  unfold zsv_get_cell
  rw [List.getD_eq_getElem?_getD, List.getD_eq_getElem?_getD, List.getElem?_set_ne h]

theorem output_data_row_cells_nodup (lib : zsv_lib) (data : zsv_select_data)
    (hs : lineend_safe data) (row : List zsv_cell) :
    ∀ (cols : List Nat) (first : Bool) (row1 : List zsv_cell) (w : List writer_call),
      cols.Nodup → (∀ ix ∈ cols, zsv_get_cell row1 ix = zsv_get_cell row ix) →
      output_data_row_cells lib data cols first row1 w =
        some (w ++ spec_data_cells lib data row first cols) := by
  intro cols
  induction cols with
  | nil => intro first row1 w _ _; simp [output_data_row_cells, spec_data_cells]
  | cons ix rest ih =>
    intro first row1 w hnd hrow
    obtain ⟨hnotin, hnd1⟩ := List.nodup_cons.mp hnd
    have hcell : zsv_get_cell row1 ix = zsv_get_cell row ix := hrow ix (List.mem_cons_self ix rest)
    obtain ⟨v, hv⟩ := cell_clean_some lib data hs (zsv_get_cell row ix).str
      (zsv_get_cell row ix).quoted
    have hcl : cleaned_str lib data (zsv_get_cell row ix) = v.str := by
      unfold cleaned_str
      rw [hv]
    unfold output_data_row_cells
    simp only
    rw [hcell, hv]
    simp only
    rw [ih false _ _ hnd1 (by
      intro j hj
      have hne : ix ≠ j := fun e => hnotin (e ▸ hj)
      rw [getD_set_ne_cell _ _ _ _ hne]
      exact hrow j (List.mem_cons_of_mem ix hj))]
    rw [spec_data_cells, hcl]
    simp

theorem spec_data_cells_length (lib : zsv_lib) (data : zsv_select_data) (row : List zsv_cell) :
    ∀ (cols : List Nat) (first : Bool),
      (spec_data_cells lib data row first cols).length = cols.length := by
  intro cols
  induction cols with
  | nil => intro first; rfl
  | cons ix rest ih => intro first; simp [spec_data_cells, ih]

theorem spec_data_cells_get (lib : zsv_lib) (data : zsv_select_data) (row : List zsv_cell) :
    ∀ (cols : List Nat) (first : Bool) (i : Nat), i < cols.length →
      (spec_data_cells lib data row first cols).get? i =
        some (writer_call.cell (i == 0 && first)
          (cleaned_str lib data (zsv_get_cell row (cols.getD i 0)))
          (zsv_get_cell row (cols.getD i 0)).quoted) := by
  intro cols
  induction cols with
  | nil => intro first i h; simp at h
  | cons ix rest ih =>
    intro first i h
    cases i with
    | zero => simp [spec_data_cells]
    | succ i =>
      simp only [List.length_cons, Nat.add_lt_add_iff_right] at h
      rw [spec_data_cells, List.get?_cons_succ, ih false i h]
      simp

theorem spec_data_cells_first (lib : zsv_lib) (data : zsv_select_data) (row : List zsv_cell) :
    ∀ (cols : List Nat) (first : Bool),
      (spec_data_cells lib data row first cols).map writer_call.first =
        (List.range cols.length).map (fun i => i == 0 && first) := by
  intro cols
  induction cols with
  | nil => intro first; rfl
  | cons ix rest ih =>
    intro first
    rw [spec_data_cells, List.map_cons, ih false, List.length_cons, List.range_succ_eq_map,
      List.map_cons, List.map_map]
    simp only [writer_call.first, beq_self_eq_true, Bool.true_and, List.cons.injEq, true_and]
    apply List.map_congr_left
    intro i _
    simp

/-- What holds of claim C26: when no input index occurs twice in `out2in` and the
replacement character is neither CR nor LF, `zsv_select_output_data_row` on
the row as the tokenizer delivers it changes nothing but the calls made to
the writer, to which it adds one call of `zsv_writer_cell` per entry of
`out2in`, in order, with the cleaned cell at index `out2in[i]` (an empty
unquoted cell beyond the columns of the row) and the quoted flag of that
cell, in front of them one call with `data_row_count` when line numbering is
on; and exactly the first of the added calls carries `is_first_in_row`. -/
theorem output_data_row_without_repeated_index (lib : zsv_lib) (data : zsv_select_data)
    (row : List zsv_cell) (hs : lineend_safe data) (hnd : data.out2in.Nodup) :
    ∃ calls, zsv_select_output_data_row lib data row =
        some { data with csv_writer := data.csv_writer ++ calls } ∧
      calls.length = (if data.prepend_line_number then 1 else 0) + data.output_cols_count ∧
      (data.prepend_line_number = true →
        calls.head? = some (writer_call.cell_zu true data.data_row_count)) ∧
      (∀ i, i < data.output_cols_count →
        ∃ first, calls.get? ((if data.prepend_line_number then 1 else 0) + i) =
          some (writer_call.cell first
            (cleaned_str lib data (zsv_get_cell row (data.out2in.getD i 0)))
            (zsv_get_cell row (data.out2in.getD i 0)).quoted)) ∧
      only_first_is_first calls := by
  unfold zsv_select_data.output_cols_count
  by_cases hp : data.prepend_line_number = true
  · refine ⟨writer_call.cell_zu true data.data_row_count ::
      spec_data_cells lib data row false data.out2in, ?_, ?_, ?_, ?_, ?_⟩
    · unfold zsv_select_output_data_row
      simp only [hp, if_true, Bool.not_true]
      rw [output_data_row_cells_nodup lib data hs row data.out2in false row _ hnd
        (fun _ _ => rfl)]
      simp
    · simp [hp, spec_data_cells_length]
      omega
    · intro _; rfl
    · intro i hi
      refine ⟨(i == 0 && false), ?_⟩
      rw [if_pos hp, Nat.add_comm, List.get?_cons_succ]
      exact spec_data_cells_get lib data row data.out2in false i hi
    · unfold only_first_is_first
      rw [List.length_cons, List.map_cons, spec_data_cells_first, spec_data_cells_length,
        List.range_succ_eq_map, List.map_cons, List.map_map]
      simp only [writer_call.first, beq_self_eq_true, List.cons.injEq, true_and]
      apply List.map_congr_left
      intro i _
      simp
  · have hp2 : data.prepend_line_number = false := by
      cases h : data.prepend_line_number
      · rfl
      · exact absurd h hp
    refine ⟨spec_data_cells lib data row true data.out2in, ?_, ?_, ?_, ?_, ?_⟩
    · unfold zsv_select_output_data_row
      simp only [hp2, Bool.false_eq_true, if_false, Bool.not_false]
      rw [output_data_row_cells_nodup lib data hs row data.out2in true row _ hnd
        (fun _ _ => rfl)]
      simp
    · simp [hp2, spec_data_cells_length]
    · intro h; exact absurd h hp
    · intro i hi
      refine ⟨(i == 0 && true), ?_⟩
      rw [if_neg hp, Nat.zero_add]
      exact spec_data_cells_get lib data row data.out2in true i hi
    · unfold only_first_is_first
      rw [spec_data_cells_first, spec_data_cells_length]
      apply List.map_congr_left
      intro i _
      simp

/-- Claim C26, the failing input: index mode with the arguments `1 1`, the
replacement character `X` for embedded line ends, header `h`, and a data row
whose one cell is the quoted `a` CR LF `b`.  The two cells written for the
row are `aXb` and `aXbb`: the second entry of `out2in` names the same cell,
which the first call has cleaned in place, and cleans the changed buffer over
its old length. -/
theorem repeated_column_is_cleaned_twice :
    (parse_rows ascii_lib (fun _ => (0, 0)) (fun _ => 0)
        [[⟨[104], false⟩], [⟨[97, 13, 10, 98], true⟩]]
        (MAIN_any_clean { MAIN_init 10 with
          use_header_indexes := true, col_argv := [[49], [49]],
          embedded_lineend := 88 })).map
      (fun r => (r.1.out2in, r.1.csv_writer, r.2)) =
      some ([0, 0],
        [writer_call.cell_s true (some [104]) true, writer_call.cell_s false (some [104]) true,
          writer_call.cell true [97, 88, 98] true, writer_call.cell false [97, 88, 98, 98] true],
        [false, true]) ∧
    cleaned_str ascii_lib
        (MAIN_any_clean { MAIN_init 10 with
          use_header_indexes := true, col_argv := [[49], [49]],
          embedded_lineend := 88 }) ⟨[97, 13, 10, 98], true⟩ = [97, 88, 98] := by
  refine ⟨by decide, by decide⟩

/-! ## Lemmas on sequences of rows -/

theorem parse_rows_header_cons (lib : zsv_lib) (junk : Nat → Nat × Nat) (rnd : Nat → ℚ)
    (row : List zsv_cell) (rest : List (List zsv_cell)) (d : zsv_select_data)
    (hd : d.row_handler = row_handler.zsv_select_header_row) :
    parse_rows lib junk rnd (row :: rest) d =
      match zsv_select_header_row lib junk d row with
      | none => none
      | some d1 => (parse_rows lib junk rnd rest d1).map (fun q => (q.1, false :: q.2)) := by
  rw [parse_rows, hd]
  simp only
  cases zsv_select_header_row lib junk d row <;> rfl

theorem parse_rows_cons_single (lib : zsv_lib) (junk : Nat → Nat × Nat) (rnd : Nat → ℚ)
    (row : List zsv_cell) (rest : List (List zsv_cell)) (d : zsv_select_data) :
    parse_rows lib junk rnd (row :: rest) d =
      match parse_rows lib junk rnd [row] d with
      | none => none
      | some r => (parse_rows lib junk rnd rest r.1).map (fun q => (q.1, r.2 ++ q.2)) := by
  cases hh : d.row_handler with
  | zsv_select_header_row =>
    rw [parse_rows_header_cons lib junk rnd row rest d hh,
      parse_rows_header_cons lib junk rnd row [] d hh]
    cases zsv_select_header_row lib junk d row with
    | none => rfl
    | some d1 => simp [parse_rows]
  | zsv_select_data_row =>
    rw [parse_rows_data_cons lib junk rnd row rest d hh,
      parse_rows_data_cons lib junk rnd row [] d hh]
    cases zsv_select_data_row lib rnd d row with
    | none => rfl
    | some r => simp [parse_rows]

theorem parse_rows_append (lib : zsv_lib) (junk : Nat → Nat × Nat) (rnd : Nat → ℚ) :
    ∀ (a b : List (List zsv_cell)) (d : zsv_select_data),
      parse_rows lib junk rnd (a ++ b) d =
        match parse_rows lib junk rnd a d with
        | none => none
        | some r => (parse_rows lib junk rnd b r.1).map (fun q => (q.1, r.2 ++ q.2)) := by
  intro a
  induction a with
  | nil =>
    intro b d
    simp only [List.nil_append, parse_rows]
    cases parse_rows lib junk rnd b d with
    | none => rfl
    | some q => simp
  | cons row rest ih =>
    intro b d
    rw [List.cons_append, parse_rows_cons_single lib junk rnd row (rest ++ b) d,
      parse_rows_cons_single lib junk rnd row rest d]
    cases h1 : parse_rows lib junk rnd [row] d with
    | none => rfl
    | some r =>
      simp only
      rw [ih b r.1]
      cases h2 : parse_rows lib junk rnd rest r.1 with
      | none => rfl
      | some q =>
        simp only [Option.map_some']
        cases parse_rows lib junk rnd b q.1 with
        | none => rfl
        | some t => simp

theorem header_row_skip (lib : zsv_lib) (junk : Nat → Nat × Nat) (d : zsv_select_data)
    (row : List zsv_cell) (hc : d.cancelled = false) (hs : 0 < d.skip_rows) :
    zsv_select_header_row lib junk d row =
      some { d with file_row_count := d.file_row_count + 1, skip_rows := d.skip_rows - 1 } := by
  unfold zsv_select_header_row
  simp only
  rw [if_neg (by simp [hc]), if_pos (by simpa using hs)]

theorem header_row_cells_some (lib : zsv_lib) (d : zsv_select_data) (hs : lineend_safe d) :
    ∀ (cells : List zsv_cell) (i : Nat) (acc : List (Option (List Nat)) × Nat),
      ∃ r, header_row_cells lib d cells i acc = some r := by
  intro cells
  induction cells with
  | nil => intro i acc; exact ⟨_, rfl⟩
  | cons cell rest ih =>
    intro i acc
    obtain ⟨v, hv⟩ := cell_clean_some lib d hs cell.str cell.quoted
    unfold header_row_cells
    rw [hv]
    simp only
    by_cases hi : i < d.max_columns
    · rw [if_pos hi]; exact ih _ _
    · rw [if_neg hi]; exact ih _ _

/-- Every call of `zsv_select_header_row` counts the row in `file_row_count` and
leaves the configuration and `data_row_count` alone. -/
theorem header_row_frame (lib : zsv_lib) (junk : Nat → Nat × Nat) (d d1 : zsv_select_data)
    (row : List zsv_cell) (h : zsv_select_header_row lib junk d row = some d1) :
    ∃ s p names n o c w r,
      d1 = { d with
        file_row_count := d.file_row_count + 1,
        skip_rows := s, header_rows_processed := p, header_names := names,
        header_name_count := n, out2in := o, cancelled := c, csv_writer := w,
        row_handler := r } := by
  by_cases hc : d.cancelled = true
  · rw [header_row_cancelled lib junk d row hc] at h
    simp only [Option.some.injEq] at h
    exact ⟨_, _, _, _, _, _, _, _, h.symm⟩
  · have hc2 : d.cancelled = false := by
      cases hh : d.cancelled
      · rfl
      · exact absurd hh hc
    by_cases hs : 0 < d.skip_rows
    · rw [header_row_skip lib junk d row hc2 hs] at h
      simp only [Option.some.injEq] at h
      exact ⟨_, _, _, _, _, _, _, _, h.symm⟩
    · rw [header_row_eq lib junk d row hc2 (by omega)] at h
      cases hr : header_row_cells lib
          { d with
            file_row_count := d.file_row_count + 1,
            header_rows_processed := d.header_rows_processed + 1 } row 0
          (d.header_names, 0) with
      | none => rw [hr] at h; simp at h
      | some q =>
        obtain ⟨names, m⟩ := q
        rw [hr] at h
        simp only at h
        by_cases hfin : d.header_rows_processed + 1 ≥ d.header_depth
        · rw [if_pos hfin] at h
          obtain ⟨o, c, w, r, hd1⟩ := header_finish_frame lib junk _ d1 h
          exact ⟨_, _, _, _, o, c, w, r, hd1⟩
        · rw [if_neg hfin] at h
          simp only [Option.some.injEq] at h
          exact ⟨_, _, _, _, _, _, _, _, h.symm⟩

theorem header_row_some (lib : zsv_lib) (junk : Nat → Nat × Nat) (d : zsv_select_data)
    (row : List zsv_cell) (hs : lineend_safe d)
    (hres : d.col_argc = 0 ∨ d.use_header_indexes = true) :
    ∃ d1, zsv_select_header_row lib junk d row = some d1 := by
  by_cases hc : d.cancelled = true
  · exact ⟨_, header_row_cancelled lib junk d row hc⟩
  · have hc2 : d.cancelled = false := by
      cases hh : d.cancelled
      · rfl
      · exact absurd hh hc
    by_cases hsk : 0 < d.skip_rows
    · exact ⟨_, header_row_skip lib junk d row hc2 hsk⟩
    · rw [header_row_eq lib junk d row hc2 (by omega)]
      obtain ⟨⟨names, m⟩, hr⟩ := header_row_cells_some lib
        { d with
          file_row_count := d.file_row_count + 1,
          header_rows_processed := d.header_rows_processed + 1 } hs row 0 (d.header_names, 0)
      rw [hr]
      simp only
      by_cases hfin : d.header_rows_processed + 1 ≥ d.header_depth
      · rw [if_pos hfin]
        exact header_finish_some lib junk _ hres
      · rw [if_neg hfin]
        exact ⟨_, rfl⟩

/-- The rows are handled to the end whenever the replacement character is neither
CR nor LF and the columns are resolved by position or not requested at all. -/
theorem parse_rows_some (lib : zsv_lib) (junk : Nat → Nat × Nat) (rnd : Nat → ℚ) :
    ∀ (rows : List (List zsv_cell)) (d : zsv_select_data), lineend_safe d →
      (d.col_argc = 0 ∨ d.use_header_indexes = true) →
      ∃ r, parse_rows lib junk rnd rows d = some r := by
  intro rows
  induction rows with
  | nil => intro d _ _; exact ⟨_, rfl⟩
  | cons row rest ih =>
    intro d hs hres
    cases hh : d.row_handler with
    | zsv_select_header_row =>
      rw [parse_rows_header_cons lib junk rnd row rest d hh]
      obtain ⟨d1, hd1⟩ := header_row_some lib junk d row hs hres
      rw [hd1]
      simp only
      obtain ⟨s, p, names, n, o, c, w, r, hrec⟩ := header_row_frame lib junk d d1 row hd1
      obtain ⟨q, hq⟩ := ih d1 (by subst hrec; exact hs) (by subst hrec; exact hres)
      rw [hq]
      exact ⟨_, rfl⟩
    | zsv_select_data_row =>
      rw [parse_rows_data_cons lib junk rnd row rest d hh]
      obtain ⟨r, hr⟩ := data_row_some lib rnd d hs row
      rw [hr]
      simp only
      obtain ⟨hf, _⟩ := data_row_frame lib rnd d r.1 row r.2 (by rw [hr])
      obtain ⟨q, hq⟩ := ih r.1 (same_session_lineend_safe hf hs) (by
        rw [hf]
        exact hres)
      rw [hq]
      exact ⟨_, rfl⟩

/-! ## Claim C28: the row counters -/

theorem parse_rows_single_header (lib : zsv_lib) (junk : Nat → Nat × Nat) (rnd : Nat → ℚ)
    (row : List zsv_cell) (d : zsv_select_data)
    (hd : d.row_handler = row_handler.zsv_select_header_row) :
    parse_rows lib junk rnd [row] d =
      (zsv_select_header_row lib junk d row).map (fun d1 => (d1, [false])) := by
  rw [parse_rows_header_cons lib junk rnd row [] d hd]
  cases zsv_select_header_row lib junk d row with
  | none => rfl
  | some d1 => simp [parse_rows]

theorem parse_rows_single_data (lib : zsv_lib) (junk : Nat → Nat × Nat) (rnd : Nat → ℚ)
    (row : List zsv_cell) (d : zsv_select_data)
    (hd : d.row_handler = row_handler.zsv_select_data_row) :
    parse_rows lib junk rnd [row] d =
      (zsv_select_data_row lib rnd d row).map (fun r => (r.1, [r.2])) := by
  rw [parse_rows_data_cons lib junk rnd row [] d hd]
  cases zsv_select_data_row lib rnd d row with
  | none => rfl
  | some r => simp [parse_rows]

/-- One row: the counter of the handler that is registered goes up by one, the
other counter stays. -/
theorem parse_rows_single_counters (lib : zsv_lib) (junk : Nat → Nat × Nat) (rnd : Nat → ℚ)
    (row : List zsv_cell) (d : zsv_select_data) (r : zsv_select_data × List Bool)
    (h : parse_rows lib junk rnd [row] d = some r) :
    r.1.file_row_count = d.file_row_count +
        (if d.row_handler = row_handler.zsv_select_header_row then 1 else 0) ∧
      r.1.data_row_count = d.data_row_count +
        (if d.row_handler = row_handler.zsv_select_data_row then 1 else 0) := by
  cases hh : d.row_handler with
  | zsv_select_header_row =>
    rw [parse_rows_single_header lib junk rnd row d hh] at h
    cases hr : zsv_select_header_row lib junk d row with
    | none => rw [hr] at h; simp at h
    | some d1 =>
      rw [hr] at h
      simp only [Option.map_some', Option.some.injEq] at h
      obtain ⟨s, p, names, n, o, c, w, rh, hrec⟩ := header_row_frame lib junk d d1 row hr
      rw [← h, hrec]
      simp
  | zsv_select_data_row =>
    rw [parse_rows_single_data lib junk rnd row d hh] at h
    cases hr : zsv_select_data_row lib rnd d row with
    | none => rw [hr] at h; simp at h
    | some q =>
      rw [hr] at h
      simp only [Option.map_some', Option.some.injEq] at h
      obtain ⟨hf, hc⟩ := data_row_frame lib rnd d q.1 row q.2 (by rw [hr])
      rw [← h]
      simp only [hc]
      refine ⟨?_, by simp⟩
      rw [hf]
      simp

/-- Claim C28, the counterexample: after the three physical rows `h`, `x` and `y`
(one header row, two data rows) `file_row_count` is 1 and `data_row_count`
is 2. -/
theorem file_row_count_stops_at_the_header :
    (parse_rows ascii_lib (fun _ => (0, 0)) (fun _ => 0)
        [[⟨[104], false⟩], [⟨[120], false⟩], [⟨[121], false⟩]]
        (MAIN_any_clean (MAIN_init 10))).map
      (fun r => (r.1.file_row_count, r.1.data_row_count)) = some (1, 2) := by
  decide

/-- Claim C28, amended: after any sequence of rows, `file_row_count` has grown by
the number of rows that arrived while `zsv_select_header_row` was the
registered handler (leading skipped rows, header rows, and rows behind a
failed resolution), and `data_row_count` by the number of rows that arrived
while `zsv_select_data_row` was (skipped, filtered and empty ones
included); every row is counted by exactly one of the two, and neither
counter decreases.  The rows are handled to the end whenever the
replacement character is neither CR nor LF and the columns are resolved by
position or not requested at all. -/
theorem row_counters_count_by_handler (lib : zsv_lib) (junk : Nat → Nat × Nat)
    (rnd : Nat → ℚ) :
    ∀ (rows : List (List zsv_cell)) (d : zsv_select_data),
      (lineend_safe d → (d.col_argc = 0 ∨ d.use_header_indexes = true) →
        ∃ r, parse_rows lib junk rnd rows d = some r) ∧
      ∀ d1 flags, parse_rows lib junk rnd rows d = some (d1, flags) →
        (handlers lib junk rnd rows d).length = rows.length ∧
        d1.file_row_count = d.file_row_count +
          (handlers lib junk rnd rows d).count row_handler.zsv_select_header_row ∧
        d1.data_row_count = d.data_row_count +
          (handlers lib junk rnd rows d).count row_handler.zsv_select_data_row ∧
        d1.file_row_count + d1.data_row_count =
          d.file_row_count + d.data_row_count + rows.length ∧
        d.file_row_count ≤ d1.file_row_count ∧ d.data_row_count ≤ d1.data_row_count := by
  intro rows
  induction rows with
  | nil =>
    intro d
    refine ⟨fun _ _ => ⟨_, rfl⟩, ?_⟩
    intro d1 flags h
    rw [parse_rows] at h
    simp only [Option.some.injEq, Prod.mk.injEq] at h
    rw [← h.1]
    simp [handlers]
  | cons row rest ih =>
    intro d
    refine ⟨parse_rows_some lib junk rnd (row :: rest) d, ?_⟩
    intro d1 flags h
    rw [parse_rows_cons_single lib junk rnd row rest d] at h
    cases h1 : parse_rows lib junk rnd [row] d with
    | none => rw [h1] at h; simp at h
    | some r =>
      rw [h1] at h
      simp only at h
      cases h2 : parse_rows lib junk rnd rest r.1 with
      | none => rw [h2] at h; simp at h
      | some q =>
        rw [h2] at h
        simp only [Option.map_some', Option.some.injEq, Prod.mk.injEq] at h
        obtain ⟨hq, _⟩ := h
        obtain ⟨c1, c2⟩ := parse_rows_single_counters lib junk rnd row d r h1
        obtain ⟨i1, i2, i3, i4, i5, i6⟩ := (ih r.1).2 q.1 q.2 h2
        rw [hq] at i2 i3 i4 i5 i6
        have hhand : handlers lib junk rnd (row :: rest) d =
            d.row_handler :: handlers lib junk rnd rest r.1 := by
          rw [handlers, h1]
        rw [hhand]
        simp only [List.length_cons, List.count_cons]
        cases hh : d.row_handler with
        | zsv_select_header_row =>
          rw [hh] at c1 c2
          simp only [if_true] at c1
          simp only [reduceCtorEq, if_false] at c2
          simp
          omega
        | zsv_select_data_row =>
          rw [hh] at c1 c2
          simp only [reduceCtorEq, if_false] at c1
          simp only [if_true] at c2
          simp
          omega

/-! ## Claims C27 and C29: the frozen mapping and inert rows -/

/-- Claim C29: on a data row without a column, or with the cancelled flag set,
`zsv_select_data_row` returns without a call to the writer and without
emitting the row, and the session record afterwards differs from the one
before in `data_row_count` alone, which has grown by one. -/
theorem inert_rows_only_count (lib : zsv_lib) (rnd : Nat → ℚ) (data : zsv_select_data)
    (row : List zsv_cell) (h : row.length = 0 ∨ data.cancelled = true) :
    zsv_select_data_row lib rnd data row =
        some ({ data with data_row_count := data.data_row_count + 1 }, false) ∧
      ({ data with data_row_count := data.data_row_count + 1 } : zsv_select_data).csv_writer =
        data.csv_writer := by
  refine ⟨?_, rfl⟩
  unfold zsv_select_data_row
  simp only
  rw [if_pos h]

/-- Witness of claim C29: a row with one cell that arrives with the cancelled flag
set. -/
theorem inert_rows_only_count_witness :
    zsv_select_data_row ascii_lib (fun _ => 0) { after_header_h with cancelled := true }
        [⟨[120], false⟩] =
        some ({ after_header_h with cancelled := true, data_row_count := 1 }, false) ∧
      ({ after_header_h with cancelled := true, data_row_count := 1 } :
        zsv_select_data).csv_writer = [writer_call.cell_s true (some [104]) true] :=
  inert_rows_only_count ascii_lib (fun _ => 0) { after_header_h with cancelled := true }
    [⟨[120], false⟩] (Or.inr rfl)

theorem header_finish_outcome (lib : zsv_lib) (junk : Nat → Nat × Nat) (d d1 : zsv_select_data)
    (h : zsv_select_header_finish lib junk d = some d1) :
    ∃ err dr, zsv_select_set_output_columns lib junk d = some (err, dr) ∧
      d1.out2in = dr.out2in ∧
      (err ≠ 0 → d1 = { dr with cancelled := true }) ∧
      (err = 0 → d1 = { zsv_select_print_header_row dr with
        row_handler := row_handler.zsv_select_data_row }) := by
  unfold zsv_select_header_finish at h
  cases hr : zsv_select_set_output_columns lib junk d with
  | none => rw [hr] at h; simp at h
  | some p =>
    obtain ⟨err, dr⟩ := p
    rw [hr] at h
    simp only at h
    refine ⟨err, dr, rfl, ?_, ?_, ?_⟩
    · by_cases he : err ≠ 0
      · rw [if_pos he] at h
        simp only [Option.some.injEq] at h
        rw [← h]
      · rw [if_neg he] at h
        simp only [Option.some.injEq] at h
        rw [← h]
        rfl
    · intro he
      rw [if_pos he] at h
      simp only [Option.some.injEq] at h
      exact h.symm
    · intro he
      rw [if_neg (by simp [he])] at h
      simp only [Option.some.injEq] at h
      exact h.symm

/-- Once the cancelled flag is set or the data handler is registered, no row
changes the output mapping or the header names. -/
theorem resolved_stays_frozen (lib : zsv_lib) (junk : Nat → Nat × Nat) (rnd : Nat → ℚ) :
    ∀ (rows : List (List zsv_cell)) (d d2 : zsv_select_data) (flags : List Bool),
      (d.cancelled = true ∨ d.row_handler = row_handler.zsv_select_data_row) →
      parse_rows lib junk rnd rows d = some (d2, flags) →
      d2.out2in = d.out2in ∧ d2.header_names = d.header_names ∧
        d2.header_name_count = d.header_name_count ∧
        (d2.cancelled = true ∨ d2.row_handler = row_handler.zsv_select_data_row) := by
  intro rows
  induction rows with
  | nil =>
    intro d d2 flags hd h
    rw [parse_rows] at h
    simp only [Option.some.injEq, Prod.mk.injEq] at h
    rw [← h.1]
    exact ⟨rfl, rfl, rfl, hd⟩
  | cons row rest ih =>
    intro d d2 flags hd h
    cases hh : d.row_handler with
    | zsv_select_header_row =>
      have hc : d.cancelled = true := by
        rcases hd with hd | hd
        · exact hd
        · rw [hh] at hd; cases hd
      rw [parse_rows_header_cons lib junk rnd row rest d hh,
        header_row_cancelled lib junk d row hc] at h
      simp only at h
      cases hq : parse_rows lib junk rnd rest
          { d with file_row_count := d.file_row_count + 1 } with
      | none => rw [hq] at h; simp at h
      | some q =>
        rw [hq] at h
        simp only [Option.map_some', Option.some.injEq, Prod.mk.injEq] at h
        obtain ⟨i1, i2, i3, i4⟩ := ih { d with file_row_count := d.file_row_count + 1 }
          q.1 q.2 (Or.inl hc) hq
        rw [h.1] at i1 i2 i3 i4
        exact ⟨i1, i2, i3, i4⟩
    | zsv_select_data_row =>
      rw [parse_rows_data_cons lib junk rnd row rest d hh] at h
      cases hr : zsv_select_data_row lib rnd d row with
      | none => rw [hr] at h; simp at h
      | some r =>
        rw [hr] at h
        simp only at h
        obtain ⟨hf, _⟩ := data_row_frame lib rnd d r.1 row r.2 (by rw [hr])
        cases hq : parse_rows lib junk rnd rest r.1 with
        | none => rw [hq] at h; simp at h
        | some q =>
          rw [hq] at h
          simp only [Option.map_some', Option.some.injEq, Prod.mk.injEq] at h
          obtain ⟨i1, i2, i3, i4⟩ := ih r.1 q.1 q.2
            (Or.inr (by rw [same_session_row_handler hf, hh])) hq
          rw [h.1] at i1 i2 i3 i4
          have e1 : r.1.out2in = d.out2in := by rw [hf]
          have e2 : r.1.header_names = d.header_names := by rw [hf]
          have e3 : r.1.header_name_count = d.header_name_count := by rw [hf]
          exact ⟨i1.trans e1, i2.trans e2, i3.trans e3, i4⟩

/-- Claim C27: `zsv_select_data_row` returns whenever the replacement character is
neither CR nor LF, and never changes `out2in`, `output_cols_count`,
`header_names` or `header_name_count`.  A call of `zsv_select_header_row`
that arrives with the cancelled flag set, with a row still to skip, or
before the last row of the header leaves `out2in`, the flag, the handler and
the writer alone; the call for the last row of the header runs
`zsv_select_set_output_columns` once, on the mapping as it was, and ends with
the cancelled flag set or with the data handler registered; and from either
of these two states on no sequence of rows changes the mapping or the header
names again. -/
theorem output_mapping_is_frozen (lib : zsv_lib) (junk : Nat → Nat × Nat) (rnd : Nat → ℚ) :
    (∀ (d : zsv_select_data) (row : List zsv_cell),
      (lineend_safe d → ∃ r, zsv_select_data_row lib rnd d row = some r) ∧
      ∀ d1 e, zsv_select_data_row lib rnd d row = some (d1, e) →
        d1.out2in = d.out2in ∧ d1.output_cols_count = d.output_cols_count ∧
        d1.header_names = d.header_names ∧ d1.header_name_count = d.header_name_count) ∧
    (∀ (d d1 : zsv_select_data) (row : List zsv_cell),
      zsv_select_header_row lib junk d row = some d1 →
      (d.cancelled = true ∨ 0 < d.skip_rows ∨ d.header_rows_processed + 1 < d.header_depth) →
      d1.out2in = d.out2in ∧ d1.cancelled = d.cancelled ∧ d1.row_handler = d.row_handler ∧
        d1.csv_writer = d.csv_writer) ∧
    (∀ (d d1 : zsv_select_data) (row : List zsv_cell),
      zsv_select_header_row lib junk d row = some d1 →
      d.cancelled = false → d.skip_rows = 0 → d.header_depth ≤ d.header_rows_processed + 1 →
      (∃ dacc err dr, zsv_select_set_output_columns lib junk dacc = some (err, dr) ∧
        dacc.out2in = d.out2in ∧ d1.out2in = dr.out2in) ∧
      (d1.cancelled = true ∨ d1.row_handler = row_handler.zsv_select_data_row)) ∧
    (∀ (rows : List (List zsv_cell)) (d d2 : zsv_select_data) (flags : List Bool),
      (d.cancelled = true ∨ d.row_handler = row_handler.zsv_select_data_row) →
      parse_rows lib junk rnd rows d = some (d2, flags) →
      d2.out2in = d.out2in ∧ d2.header_names = d.header_names ∧
        d2.header_name_count = d.header_name_count ∧
        (d2.cancelled = true ∨ d2.row_handler = row_handler.zsv_select_data_row)) := by
  refine ⟨?_, ?_, ?_, resolved_stays_frozen lib junk rnd⟩
  · intro d row
    refine ⟨fun hs => data_row_some lib rnd d hs row, ?_⟩
    intro d1 e h
    obtain ⟨hf, _⟩ := data_row_frame lib rnd d d1 row e h
    have e1 : d1.out2in = d.out2in := by rw [hf]
    have e2 : d1.header_names = d.header_names := by rw [hf]
    have e3 : d1.header_name_count = d.header_name_count := by rw [hf]
    refine ⟨e1, ?_, e2, e3⟩
    unfold zsv_select_data.output_cols_count
    rw [e1]
  · intro d d1 row h hcase
    by_cases hc : d.cancelled = true
    · rw [header_row_cancelled lib junk d row hc] at h
      simp only [Option.some.injEq] at h
      rw [← h]
      exact ⟨rfl, rfl, rfl, rfl⟩
    · have hc2 : d.cancelled = false := by
        cases hh : d.cancelled
        · rfl
        · exact absurd hh hc
      by_cases hs : 0 < d.skip_rows
      · rw [header_row_skip lib junk d row hc2 hs] at h
        simp only [Option.some.injEq] at h
        rw [← h]
        exact ⟨rfl, rfl, rfl, rfl⟩
      · have hlt : d.header_rows_processed + 1 < d.header_depth := by
          rcases hcase with h1 | h1 | h1
          · exact absurd h1 hc
          · exact absurd h1 hs
          · exact h1
        rw [header_row_eq lib junk d row hc2 (by omega)] at h
        cases hr : header_row_cells lib
            { d with
              file_row_count := d.file_row_count + 1,
              header_rows_processed := d.header_rows_processed + 1 } row 0
            (d.header_names, 0) with
        | none => rw [hr] at h; simp at h
        | some q =>
          rw [hr] at h
          simp only at h
          rw [if_neg (by omega)] at h
          simp only [Option.some.injEq] at h
          rw [← h]
          exact ⟨rfl, rfl, rfl, rfl⟩
  · intro d d1 row h hc hs hlast
    rw [header_row_eq lib junk d row hc hs] at h
    cases hr : header_row_cells lib
        { d with
          file_row_count := d.file_row_count + 1,
          header_rows_processed := d.header_rows_processed + 1 } row 0
        (d.header_names, 0) with
    | none => rw [hr] at h; simp at h
    | some q =>
      rw [hr] at h
      simp only at h
      rw [if_pos (by omega)] at h
      obtain ⟨err, dr, hres, ho, hfail, hok⟩ := header_finish_outcome lib junk _ d1 h
      refine ⟨⟨_, err, dr, hres, rfl, ho⟩, ?_⟩
      by_cases he : err = 0
      · right
        rw [hok he]
      · left
        rw [hfail he]

/-! ## Claim C30: the states of the header phase -/

theorem handlers_cons (lib : zsv_lib) (junk : Nat → Nat × Nat) (rnd : Nat → ℚ)
    (row : List zsv_cell) (rest : List (List zsv_cell)) (d : zsv_select_data)
    (r : zsv_select_data × List Bool) (h : parse_rows lib junk rnd [row] d = some r) :
    handlers lib junk rnd (row :: rest) d = d.row_handler :: handlers lib junk rnd rest r.1 := by
  rw [handlers, h]

theorem handlers_append (lib : zsv_lib) (junk : Nat → Nat × Nat) (rnd : Nat → ℚ) :
    ∀ (a b : List (List zsv_cell)) (d : zsv_select_data) (r : zsv_select_data × List Bool),
      parse_rows lib junk rnd a d = some r →
      handlers lib junk rnd (a ++ b) d =
        handlers lib junk rnd a d ++ handlers lib junk rnd b r.1 := by
  intro a
  induction a with
  | nil =>
    intro b d r h
    rw [parse_rows] at h
    simp only [Option.some.injEq] at h
    rw [← h]
    simp [handlers]
  | cons row rest ih =>
    intro b d r h
    rw [parse_rows_cons_single lib junk rnd row rest d] at h
    cases h1 : parse_rows lib junk rnd [row] d with
    | none => rw [h1] at h; simp at h
    | some r1 =>
      rw [h1] at h
      simp only at h
      cases h2 : parse_rows lib junk rnd rest r1.1 with
      | none => rw [h2] at h; simp at h
      | some q =>
        rw [h2] at h
        simp only [Option.map_some', Option.some.injEq] at h
        rw [List.cons_append, handlers_cons lib junk rnd row (rest ++ b) d r1 h1,
          handlers_cons lib junk rnd row rest d r1 h1, ih b r1.1 q h2, ← h]
        rfl

/-- Leading rows to skip: each is counted in `file_row_count` and lowers
`skip_rows` by one; nothing else changes. -/
theorem skip_head_rows (lib : zsv_lib) (junk : Nat → Nat × Nat) (rnd : Nat → ℚ) :
    ∀ (rows : List (List zsv_cell)) (d : zsv_select_data),
      d.row_handler = row_handler.zsv_select_header_row → d.cancelled = false →
      rows.length ≤ d.skip_rows →
      parse_rows lib junk rnd rows d =
          some ({ d with
            file_row_count := d.file_row_count + rows.length,
            skip_rows := d.skip_rows - rows.length }, List.replicate rows.length false) ∧
        handlers lib junk rnd rows d =
          List.replicate rows.length row_handler.zsv_select_header_row := by
  intro rows
  induction rows with
  | nil => intro d _ _ _; exact ⟨rfl, rfl⟩
  | cons row rest ih =>
    intro d hh hc hk
    simp only [List.length_cons] at hk
    have hstep := header_row_skip lib junk d row hc (by omega)
    obtain ⟨i1, i2⟩ := ih
      { d with file_row_count := d.file_row_count + 1, skip_rows := d.skip_rows - 1 }
      hh hc (by simp only; omega)
    have hsingle : parse_rows lib junk rnd [row] d =
        some ({ d with file_row_count := d.file_row_count + 1, skip_rows := d.skip_rows - 1 },
          [false]) := by
      rw [parse_rows_single_header lib junk rnd row d hh, hstep]
      rfl
    constructor
    · rw [parse_rows_header_cons lib junk rnd row rest d hh, hstep]
      simp only
      rw [i1]
      simp only [Option.map_some', List.length_cons, List.replicate_succ]
      have e1 : d.file_row_count + 1 + rest.length = d.file_row_count + (rest.length + 1) := by
        omega
      have e2 : d.skip_rows - 1 - rest.length = d.skip_rows - (rest.length + 1) := by omega
      rw [e1, e2]
    · rw [handlers_cons lib junk rnd row rest d _ hsingle, i2, hh]
      rfl

/-- Header rows in front of the last one: each is counted as a header row and
the mapping, the flag, the handler and the writer stay as they are. -/
theorem accumulate_header_rows (lib : zsv_lib) (junk : Nat → Nat × Nat) (rnd : Nat → ℚ) :
    ∀ (rows : List (List zsv_cell)) (d dm : zsv_select_data) (f : List Bool),
      d.row_handler = row_handler.zsv_select_header_row → d.cancelled = false →
      d.skip_rows = 0 → d.header_rows_processed + rows.length < d.header_depth →
      parse_rows lib junk rnd rows d = some (dm, f) →
      dm.header_rows_processed = d.header_rows_processed + rows.length ∧
        dm.row_handler = row_handler.zsv_select_header_row ∧ dm.cancelled = false ∧
        dm.skip_rows = 0 ∧ dm.out2in = d.out2in ∧ dm.csv_writer = d.csv_writer ∧
        dm.header_depth = d.header_depth ∧
        handlers lib junk rnd rows d =
          List.replicate rows.length row_handler.zsv_select_header_row := by
  intro rows
  induction rows with
  | nil =>
    intro d dm f hh hc hs _ h
    rw [parse_rows] at h
    simp only [Option.some.injEq, Prod.mk.injEq] at h
    rw [← h.1]
    exact ⟨rfl, hh, hc, hs, rfl, rfl, rfl, rfl⟩
  | cons row rest ih =>
    intro d dm f hh hc hs hlt h
    simp only [List.length_cons] at hlt
    rw [parse_rows_header_cons lib junk rnd row rest d hh] at h
    cases hr : zsv_select_header_row lib junk d row with
    | none => rw [hr] at h; simp at h
    | some d1 =>
      rw [hr] at h
      simp only at h
      have hsingle : parse_rows lib junk rnd [row] d = some (d1, [false]) := by
        rw [parse_rows_single_header lib junk rnd row d hh, hr]
        rfl
      have hr2 := hr
      rw [header_row_eq lib junk d row hc hs] at hr2
      cases hcells : header_row_cells lib
          { d with
            file_row_count := d.file_row_count + 1,
            header_rows_processed := d.header_rows_processed + 1 } row 0
          (d.header_names, 0) with
      | none => rw [hcells] at hr2; simp at hr2
      | some q =>
        rw [hcells] at hr2
        simp only at hr2
        rw [if_neg (by omega)] at hr2
        simp only [Option.some.injEq] at hr2
        cases hq : parse_rows lib junk rnd rest d1 with
        | none => rw [hq] at h; simp at h
        | some t =>
          rw [hq] at h
          simp only [Option.map_some', Option.some.injEq, Prod.mk.injEq] at h
          obtain ⟨i1, i2, i3, i4, i5, i6, i7, i8⟩ := ih d1 t.1 t.2
            (by rw [← hr2]; exact hh) (by rw [← hr2]; exact hc) (by rw [← hr2]; exact hs)
            (by rw [← hr2]; simp only; omega) hq
          rw [h.1] at i1 i2 i3 i4 i5 i6 i7
          refine ⟨?_, i2, i3, i4, ?_, ?_, ?_, ?_⟩
          · rw [i1, ← hr2]
            simp only [List.length_cons]
            omega
          · rw [i5, ← hr2]
          · rw [i6, ← hr2]
          · rw [i7, ← hr2]
          · rw [handlers_cons lib junk rnd row rest d _ hsingle, i8, hh]
            rfl

/-- The last row of the header: resolution runs on the accumulated header, and
the outcome is the cancelled flag (failure) or the data handler (success). -/
theorem last_header_row (lib : zsv_lib) (junk : Nat → Nat × Nat) (d d1 : zsv_select_data)
    (row : List zsv_cell) (hc : d.cancelled = false) (hs : d.skip_rows = 0)
    (hlast : d.header_depth ≤ d.header_rows_processed + 1)
    (h : zsv_select_header_row lib junk d row = some d1) :
    d1.header_rows_processed = d.header_rows_processed + 1 ∧
      ∃ dacc err dr, zsv_select_set_output_columns lib junk dacc = some (err, dr) ∧
        dacc.header_rows_processed = d.header_rows_processed + 1 ∧
        dacc.out2in = d.out2in ∧ d1.out2in = dr.out2in ∧
        (err ≠ 0 → d1.cancelled = true ∧ d1.row_handler = d.row_handler) ∧
        (err = 0 → d1.cancelled = false ∧
          d1.row_handler = row_handler.zsv_select_data_row) := by
  rw [header_row_eq lib junk d row hc hs] at h
  cases hcells : header_row_cells lib
      { d with
        file_row_count := d.file_row_count + 1,
        header_rows_processed := d.header_rows_processed + 1 } row 0
      (d.header_names, 0) with
  | none => rw [hcells] at h; simp at h
  | some q =>
    rw [hcells] at h
    simp only at h
    rw [if_pos (by omega)] at h
    obtain ⟨err, dr, hres, ho, hfail, hok⟩ := header_finish_outcome lib junk _ d1 h
    obtain ⟨o, ho2⟩ : ∃ o, dr = { ({ d with
        file_row_count := d.file_row_count + 1,
        header_rows_processed := d.header_rows_processed + 1,
        header_names := q.1,
        header_name_count := if q.2 > d.header_name_count then q.2
          else d.header_name_count } : zsv_select_data) with out2in := o } :=
      ⟨_, resolved_same_config lib junk _ dr err hres⟩
    refine ⟨?_, _, err, dr, hres, rfl, rfl, ho, ?_, ?_⟩
    · by_cases he : err = 0
      · rw [hok he, ho2]
        rfl
      · rw [hfail he, ho2]
    · intro he
      rw [hfail he, ho2]
      exact ⟨rfl, rfl⟩
    · intro he
      rw [hok he, ho2]
      exact ⟨hc, rfl⟩

/-- Rows that arrive while the data handler is registered are all handled by it. -/
theorem data_phase_rows (lib : zsv_lib) (junk : Nat → Nat × Nat) (rnd : Nat → ℚ) :
    ∀ (rows : List (List zsv_cell)) (d d2 : zsv_select_data) (f : List Bool),
      d.row_handler = row_handler.zsv_select_data_row →
      parse_rows lib junk rnd rows d = some (d2, f) →
      handlers lib junk rnd rows d =
          List.replicate rows.length row_handler.zsv_select_data_row ∧
        d2.row_handler = row_handler.zsv_select_data_row ∧
        d2.data_row_count = d.data_row_count + rows.length := by
  intro rows
  induction rows with
  | nil =>
    intro d d2 f hh h
    rw [parse_rows] at h
    simp only [Option.some.injEq, Prod.mk.injEq] at h
    rw [← h.1]
    exact ⟨rfl, hh, rfl⟩
  | cons row rest ih =>
    intro d d2 f hh h
    rw [parse_rows_data_cons lib junk rnd row rest d hh] at h
    cases hr : zsv_select_data_row lib rnd d row with
    | none => rw [hr] at h; simp at h
    | some r =>
      rw [hr] at h
      simp only at h
      have hsingle : parse_rows lib junk rnd [row] d = some (r.1, [r.2]) := by
        rw [parse_rows_single_data lib junk rnd row d hh, hr]
        rfl
      obtain ⟨hf, hcount⟩ := data_row_frame lib rnd d r.1 row r.2 (by rw [hr])
      cases hq : parse_rows lib junk rnd rest r.1 with
      | none => rw [hq] at h; simp at h
      | some t =>
        rw [hq] at h
        simp only [Option.map_some', Option.some.injEq, Prod.mk.injEq] at h
        obtain ⟨i1, i2, i3⟩ := ih r.1 t.1 t.2 (by rw [same_session_row_handler hf, hh]) hq
        rw [h.1] at i2 i3
        refine ⟨?_, i2, ?_⟩
        · rw [handlers_cons lib junk rnd row rest d _ hsingle, i1, hh]
          rfl
        · rw [i3, hcount]
          simp only [List.length_cons]
          omega

/-- Header rows in front of the last one change nothing but the two row counters,
the header names and their count. -/
theorem accumulate_header_frame (lib : zsv_lib) (junk : Nat → Nat × Nat) (rnd : Nat → ℚ) :
    ∀ (rows : List (List zsv_cell)) (d dm : zsv_select_data) (f : List Bool),
      d.row_handler = row_handler.zsv_select_header_row → d.cancelled = false →
      d.skip_rows = 0 → d.header_rows_processed + rows.length < d.header_depth →
      parse_rows lib junk rnd rows d = some (dm, f) →
      ∃ names n, dm = { d with
        file_row_count := d.file_row_count + rows.length,
        header_rows_processed := d.header_rows_processed + rows.length,
        header_names := names,
        header_name_count := n } := by
  intro rows
  induction rows with
  | nil =>
    intro d dm f _ _ _ _ h
    rw [parse_rows] at h
    simp only [Option.some.injEq, Prod.mk.injEq] at h
    rw [← h.1]
    exact ⟨d.header_names, d.header_name_count, rfl⟩
  | cons row rest ih =>
    intro d dm f hh hc hs hlt h
    simp only [List.length_cons] at hlt
    rw [parse_rows_header_cons lib junk rnd row rest d hh] at h
    cases hr : zsv_select_header_row lib junk d row with
    | none => rw [hr] at h; simp at h
    | some d1 =>
      rw [hr] at h
      simp only at h
      have hr2 := hr
      rw [header_row_eq lib junk d row hc hs] at hr2
      cases hcells : header_row_cells lib
          { d with
            file_row_count := d.file_row_count + 1,
            header_rows_processed := d.header_rows_processed + 1 } row 0
          (d.header_names, 0) with
      | none => rw [hcells] at hr2; simp at hr2
      | some q =>
        rw [hcells] at hr2
        simp only at hr2
        rw [if_neg (by omega)] at hr2
        simp only [Option.some.injEq] at hr2
        cases hq : parse_rows lib junk rnd rest d1 with
        | none => rw [hq] at h; simp at h
        | some t =>
          rw [hq] at h
          simp only [Option.map_some', Option.some.injEq, Prod.mk.injEq] at h
          obtain ⟨names, n, hrec⟩ := ih d1 t.1 t.2
            (by rw [← hr2]; exact hh) (by rw [← hr2]; exact hc) (by rw [← hr2]; exact hs)
            (by rw [← hr2]; simp only; omega) hq
          refine ⟨names, n, ?_⟩
          rw [← h.1, hrec, ← hr2]
          simp only [List.length_cons]
          have e1 : d.file_row_count + 1 + rest.length = d.file_row_count + (rest.length + 1) := by
            omega
          have e2 : d.header_rows_processed + 1 + rest.length =
              d.header_rows_processed + (rest.length + 1) := by omega
          rw [e1, e2]

/-- The header names after header rows, the last of the header among them or
not: each row extends the names by its non-empty cleaned cells. -/
theorem header_rows_names (lib : zsv_lib) (junk : Nat → Nat × Nat) (rnd : Nat → ℚ)
    (data : zsv_select_data) :
    ∀ (rows : List (List zsv_cell)) (d : zsv_select_data),
      d.row_handler = row_handler.zsv_select_header_row → d.cancelled = false →
      d.skip_rows = 0 → d.header_rows_processed + rows.length ≤ d.header_depth →
      d.max_columns ≤ d.header_names.length → same_cleaning d data →
      d.max_columns = data.max_columns →
      ∀ d1 flags, parse_rows lib junk rnd rows d = some (d1, flags) →
        d1.header_names.length = d.header_names.length ∧
        (∀ j, j < data.max_columns → d1.header_names.getD j none =
          (column_words lib data rows j).foldl zsv_select_append_spaced_word
            (d.header_names.getD j none)) ∧
        d.header_name_count ≤ d1.header_name_count ∧
        (∀ j, j < data.max_columns → column_nonempty lib data rows j →
          j < d1.header_name_count) ∧
        (d1.header_name_count = d.header_name_count ∨
          (0 < d1.header_name_count ∧ d1.header_name_count - 1 < data.max_columns ∧
            column_nonempty lib data rows (d1.header_name_count - 1))) := by
  intro rows
  induction rows with
  | nil =>
    intro d _ _ _ _ _ _ _ d1 flags h
    rw [parse_rows] at h
    simp only [Option.some.injEq, Prod.mk.injEq] at h
    obtain ⟨h, _⟩ := h
    subst h
    refine ⟨rfl, fun j _ => rfl, le_refl _, ?_, Or.inl rfl⟩
    intro j _ hcn
    exact absurd hcn (column_nonempty_nil lib data j)
  | cons row rest ih =>
    intro d hh hc hs hdepth hlen hcl hmax d1 flags h
    obtain ⟨_, sspec⟩ := header_row_step lib junk d row hc hs hlen
    simp only [List.length_cons] at hdepth
    rw [parse_rows, hh] at h
    simp only at h
    cases hd2 : zsv_select_header_row lib junk d row with
    | none => rw [hd2] at h; simp at h
    | some d2 =>
      rw [hd2] at h
      simp only [Option.map_some'] at h
      obtain ⟨names1, n1, o, c, w, rh, hrec, hl1, hn, hle, hall, hlast, hcont⟩ := sspec d2 hd2
      have hd2n : d2.header_names = names1 := by rw [hrec]
      have hd2c : d2.header_name_count = n1 := by rw [hrec]
      have htail : d1.header_names.length = d2.header_names.length ∧
          (∀ j, j < data.max_columns → d1.header_names.getD j none =
            (column_words lib data rest j).foldl zsv_select_append_spaced_word
              (d2.header_names.getD j none)) ∧
          d2.header_name_count ≤ d1.header_name_count ∧
          (∀ j, j < data.max_columns → column_nonempty lib data rest j →
            j < d1.header_name_count) ∧
          (d1.header_name_count = d2.header_name_count ∨
            (0 < d1.header_name_count ∧ d1.header_name_count - 1 < data.max_columns ∧
              column_nonempty lib data rest (d1.header_name_count - 1))) := by
        cases rest with
        | nil =>
          rw [parse_rows] at h
          simp only [Option.map_some', Option.some.injEq, Prod.mk.injEq] at h
          obtain ⟨h, _⟩ := h
          subst h
          refine ⟨rfl, fun j _ => rfl, le_refl _, ?_, Or.inl rfl⟩
          intro j _ hcn
          exact absurd hcn (column_nonempty_nil lib data j)
        | cons r rest1 =>
          simp only [List.length_cons] at hdepth
          obtain ⟨hc2, hrh⟩ := hcont (by omega)
          cases hq : parse_rows lib junk rnd (r :: rest1) d2 with
          | none => rw [hq] at h; simp at h
          | some q =>
            rw [hq] at h
            simp only [Option.map_some', Option.some.injEq, Prod.mk.injEq] at h
            obtain ⟨h, _⟩ := h
            subst h
            exact ih d2
              (by subst hrec; subst hrh; exact hh) (by subst hrec; exact hc2)
              (by subst hrec; exact hs)
              (by subst hrec; simp only [List.length_cons]; omega)
              (by subst hrec; rw [hl1]; exact hlen) (by subst hrec; exact hcl)
              (by subst hrec; exact hmax) q.1 q.2 hq
      obtain ⟨t0, t1, t2, t3, t4⟩ := htail
      rw [hd2n] at t1 t0
      rw [hd2c] at t2 t4
      rw [← hmax]
      rw [← hmax] at t1 t3 t4
      refine ⟨by rw [t0, hl1], ?_, by omega, ?_, ?_⟩
      · intro j hj
        rw [t1 j hj, hn j hj, column_words_cons, List.foldl_append,
          column_word_congr lib d data hcl row j]
        by_cases hw : column_word lib data row j ≠ []
        · rw [if_pos hw]
          rfl
        · rw [if_neg hw]
          rw [not_not] at hw
          rw [hw, append_spaced_word_nil]
          rfl
      · intro j hj hcn
        rw [column_nonempty_cons] at hcn
        rcases hcn with hw | hcn
        · rw [← column_word_congr lib d data hcl row j] at hw
          have := hall j hj hw
          omega
        · exact t3 j hj hcn
      · rcases t4 with t4 | ⟨t4a, t4b, t4c⟩
        · rcases hlast with hlast | ⟨l1, l2, l3⟩
          · left; omega
          · right
            rw [t4]
            refine ⟨l1, l2, ?_⟩
            rw [column_nonempty_cons]
            left
            rw [← column_word_congr lib d data hcl row _]
            exact l3
        · right
          refine ⟨t4a, t4b, ?_⟩
          rw [column_nonempty_cons]
          exact Or.inr t4c


/-- Claim C30: let the header handler be registered with the cancelled flag clear,
`skip_rows = k`, no header row processed yet and `header_depth = d ≥ 1`, and
let `k` rows be followed by `d` rows.  The `k` rows are handled to the end
and change nothing but `file_row_count` and `skip_rows`, which ends at 0: the
header names are not touched.  After these and `m < d` of the following
rows the session record is the one at the start but for the `k + m` rows
counted, `skip_rows = 0`, `m` header rows processed and the header names and
their count, which are those of the start with the `m` rows accumulated: the
mapping, the writer, the flag and the handler are as at the start.  The call
for row `k + d` runs `zsv_select_header_finish`, and with it
`zsv_select_set_output_columns`, on the record `dacc`: the one at the start
but for the `k + d` rows counted, `skip_rows = 0`, `d` header rows processed
and the header names and their count with all `d` rows accumulated.  When
that resolution fails the outcome is its result with the cancelled flag set,
and the header handler stays; when it succeeds the outcome is its result
with the header row written and the data handler registered, which handles
every later row.  The accumulated names and their count are described by
`header_rows_accumulated` when the array of names has at least `max_columns`
entries, as `MAIN` allocates it.  All rows are handled to the end whenever
the replacement character is neither CR nor LF and the columns are resolved
by position or not requested at all. -/
theorem header_phase_state_machine (lib : zsv_lib) (junk : Nat → Nat × Nat) (rnd : Nat → ℚ)
    (data : zsv_select_data) (skipped hdr : List (List zsv_cell))
    (hh : data.row_handler = row_handler.zsv_select_header_row)
    (hc : data.cancelled = false) (hk : data.skip_rows = skipped.length)
    (hp : data.header_rows_processed = 0) (hdep : data.header_depth = hdr.length)
    (hd : 1 ≤ hdr.length) :
    parse_rows lib junk rnd skipped data =
      some ({ data with
        file_row_count := data.file_row_count + skipped.length,
        skip_rows := 0 }, List.replicate skipped.length false) ∧
    (∀ m, m < hdr.length → ∀ dm f,
      parse_rows lib junk rnd (skipped ++ hdr.take m) data = some (dm, f) →
      dm = { data with
        file_row_count := data.file_row_count + skipped.length + m,
        skip_rows := 0,
        header_rows_processed := m,
        header_names := dm.header_names,
        header_name_count := dm.header_name_count } ∧
      dm.header_rows_processed = m ∧
        dm.row_handler = row_handler.zsv_select_header_row ∧ dm.cancelled = false ∧
        dm.out2in = data.out2in ∧ dm.csv_writer = data.csv_writer ∧
      (data.max_columns ≤ data.header_names.length →
        header_rows_accumulated lib data (hdr.take m) dm)) ∧
    (∀ d1 f, parse_rows lib junk rnd (skipped ++ hdr) data = some (d1, f) →
      handlers lib junk rnd (skipped ++ hdr) data =
        List.replicate (skipped.length + hdr.length) row_handler.zsv_select_header_row ∧
      d1.header_rows_processed = hdr.length ∧
      (data.max_columns ≤ data.header_names.length →
        header_rows_accumulated lib data hdr d1) ∧
      ∃ dacc err dr,
        dacc = { data with
          file_row_count := data.file_row_count + skipped.length + hdr.length,
          skip_rows := 0,
          header_rows_processed := hdr.length,
          header_names := d1.header_names,
          header_name_count := d1.header_name_count } ∧
        zsv_select_header_finish lib junk dacc = some d1 ∧
        zsv_select_set_output_columns lib junk dacc = some (err, dr) ∧
        dacc.header_rows_processed = hdr.length ∧ dacc.out2in = data.out2in ∧
        d1.out2in = dr.out2in ∧
        (err ≠ 0 → d1 = { dr with cancelled := true } ∧ d1.cancelled = true ∧
          d1.row_handler = row_handler.zsv_select_header_row) ∧
        (err = 0 →
          d1 = { zsv_select_print_header_row dr with
            row_handler := row_handler.zsv_select_data_row } ∧
          d1.cancelled = false ∧
          d1.row_handler = row_handler.zsv_select_data_row ∧
          ∀ rest d2 f2, parse_rows lib junk rnd rest d1 = some (d2, f2) →
            handlers lib junk rnd rest d1 =
                List.replicate rest.length row_handler.zsv_select_data_row ∧
              d2.row_handler = row_handler.zsv_select_data_row ∧
              d2.data_row_count = d1.data_row_count + rest.length)) ∧
    (lineend_safe data → (data.col_argc = 0 ∨ data.use_header_indexes = true) →
      ∀ rest, ∃ r, parse_rows lib junk rnd (skipped ++ hdr ++ rest) data = some r) := by
  obtain ⟨s1, s2⟩ := skip_head_rows lib junk rnd skipped data hh hc (by omega)
  rw [hk, Nat.sub_self] at s1
  refine ⟨s1, ?_, ?_, ?_⟩
  · intro m hm dm f h
    rw [parse_rows_append, s1] at h
    simp only at h
    cases ht : parse_rows lib junk rnd (hdr.take m)
        { data with
          file_row_count := data.file_row_count + skipped.length,
          skip_rows := 0 } with
    | none => rw [ht] at h; simp at h
    | some t =>
      obtain ⟨tm, tf⟩ := t
      rw [ht] at h
      simp only [Option.map_some', Option.some.injEq, Prod.mk.injEq] at h
      obtain ⟨h, _⟩ := h
      subst h
      have hlen : (hdr.take m).length = m := by
        rw [List.length_take]
        omega
      obtain ⟨a1, a2, a3, _, a5, a6, _, _⟩ := accumulate_header_rows lib junk rnd (hdr.take m)
        { data with
          file_row_count := data.file_row_count + skipped.length,
          skip_rows := 0 } tm tf hh hc rfl (by simp only [hp, hdep, hlen]; omega) ht
      rw [hlen] at a1
      simp only [hp, Nat.zero_add] at a1
      have hnames : data.max_columns ≤ data.header_names.length →
          header_rows_accumulated lib data (hdr.take m) tm := fun hl =>
        header_rows_names lib junk rnd data (hdr.take m)
          { data with
            file_row_count := data.file_row_count + skipped.length,
            skip_rows := 0 } hh hc rfl (by simp only [hp, hdep, hlen]; omega) hl
          ⟨rfl, rfl, rfl, rfl, rfl, rfl⟩ rfl tm tf ht
      refine ⟨?_, a1, a2, a3, a5, a6, hnames⟩
      obtain ⟨names, n, hrec⟩ := accumulate_header_frame lib junk rnd (hdr.take m)
        { data with
          file_row_count := data.file_row_count + skipped.length,
          skip_rows := 0 } tm tf hh hc rfl (by simp only [hp, hdep, hlen]; omega) ht
      rw [hlen] at hrec
      simp only [hp, Nat.zero_add] at hrec
      rw [hrec]
  · intro d1 f h
    rw [parse_rows_append, s1] at h
    simp only at h
    cases hq : parse_rows lib junk rnd hdr
        { data with
          file_row_count := data.file_row_count + skipped.length,
          skip_rows := 0 } with
    | none => rw [hq] at h; simp at h
    | some q =>
      obtain ⟨qd, qf⟩ := q
      rw [hq] at h
      simp only [Option.map_some', Option.some.injEq, Prod.mk.injEq] at h
      obtain ⟨h, _⟩ := h
      subst h
      have hnames : data.max_columns ≤ data.header_names.length →
          header_rows_accumulated lib data hdr qd := fun hl =>
        header_rows_names lib junk rnd data hdr
          { data with
            file_row_count := data.file_row_count + skipped.length,
            skip_rows := 0 } hh hc rfl (by simp only [hp, hdep]; omega) hl
          ⟨rfl, rfl, rfl, rfl, rfl, rfl⟩ rfl qd qf hq
      obtain ⟨init, last, hinit⟩ : ∃ init last, hdr = init ++ [last] := by
        rcases List.eq_nil_or_concat hdr with hnil | ⟨L, b, hL⟩
        · rw [hnil] at hd; simp at hd
        · exact ⟨L, b, hL.trans (List.concat_eq_append L b)⟩
      subst hinit
      simp only [List.length_append, List.length_cons, List.length_nil, Nat.zero_add] at hdep hd ⊢
      rw [parse_rows_append] at hq
      cases ht : parse_rows lib junk rnd init
          { data with
            file_row_count := data.file_row_count + skipped.length,
            skip_rows := 0 } with
      | none => rw [ht] at hq; simp at hq
      | some t =>
        obtain ⟨tm, tf⟩ := t
        rw [ht] at hq
        simp only at hq
        obtain ⟨a1, a2, a3, a4, a5, a6, a7, a8⟩ := accumulate_header_rows lib junk rnd init
          { data with
            file_row_count := data.file_row_count + skipped.length,
            skip_rows := 0 } tm tf hh hc rfl (by simp only [hp, hdep]; omega) ht
        simp only [hp, Nat.zero_add] at a1
        obtain ⟨names, n, hrec⟩ := accumulate_header_frame lib junk rnd init
          { data with
            file_row_count := data.file_row_count + skipped.length,
            skip_rows := 0 } tm tf hh hc rfl (by simp only [hp, hdep]; omega) ht
        simp only [hp, Nat.zero_add] at hrec
        rw [parse_rows_single_header lib junk rnd last tm a2] at hq
        cases hl : zsv_select_header_row lib junk tm last with
        | none => rw [hl] at hq; simp at hq
        | some dl =>
          rw [hl] at hq
          simp only [Option.map_some', Option.some.injEq, Prod.mk.injEq] at hq
          obtain ⟨hd1, _⟩ := hq
          subst hd1
          have hsingle : parse_rows lib junk rnd [last] tm = some (dl, [false]) := by
            rw [parse_rows_single_header lib junk rnd last tm a2, hl]
            rfl
          have hl2 := hl
          rw [header_row_eq lib junk tm last a3 a4] at hl2
          cases hcells : header_row_cells lib
              { tm with
                file_row_count := tm.file_row_count + 1,
                header_rows_processed := tm.header_rows_processed + 1 } last 0
              (tm.header_names, 0) with
          | none => rw [hcells] at hl2; simp at hl2
          | some c =>
            rw [hcells] at hl2
            simp only at hl2
            rw [if_pos (by rw [a7, a1]; simp only [hdep]; omega)] at hl2
            obtain ⟨o, cf, w, r, hdl⟩ := header_finish_frame lib junk _ dl hl2
            have hX : ({ tm with
                file_row_count := tm.file_row_count + 1,
                header_rows_processed := tm.header_rows_processed + 1,
                header_names := c.1,
                header_name_count := if c.2 > tm.header_name_count then c.2
                  else tm.header_name_count } : zsv_select_data) =
                { data with
                  file_row_count := data.file_row_count + skipped.length + (init.length + 1),
                  skip_rows := 0,
                  header_rows_processed := init.length + 1,
                  header_names := dl.header_names,
                  header_name_count := dl.header_name_count } := by
              rw [hdl, hrec]
              simp only [Nat.add_assoc]
            rw [hX] at hl2
            obtain ⟨err, dr, hres, ho, hfail, hok⟩ := header_finish_outcome lib junk _ dl hl2
            have hsc := resolved_same_config lib junk _ dr err hres
            unfold same_config at hsc
            refine ⟨?_, ?_, hnames, _, err, dr, rfl, hl2, hres, rfl, rfl, ho, ?_, ?_⟩
            · rw [handlers_append lib junk rnd skipped (init ++ [last]) data _ s1, s2,
                handlers_append lib junk rnd init [last]
                  { data with
                    file_row_count := data.file_row_count + skipped.length,
                    skip_rows := 0 } (tm, tf) ht, a8,
                handlers_cons lib junk rnd last [] tm _ hsingle, a2]
              simp only [handlers]
              rw [← List.replicate_succ', ← List.replicate_add]
            · rw [hdl]
              simp only [a1]
            · intro he
              refine ⟨hfail he, ?_, ?_⟩
              · rw [hfail he]
              · rw [hfail he, hsc]
                exact hh
            · intro he
              have hrh : dl.row_handler = row_handler.zsv_select_data_row := by
                rw [hok he]
              refine ⟨hok he, ?_, hrh, fun rest d2 f2 hr =>
                data_phase_rows lib junk rnd rest dl d2 f2 hrh hr⟩
              rw [hok he, hsc]
              exact hc
  · intro hs hres rest
    exact parse_rows_some lib junk rnd _ data hs hres

/-- Witness of claim C30: one row to skip and a header of two rows.  The row `z` is
skipped; over the rows `z`, `a`, `b`, `x` the header handler gets the first
three and the data handler the fourth; after the rows `z`, `a`, `b` the one
column is named `a b`, it is mapped to the output and the data handler is
registered. -/
theorem header_phase_state_machine_witness :
    parse_rows ascii_lib (fun _ => (0, 0)) (fun _ => 0) [[⟨[122], false⟩]]
        (MAIN_any_clean { MAIN_init 10 with skip_rows := 1, header_depth := 2 }) =
      some ({ MAIN_any_clean { MAIN_init 10 with skip_rows := 1, header_depth := 2 } with
        file_row_count := 1, skip_rows := 0 }, [false]) ∧
    handlers ascii_lib (fun _ => (0, 0)) (fun _ => 0)
        [[⟨[122], false⟩], [⟨[97], false⟩], [⟨[98], false⟩], [⟨[120], false⟩]]
        (MAIN_any_clean { MAIN_init 10 with skip_rows := 1, header_depth := 2 }) =
      [row_handler.zsv_select_header_row, row_handler.zsv_select_header_row,
        row_handler.zsv_select_header_row, row_handler.zsv_select_data_row] ∧
    (parse_rows ascii_lib (fun _ => (0, 0)) (fun _ => 0)
        [[⟨[122], false⟩], [⟨[97], false⟩], [⟨[98], false⟩]]
        (MAIN_any_clean { MAIN_init 10 with skip_rows := 1, header_depth := 2 })).map
        (fun r => (r.1.header_names.take 2, r.1.header_name_count, r.1.out2in,
          r.1.row_handler)) =
      some ([some [97, 32, 98], none], 1, [0], row_handler.zsv_select_data_row) :=
  ⟨(header_phase_state_machine ascii_lib (fun _ => (0, 0)) (fun _ => 0)
      (MAIN_any_clean { MAIN_init 10 with skip_rows := 1, header_depth := 2 })
      [[⟨[122], false⟩]] [[⟨[97], false⟩], [⟨[98], false⟩]] rfl rfl rfl rfl rfl (by decide)).1,
    by decide, by decide⟩

/-! ## Witnesses of claims C25, C27 and C28 -/

/-- Witness of claim C25: the header `a,b,a`, the mapping `[2, 0, 5]` and line
numbering on give the cells `#`, `a`, `a` and one written for `NULL`. -/
theorem header_row_is_written_per_output_column_witness :
    (zsv_select_print_header_row
        { header_aba with out2in := [2, 0, 5], prepend_line_number := true }).csv_writer =
      [writer_call.cell_s true (some [35]) false, writer_call.cell_s false (some [97]) true,
        writer_call.cell_s false (some [97]) true, writer_call.cell_s false none true] ∧
    ∃ calls, zsv_select_print_header_row
          { header_aba with out2in := [2, 0, 5], prepend_line_number := true } =
        { ({ header_aba with out2in := [2, 0, 5], prepend_line_number := true } :
            zsv_select_data) with
          csv_writer := ({ header_aba with out2in := [2, 0, 5], prepend_line_number := true } :
            zsv_select_data).csv_writer ++ calls } ∧
      only_first_is_first calls :=
  ⟨by decide,
    (header_row_is_written_per_output_column
      { header_aba with out2in := [2, 0, 5], prepend_line_number := true }).elim
      (fun calls h => ⟨calls, h.1, h.2.2.2.2.2.2⟩)⟩

/-- Witness of claim C27: a data row after the header `h` is handled to the end. -/
theorem output_mapping_is_frozen_witness :
    ∃ r, zsv_select_data_row ascii_lib (fun _ => 0) after_header_h [⟨[120], false⟩] = some r :=
  ((output_mapping_is_frozen ascii_lib (fun _ => (0, 0)) (fun _ => 0)).1 after_header_h
    [⟨[120], false⟩]).1 ⟨by decide, by decide⟩

/-- Witness of claim C28: the rows `h`, `x`, `y` are handled to the end, the first
by the header handler and the other two by the data handler. -/
theorem row_counters_count_by_handler_witness :
    (∃ r, parse_rows ascii_lib (fun _ => (0, 0)) (fun _ => 0)
        [[⟨[104], false⟩], [⟨[120], false⟩], [⟨[121], false⟩]]
        (MAIN_any_clean (MAIN_init 10)) = some r) ∧
    handlers ascii_lib (fun _ => (0, 0)) (fun _ => 0)
        [[⟨[104], false⟩], [⟨[120], false⟩], [⟨[121], false⟩]]
        (MAIN_any_clean (MAIN_init 10)) =
      [row_handler.zsv_select_header_row, row_handler.zsv_select_data_row,
        row_handler.zsv_select_data_row] :=
  ⟨(row_counters_count_by_handler ascii_lib (fun _ => (0, 0)) (fun _ => 0)
      [[⟨[104], false⟩], [⟨[120], false⟩], [⟨[121], false⟩]]
      (MAIN_any_clean (MAIN_init 10))).1 ⟨by decide, by decide⟩ (Or.inl rfl), by decide⟩

/-! ## Claims C32 to C35 and C37: option values, two helpers, and the line-feed loop -/

theorem getD_strlen (z : List Nat) : z.getD (strlen z) 0 = 0 := by
  unfold strlen
  induction z with
  | nil => rfl
  | cons a t ih =>
    by_cases ha : a = 0
    · subst ha
      simp
    · rw [List.takeWhile_cons, if_pos (by simpa using ha), List.length_cons]
      simpa using ih

theorem csv_trim_whitespace_loop_strlen (z : List Nat) :
    csv_trim_whitespace_loop z (strlen z) = strlen z := by
  cases h : strlen z with
  | zero => rfl
  | succ n =>
    unfold csv_trim_whitespace_loop
    have h0 := getD_strlen z
    rw [h] at h0
    rw [h0, if_neg (by decide)]

theorem c_string_set_strlen (z : List Nat) : c_string (z.set (strlen z) 0) = c_string z := by
  unfold c_string strlen
  induction z with
  | nil => rfl
  | cons a t ih =>
    by_cases ha : a = 0
    · subst ha
      simp
    · rw [List.takeWhile_cons, if_pos (by simpa using ha), List.length_cons, List.set_cons_succ,
        List.takeWhile_cons, if_pos (by simpa using ha), ih]

/-- Claim C34: the loop of `csv_trim_whitespace` tests `z[n]` with `n = strlen(z)`,
the terminator, which is no white space: it ends at once, and the call leaves
every string as it is.  The string `a` followed by a blank keeps its blank. -/
theorem csv_trim_whitespace_removes_nothing :
    (∀ z : List Nat, csv_trim_whitespace z = c_string z) ∧
    csv_trim_whitespace [97, 32] = [97, 32] := by
  refine ⟨?_, by decide⟩
  intro z
  unfold csv_trim_whitespace
  rw [csv_trim_whitespace_loop_strlen, c_string_set_strlen]

/-- Claim C35, the failing inputs: the string `12:34` of five characters over the
alphabet is answered 0, and the string `1,2345`, which holds a comma, is
answered 1; six characters over the alphabet of the claim are answered 1. -/
theorem looks_like_date_rejects_five_characters :
    looks_like_date ascii_lib [49, 50, 58, 51, 52] = 0 ∧
    looks_like_date ascii_lib [49, 44, 50, 51, 52, 53] = 1 ∧
    looks_like_date ascii_lib [49, 50, 58, 51, 52, 53] = 1 := by
  refine ⟨by decide, by decide, by decide⟩

/-- What the code does in the setting of claim C35: the answer is 1 exactly when
the trimmed length is above 5 and at most 30 and every character is one of
`LOOKS_LIKE_DATE_CHARS`. -/
theorem looks_like_date_eq_one_iff (lib : zsv_lib) (s : List Nat) :
    looks_like_date lib s = 1 ↔
      5 < (lib.strtrim s).2 ∧ (lib.strtrim s).2 ≤ 30 ∧
        ∀ i, i < (lib.strtrim s).2 →
          ((s.drop (lib.strtrim s).1).getD i 0) ∈ LOOKS_LIKE_DATE_CHARS := by
  unfold looks_like_date
  simp only
  by_cases hlen : (lib.strtrim s).2 ≤ 5 ∨ (lib.strtrim s).2 > 30
  · rw [if_pos hlen]
    constructor
    · intro h; cases h
    · intro h; omega
  · rw [if_neg hlen]
    by_cases hall : ((List.range (lib.strtrim s).2).all (fun i =>
        LOOKS_LIKE_DATE_CHARS.contains ((s.drop (lib.strtrim s).1).getD i 0))) = true
    · rw [if_pos hall]
      refine ⟨fun _ => ⟨by omega, by omega, ?_⟩, fun _ => rfl⟩
      intro i hi
      rw [List.all_eq_true] at hall
      have := hall i (List.mem_range.mpr hi)
      simpa using this
    · rw [if_neg hall]
      constructor
      · intro h; cases h
      · intro h
        exfalso
        apply hall
        rw [List.all_eq_true]
        intro i hi
        simpa using h.2.2 i (List.mem_range.mp hi)

/-- Claim C33: the option `--sample-pct` with a value is never rejected: whatever
`atof` returns is stored in `sample_pct`, so also 150, -5 and the 0 that
`atof` returns for a string that is no number. -/
theorem sample_pct_is_never_rejected :
    (∀ (data : zsv_select_data) (d : ℚ),
      MAIN_sample_pct data (some d) = some { data with sample_pct := d }) ∧
    (MAIN_sample_pct (MAIN_init 10) (some 150)).map (fun d => d.sample_pct) = some 150 ∧
    (MAIN_sample_pct (MAIN_init 10) (some (-5))).map (fun d => d.sample_pct) = some (-5) ∧
    (MAIN_sample_pct (MAIN_init 10) (some 0)).map (fun d => d.sample_pct) = some 0 := by
  have h : ∀ (data : zsv_select_data) (d : ℚ),
      MAIN_sample_pct data (some d) = some { data with sample_pct := d } := by
    intro data d
    unfold MAIN_sample_pct
    simp only
    rw [if_neg]
    rintro ⟨h0, hpos, _⟩
    rw [h0] at hpos
    exact absurd hpos (lt_irrefl 0)
  refine ⟨h, ?_, ?_, ?_⟩
  · rw [h]; rfl
  · rw [h]; rfl
  · rw [h]; rfl

/-- What holds of claim C32: a value from 1 to 255 is stored as it is. -/
theorem sample_every_below_256 (data : zsv_select_data) (n : Nat) (h0 : 0 < n)
    (h1 : n < 256) :
    MAIN_sample_every data (n : Int) = some { data with sample_every_n := n } := by
  unfold MAIN_sample_every
  rw [if_neg (by omega)]
  simp only [Int.toNat_ofNat]
  rw [Nat.mod_eq_of_lt (by omega)]

/-- Claim C32, the failing input: `--sample-every 256` is accepted and stores the
period 0, with which sampling is off and every data row is emitted;
`--sample-every 258` stores the period 2. -/
theorem sample_every_wraps_at_256 :
    (MAIN_sample_every (MAIN_any_clean (MAIN_init 10)) 256).map (fun d => d.sample_every_n) =
      some 0 ∧
    (MAIN_sample_every (MAIN_any_clean (MAIN_init 10)) 258).map (fun d => d.sample_every_n) =
      some 2 ∧
    (MAIN_sample_every (MAIN_any_clean (MAIN_init 10)) 256).bind (fun d =>
      (parse_rows ascii_lib (fun _ => (0, 0)) (fun _ => 0)
        [[⟨[104], false⟩], [⟨[120], false⟩], [⟨[121], false⟩], [⟨[122], false⟩]] d).map
        (fun r => r.2)) = some [false, true, true, true] := by
  refine ⟨by decide, by decide, by decide⟩

/-- Claim C37, the failing input: the option `-e` accepts the line feed as its
single character, and with it the call of `zsv_select_cell_clean` on the
quoted cell `a` LF `b` does not come to an end: the loop for the pattern LF
writes a line feed over the line feed it has found and finds it again,
whatever the number of steps. -/
theorem cell_clean_loops_on_line_feed :
    MAIN_embedded_lineend (MAIN_init 10) (some [10]) =
      some (some { MAIN_init 10 with embedded_lineend := 10 }) ∧
    zsv_select_cell_clean ascii_lib
      (MAIN_any_clean { MAIN_init 10 with embedded_lineend := 10 }) [97, 10, 98] true = none ∧
    (∀ fuel, lineend_replace 10 [10] fuel ⟨[], [97, 10, 98], []⟩ = none) := by
  refine ⟨rfl, by decide, ?_⟩
  exact lineend_replace_same_byte_none 10 ⟨[], [97, 10, 98], []⟩ 1 (by decide)

/-! ## Claims C31 and C38: a second resolution, and cancellation -/

theorem data_row_cancelled (lib : zsv_lib) (rnd : Nat → ℚ) (d : zsv_select_data)
    (row : List zsv_cell) (hc : d.cancelled = true) :
    zsv_select_data_row lib rnd d row =
      some ({ d with data_row_count := d.data_row_count + 1 }, false) := by
  unfold zsv_select_data_row
  simp only
  rw [if_pos (Or.inr hc)]

/-- Claim C38: from a session record with the cancelled flag set, every sequence
of rows is handled to the end, by the header handler and the data handler
alike; no row is emitted, the flag is still set afterwards, and the calls
made to the writer are the ones made before. -/
theorem cancellation_is_final (lib : zsv_lib) (junk : Nat → Nat × Nat) (rnd : Nat → ℚ)
    (rows : List (List zsv_cell)) (data : zsv_select_data) (hc : data.cancelled = true) :
    ∃ d2, parse_rows lib junk rnd rows data = some (d2, List.replicate rows.length false) ∧
      d2.cancelled = true ∧ d2.csv_writer = data.csv_writer ∧
      d2.row_handler = data.row_handler ∧ d2.out2in = data.out2in := by
  induction rows generalizing data with
  | nil => exact ⟨data, rfl, hc, rfl, rfl, rfl⟩
  | cons row rest ih =>
    cases hh : data.row_handler with
    | zsv_select_header_row =>
      rw [parse_rows_header_cons lib junk rnd row rest data hh,
        header_row_cancelled lib junk data row hc]
      obtain ⟨d2, h1, h2, h3, h4, h5⟩ := ih
        { data with file_row_count := data.file_row_count + 1 } hc
      refine ⟨d2, ?_, h2, h3, ?_, h5⟩
      · simp only
        rw [h1]
        rfl
      · rw [h4]
        exact hh
    | zsv_select_data_row =>
      rw [parse_rows_data_cons lib junk rnd row rest data hh,
        data_row_cancelled lib rnd data row hc]
      obtain ⟨d2, h1, h2, h3, h4, h5⟩ := ih
        { data with data_row_count := data.data_row_count + 1 } hc
      refine ⟨d2, ?_, h2, h3, ?_, h5⟩
      · simp only
        rw [h1]
        rfl
      · rw [h4]
        exact hh

/-- Witness of claim C38: two data rows that arrive after the header `h` with the
cancelled flag set. -/
theorem cancellation_is_final_witness :
    ∃ d2, parse_rows ascii_lib (fun _ => (0, 0)) (fun _ => 0)
        [[⟨[120], false⟩], [⟨[121], false⟩]] { after_header_h with cancelled := true } =
          some (d2, List.replicate 2 false) ∧
      d2.cancelled = true ∧ d2.csv_writer = [writer_call.cell_s true (some [104]) true] ∧
      d2.row_handler = row_handler.zsv_select_data_row ∧ d2.out2in = [0] :=
  cancellation_is_final ascii_lib (fun _ => (0, 0)) (fun _ => 0)
    [[⟨[120], false⟩], [⟨[121], false⟩]] { after_header_h with cancelled := true } rfl

/-- Claim C31, the counterexample: for the header `a,b,a` and no column argument
the first application gives `out2in = [0, 1, 2]` and the second, applied to
that state, `[0, 1, 2, 0, 1, 2]`. -/
theorem second_resolution_changes_the_mapping :
    (zsv_select_set_output_columns ascii_lib (fun _ => (0, 0)) header_aba).map
      (fun r => (r.1, r.2.out2in)) = some (0, [0, 1, 2]) ∧
    ((zsv_select_set_output_columns ascii_lib (fun _ => (0, 0)) header_aba).bind
      (fun r => zsv_select_set_output_columns ascii_lib (fun _ => (0, 0)) r.2)).map
      (fun r => (r.1, r.2.out2in)) = some (0, [0, 1, 2, 0, 1, 2]) := by
  refine ⟨by decide, by decide⟩

/-- With distinct on, the header `a,b,a` and no column argument, both applications
give `out2in = [0, 1]`: the mapping can stay as it is while `out2in` has room
left. -/
theorem second_resolution_with_distinct_on :
    (zsv_select_set_output_columns ascii_lib (fun _ => (0, 0))
      { header_aba with distinct := true }).map
      (fun r => (r.1, r.2.out2in)) = some (0, [0, 1]) ∧
    ((zsv_select_set_output_columns ascii_lib (fun _ => (0, 0))
      { header_aba with distinct := true }).bind
      (fun r => zsv_select_set_output_columns ascii_lib (fun _ => (0, 0)) r.2)).map
      (fun r => (r.1, r.2.out2in)) = some (0, [0, 1]) := by
  refine ⟨by decide, by decide⟩

/-- Claim C31, amended: a second application of `zsv_select_set_output_columns`
keeps the entries the first has left in `out2in` and can only append behind
them: the mapping after the first application is a prefix of the mapping
after the second.  If `out2in` is full after the first application, the
second leaves the mapping and its length as they are.  Without a column
argument, with distinct off and no exclusion, starting from an empty mapping
with room for twice the header, the second application appends the columns
of the header once more. -/
theorem second_resolution_appends (lib : zsv_lib) (junk : Nat → Nat × Nat)
    (d d1 d2 : zsv_select_data) (err err2 : Int)
    (h1 : zsv_select_set_output_columns lib junk d = some (err, d1))
    (h2 : zsv_select_set_output_columns lib junk d1 = some (err2, d2)) :
    d1.out2in <+: d2.out2in ∧
    (d1.max_columns ≤ d1.output_cols_count →
      d2.out2in = d1.out2in ∧ d2.output_cols_count = d1.output_cols_count) ∧
    (d.col_argc = 0 → d.distinct = false → d.exclusions = [] → d.out2in = [] →
      2 * d.header_name_count ≤ d.max_columns →
      d1.out2in = List.range d.header_name_count ∧
        d2.out2in = List.range d.header_name_count ++ List.range d.header_name_count) := by
  obtain ⟨cands, hc⟩ := resolved_is_fold lib junk d1 d2 err2 h2
  refine ⟨?_, ?_, ?_⟩
  · rw [hc]
    exact foldl_add_invariant lib d1 (fun out => d1.out2in <+: out)
      (fun dd x _ hq _ => hq.trans (List.prefix_append _ _)) cands d1 (same_config_refl d1)
      (List.prefix_refl _)
  · intro hfull
    have hinv : d2.out2in = d1.out2in := by
      rw [hc]
      exact foldl_add_invariant lib d1 (fun out => out = d1.out2in)
        (fun dd x hcfg hq hacc => by
          exfalso
          unfold add_accepts at hacc
          simp only [Bool.and_eq_true, decide_eq_true_eq,
            zsv_select_data.output_cols_count] at hacc
          rw [same_config_max_columns hcfg, hq] at hacc
          unfold zsv_select_data.output_cols_count at hfull
          omega)
        cands d1 (same_config_refl d1) rfl
    refine ⟨hinv, ?_⟩
    unfold zsv_select_data.output_cols_count
    rw [hinv]
  · intro hargs hdist hexcl hout hcap
    have e1 : zsv_select_set_output_columns lib junk d =
        some (0, { d with out2in := List.range d.header_name_count }) := by
      unfold zsv_select_set_output_columns
      rw [if_pos hargs, foldl_add_plain lib _ d hdist hexcl (by simp [hout]; omega), hout]
      simp
    rw [e1] at h1
    simp only [Option.some.injEq, Prod.mk.injEq] at h1
    obtain ⟨_, hd1⟩ := h1
    subst hd1
    refine ⟨rfl, ?_⟩
    have e2 : zsv_select_set_output_columns lib junk
        { d with out2in := List.range d.header_name_count } =
        some (0, { d with
          out2in := List.range d.header_name_count ++ List.range d.header_name_count }) := by
      unfold zsv_select_set_output_columns
      rw [if_pos (show ({ d with out2in := List.range d.header_name_count } :
        zsv_select_data).col_argc = 0 from hargs),
        foldl_add_plain lib _ { d with out2in := List.range d.header_name_count } hdist hexcl
          (by simp; omega)]
    rw [e2] at h2
    simp only [Option.some.injEq, Prod.mk.injEq] at h2
    rw [← h2.2]

/-- Witness of claim C31: the header `a,b,a` without a column argument. -/
theorem second_resolution_appends_witness :
    ({ header_aba with out2in := [0, 1, 2] } : zsv_select_data).out2in <+:
      ({ header_aba with out2in := [0, 1, 2, 0, 1, 2] } : zsv_select_data).out2in ∧
    (({ header_aba with out2in := [0, 1, 2] } : zsv_select_data).max_columns ≤
        ({ header_aba with out2in := [0, 1, 2] } : zsv_select_data).output_cols_count →
      ({ header_aba with out2in := [0, 1, 2, 0, 1, 2] } : zsv_select_data).out2in =
          ({ header_aba with out2in := [0, 1, 2] } : zsv_select_data).out2in ∧
        ({ header_aba with out2in := [0, 1, 2, 0, 1, 2] } : zsv_select_data).output_cols_count =
          ({ header_aba with out2in := [0, 1, 2] } : zsv_select_data).output_cols_count) ∧
    (header_aba.col_argc = 0 → header_aba.distinct = false → header_aba.exclusions = [] →
      header_aba.out2in = [] → 2 * header_aba.header_name_count ≤ header_aba.max_columns →
      ({ header_aba with out2in := [0, 1, 2] } : zsv_select_data).out2in =
          List.range header_aba.header_name_count ∧
        ({ header_aba with out2in := [0, 1, 2, 0, 1, 2] } : zsv_select_data).out2in =
          List.range header_aba.header_name_count ++ List.range header_aba.header_name_count) :=
  second_resolution_appends ascii_lib (fun _ => (0, 0)) header_aba
    { header_aba with out2in := [0, 1, 2] } { header_aba with out2in := [0, 1, 2, 0, 1, 2] }
    0 0 rfl rfl

/-! ## Claim C39: header names below `header_name_count` -/

theorem column_words_ne_nil_iff (lib : zsv_lib) (d : zsv_select_data)
    (rows : List (List zsv_cell)) (j : Nat) :
    column_words lib d rows j ≠ [] ↔ column_nonempty lib d rows j := by
  induction rows with
  | nil =>
    constructor
    · intro h; exact absurd rfl h
    · intro h; exact absurd h (column_nonempty_nil lib d j)
  | cons row rest ih =>
    rw [column_words_cons, column_nonempty_cons]
    by_cases hw : column_word lib d row j ≠ []
    · rw [if_pos hw]
      constructor
      · intro _; exact Or.inl hw
      · intro _; simp
    · rw [if_neg hw, List.nil_append, ih]
      constructor
      · intro h; exact Or.inr h
      · intro h
        rcases h with h | h
        · exact absurd h hw
        · exact h

theorem spaced_words_isSome (l : List (List Nat)) : (spaced_words l).isSome = true ↔ l ≠ [] := by
  cases l with
  | nil => simp [spaced_words]
  | cons w ws => simp [spaced_words]

/-- What holds of claim C39: after a header of `d ≥ 1` rows that starts with no
name recorded, a column below `max_columns` has a recorded name exactly when
one of the header rows holds a non-empty cleaned cell in that column. -/
theorem header_name_present_iff (lib : zsv_lib) (junk : Nat → Nat × Nat)
    (rnd : Nat → ℚ) (data : zsv_select_data) (rows : List (List zsv_cell))
    (hd : 1 ≤ rows.length) (hdepth : data.header_depth = rows.length)
    (hh : data.row_handler = row_handler.zsv_select_header_row)
    (hc : data.cancelled = false) (hs : data.skip_rows = 0)
    (hp : data.header_rows_processed = 0)
    (hnames : data.header_names = List.replicate data.max_columns none)
    (data1 : zsv_select_data) (flags : List Bool)
    (h : parse_rows lib junk rnd rows data = some (data1, flags)) (i : Nat)
    (hi : i < data.max_columns) :
    (data1.header_names.getD i none).isSome = true ↔ column_nonempty lib data rows i := by
  have hne : rows ≠ [] := by
    intro e
    rw [e] at hd
    simp at hd
  obtain ⟨_, hspec⟩ := header_phase lib junk rnd data rows data hne hh hc hs
    (by rw [hp, hdepth]; omega) (by rw [hnames, List.length_replicate])
    ⟨rfl, rfl, rfl, rfl, rfl, rfl⟩ rfl
  obtain ⟨h1, _, _, _⟩ := hspec data1 flags h
  have hnone : data.header_names.getD i none = none := by
    rw [hnames, List.getD_eq_getElem?_getD]
    simp [hi]
  rw [h1 i hi, hnone, foldl_append_none _ (column_words_ne_nil lib data rows i),
    spaced_words_isSome, ← column_words_ne_nil_iff]
  simp

/-- Claim C39, the failing input: a header of two rows, `,b` and `,c`, without a
column argument.  After the header phase `header_name_count` is 2 and column
0 has no recorded name, so not every column below `header_name_count` has
one; the lookup of the name `x` among the first two names is handed the
missing name, and with the column argument `x` the header phase does not
return. -/
theorem empty_header_column_has_no_name :
    (parse_rows ascii_lib (fun _ => (0, 0)) (fun _ => 0)
        [[⟨[], false⟩, ⟨[98], false⟩], [⟨[], false⟩, ⟨[99], false⟩]]
        (MAIN_any_clean { MAIN_init 10 with header_depth := 2 })).map
      (fun r => (r.1.header_name_count, r.1.header_names.take 2, r.1.cancelled)) =
      some (2, [none, some [98, 32, 99]], false) ∧
    str_array_ifind ascii_lib [120] [none, some [98, 32, 99]] 2 = none ∧
    (parse_rows ascii_lib (fun _ => (0, 0)) (fun _ => 0)
        [[⟨[], false⟩, ⟨[98], false⟩], [⟨[], false⟩, ⟨[99], false⟩]]
        (MAIN_any_clean { MAIN_init 10 with header_depth := 2, col_argv := [[120]] })).isNone =
      true := by
  refine ⟨by decide, by decide, by rfl⟩

/-! ## Claim C40: the guess of `skip` and `header_span` -/

/-- The first loop of `guess_properties` reads no entry outside the first
`rows_processed`, comes to an end, and raises `i` and `result.skip` by the
same number, with `i` at most `rows_processed`. -/
theorem guess_skip_spec (rows : List detect_row) (n : Nat) (hlen : rows.length = n) :
    ∀ (fuel i skip : Nat), i ≤ n → n - i < fuel →
      ∃ i1 skip1, guess_skip rows n fuel i skip = some (i1, skip1) ∧ i ≤ i1 ∧ i1 ≤ n ∧
        skip1 = skip + (i1 - i) := by
  intro fuel
  induction fuel with
  | zero => intro i skip _ h; omega
  | succ fuel ih =>
    intro i skip hi hf
    unfold guess_skip
    by_cases hlt : i < n
    · rw [if_pos hlt]
      obtain ⟨ri, hri⟩ : ∃ ri, rows.get? i = some ri := by
        rw [List.get?_eq_getElem?]
        exact ⟨rows[i], List.getElem?_eq_getElem (by omega)⟩
      rw [hri]
      simp only
      have hnext : ∃ i1 skip1, guess_skip rows n fuel (i + 1) (skip + 1) = some (i1, skip1) ∧
          i ≤ i1 ∧ i1 ≤ n ∧ skip1 = skip + (i1 - i) := by
        obtain ⟨i1, skip1, h1, h2, h3, h4⟩ := ih (i + 1) (skip + 1) (by omega) (by omega)
        exact ⟨i1, skip1, h1, by omega, h3, by omega⟩
      by_cases hnull : ri.cols_used ≤ ri.null
      · rw [if_pos hnull]
        exact hnext
      · rw [if_neg hnull]
        by_cases hlt2 : i + 1 < n
        · rw [if_pos hlt2]
          obtain ⟨rn, hrn⟩ : ∃ rn, rows.get? (i + 1) = some rn := by
            rw [List.get?_eq_getElem?]
            exact ⟨rows[i + 1], List.getElem?_eq_getElem (by omega)⟩
          rw [hrn]
          simp only
          by_cases hnull2 : rn.cols_used ≤ rn.null
          · rw [if_pos hnull2]
            exact hnext
          · rw [if_neg hnull2]
            exact ⟨i, skip, rfl, le_refl _, hi, by omega⟩
        · rw [if_neg hlt2]
          exact ⟨i, skip, rfl, le_refl _, hi, by omega⟩
    · rw [if_neg hlt]
      exact ⟨i, skip, rfl, le_refl _, hi, by omega⟩

/-- The second loop of `guess_properties`, started at an index above 0, reads no
entry outside the first `rows_processed`, comes to an end, and raises
`result.header_span` by at most the number of entries from `i` on. -/
theorem guess_header_span_spec (rows : List detect_row) (n : Nat) (hlen : rows.length = n) :
    ∀ (fuel i span : Nat), 1 ≤ i → n - i < fuel →
      ∃ span1, guess_header_span rows n fuel i span = some span1 ∧ span ≤ span1 ∧
        span1 ≤ span + (n - i) := by
  intro fuel
  induction fuel with
  | zero => intro i span _ h; omega
  | succ fuel ih =>
    intro i span hi hf
    unfold guess_header_span
    by_cases hlt : i < n
    · rw [if_pos hlt]
      obtain ⟨ri, hri⟩ : ∃ ri, rows.get? i = some ri := by
        rw [List.get?_eq_getElem?]
        exact ⟨rows[i], List.getElem?_eq_getElem (by omega)⟩
      rw [hri]
      simp only
      have hnext : ∃ span1, guess_header_span rows n fuel (i + 1) (span + 1) = some span1 ∧
          span ≤ span1 ∧ span1 ≤ span + (n - i) := by
        obtain ⟨span1, h1, h2, h3⟩ := ih (i + 1) (span + 1) (by omega) (by omega)
        exact ⟨span1, h1, by omega, by omega⟩
      by_cases hnull : ri.cols_used = ri.null
      · rw [if_pos hnull]
        exact hnext
      · rw [if_neg hnull, if_neg (by omega)]
        obtain ⟨rp, hrp⟩ : ∃ rp, rows.get? (i - 1) = some rp := by
          rw [List.get?_eq_getElem?]
          exact ⟨rows[i - 1], List.getElem?_eq_getElem (by omega)⟩
        rw [hrp]
        simp only
        split_ifs
        · exact hnext
        · exact ⟨span, rfl, le_refl _, by omega⟩
        · exact ⟨span, rfl, le_refl _, by omega⟩
        · exact ⟨span, rfl, le_refl _, by omega⟩
        · exact hnext
    · rw [if_neg hlt]
      exact ⟨span, rfl, le_refl _, by omega⟩

/-- Claim C40: on the first `rows_processed` entries of the array,
`guess_properties` returns without reading an entry outside of them, with
`header_span ≥ 1`, `skip ≤ rows_processed`, and
`skip + header_span ≤ rows_processed` whenever `skip < rows_processed`. -/
theorem guess_properties_is_sane (rows : List detect_row) (rows_processed : Nat)
    (hlen : rows.length = rows_processed) :
    ∃ r, guess_properties rows rows_processed = some r ∧ 1 ≤ r.header_span ∧
      r.skip ≤ rows_processed ∧
      (r.skip < rows_processed → r.skip + r.header_span ≤ rows_processed) := by
  obtain ⟨i1, skip1, h1, _, h3, h4⟩ := guess_skip_spec rows rows_processed hlen
    (rows_processed + 1) 0 0 (Nat.zero_le _) (by omega)
  obtain ⟨span1, s1, s2, s3⟩ := guess_header_span_spec rows rows_processed hlen
    (rows_processed + 1) (i1 + 1) 1 (by omega) (by omega)
  unfold guess_properties
  rw [h1]
  simp only
  rw [s1]
  simp only
  refine ⟨_, rfl, ?_, ?_, ?_⟩
  · simp only
    split <;> omega
  · simp only
    omega
  · simp only
    intro hlt
    split <;> omega

/-- Witness of claim C40: an empty row, a header row of three text cells and two
rows of three numbers give `skip = 1` and `header_span = 1`. -/
theorem guess_properties_is_sane_witness :
    guess_properties [⟨0, 0, 0, 0, 0⟩, ⟨0, 0, 0, 0, 3⟩, ⟨0, 3, 0, 0, 3⟩, ⟨0, 3, 0, 0, 3⟩] 4 =
      some ⟨1, 1⟩ ∧
    ∃ r, guess_properties [⟨0, 0, 0, 0, 0⟩, ⟨0, 0, 0, 0, 3⟩, ⟨0, 3, 0, 0, 3⟩, ⟨0, 3, 0, 0, 3⟩] 4 =
        some r ∧ 1 ≤ r.header_span ∧ r.skip ≤ 4 ∧ (r.skip < 4 → r.skip + r.header_span ≤ 4) :=
  ⟨by decide,
    guess_properties_is_sane [⟨0, 0, 0, 0, 0⟩, ⟨0, 0, 0, 0, 3⟩, ⟨0, 3, 0, 0, 3⟩, ⟨0, 3, 0, 0, 3⟩]
      4 rfl⟩

/-! ## Claim C36: the values of `prop_arg_value` -/

/-- Claim C36, the failing inputs: for the values `-5` and `4294967296` the
function returns 0 and leaves `*value` as it was, without an error.  The
prefix `0x` and a leading `0` change the base (`0x10` is 16, `010` is 8), and
white space or a plus sign in front of the number is accepted.  The values
`auto`, `none`, `-`, `0` and `5` are answered as the claim says, and `abc`,
the empty string and a missing argument are rejected with the value 1. -/
theorem prop_arg_value_accepts_negative_numbers :
    (∀ v : Int, prop_arg_value (some [45, 53]) v = (0, v)) ∧
    (∀ v : Int, prop_arg_value (some [52, 50, 57, 52, 57, 54, 55, 50, 57, 54]) v = (0, v)) ∧
    prop_arg_value (some [48, 120, 49, 48]) (-1) = (0, 16) ∧
    prop_arg_value (some [48, 49, 48]) (-1) = (0, 8) ∧
    prop_arg_value (some [32, 53]) (-1) = (0, 5) ∧
    prop_arg_value (some [43, 53]) (-1) = (0, 5) ∧
    prop_arg_value (some [97, 117, 116, 111]) (-1) = (0, ZSV_PROP_ARG_AUTO) ∧
    prop_arg_value (some [110, 111, 110, 101]) (-1) = (0, ZSV_PROP_ARG_REMOVE) ∧
    prop_arg_value (some [45]) (-1) = (0, ZSV_PROP_ARG_REMOVE) ∧
    prop_arg_value (some [48]) (-1) = (0, ZSV_PROP_ARG_REMOVE) ∧
    prop_arg_value (some [53]) (-1) = (0, 5) ∧
    prop_arg_value (some [97, 98, 99]) (-1) = (1, -1) ∧
    prop_arg_value (some []) (-1) = (1, -1) ∧
    prop_arg_value none (-1) = (1, -1) := by
  have h1 : strtoimax [45, 53] = (-5, 2) := by decide
  have h2 : strtoimax [52, 50, 57, 52, 57, 54, 55, 50, 57, 54] = (4294967296, 10) := by decide
  refine ⟨?_, ?_, by decide, by decide, by decide, by decide, by decide, by decide, by decide,
    by decide, by decide, by decide, by decide, by decide⟩
  · intro v
    unfold prop_arg_value
    simp only [h1]
    rw [if_neg (by decide), if_neg (by decide), if_pos (by decide), if_neg (by decide),
      if_neg (by decide)]
  · intro v
    unfold prop_arg_value
    simp only [h2]
    rw [if_neg (by decide), if_neg (by decide), if_pos (by decide), if_neg (by decide),
      if_neg (by decide)]

theorem is_digit_in_ten (c : Nat) (h : isdigit c = true) :
    is_digit_in 10 c = true ∧ (digit_of c).getD 0 = c - 48 := by
  unfold isdigit at h
  simp only [Bool.and_eq_true, decide_eq_true_eq] at h
  unfold is_digit_in digit_of
  rw [if_pos h]
  simp only [Option.getD_some, decide_eq_true_eq, and_true]
  omega

theorem digits_in_ten (ds : List Nat) (hd : ∀ b ∈ ds, isdigit b = true) :
    ∀ acc : Nat, ds.foldl (fun a c => a * 10 + (digit_of c).getD 0) acc =
      ds.foldl (fun a c => a * 10 + (c - 48)) acc := by
  induction ds with
  | nil => intro acc; rfl
  | cons c t ih =>
    intro acc
    rw [List.foldl_cons, List.foldl_cons, (is_digit_in_ten c (hd c (List.mem_cons_self c t))).2]
    exact ih (fun b hb => hd b (List.mem_cons_of_mem c hb)) _

theorem takeWhile_all (p : Nat → Bool) (l : List Nat) (h : ∀ b ∈ l, p b = true) :
    l.takeWhile p = l := by
  induction l with
  | nil => rfl
  | cons a t ih =>
    rw [List.takeWhile_cons, h a (List.mem_cons_self a t)]
    simp only [if_true]
    rw [ih (fun b hb => h b (List.mem_cons_of_mem a hb))]

/-- A decimal number without a leading zero is converted as it stands. -/
theorem strtoimax_of_number (ds : List Nat) (hd : is_digits ds) (h0 : ds.head? ≠ some 48)
    (hle : digits_value ds < 2 ^ 63) :
    strtoimax ds = ((digits_value ds : Int), ds.length) := by
  obtain ⟨hne, hall⟩ := hd
  cases ds with
  | nil => exact absurd rfl hne
  | cons c t =>
    have hc : isdigit c = true := hall c (List.mem_cons_self c t)
    have hsp := isdigit_not_isspace c hc
    have hsg := isdigit_not_sign c hc
    simp only [Bool.or_eq_false_iff, beq_eq_false_iff_ne, ne_eq] at hsg
    have hc48 : c ≠ 48 := by
      intro e
      apply h0
      rw [e]
      rfl
    have htw : (c :: t).takeWhile (is_digit_in 10) = c :: t :=
      takeWhile_all _ _ (fun b hb => (is_digit_in_ten b (hall b hb)).1)
    have hval : digits_in 10 (c :: t) = digits_value (c :: t) := by
      unfold digits_in digits_value
      exact digits_in_ten (c :: t) hall 0
    unfold strtoimax
    simp only [List.takeWhile_cons, List.dropWhile_cons, hsp, Bool.false_eq_true, if_false,
      List.head?_cons, Option.some.injEq, hsg.1, hsg.2, hc48, or_self, false_and, List.length_nil,
      Nat.zero_add]
    rw [← List.takeWhile_cons, htw, hval]
    simp only [List.isEmpty_cons, Bool.false_eq_true, if_false, List.length_cons, Prod.mk.injEq,
      and_true]
    have : ((digits_value (c :: t) : Nat) : Int) ≤ 2 ^ 63 - 1 := by
      have h2 : ((digits_value (c :: t) : Nat) : Int) < 2 ^ 63 := by exact_mod_cast hle
      omega
    exact min_eq_left this

/-- What holds of claim C36: a decimal number without a leading zero, with a
value from 1 to `UINT_MAX`, is stored in `*value` and 0 is returned. -/
theorem prop_arg_value_of_number (ds : List Nat) (v : Int) (hd : is_digits ds)
    (h0 : ds.head? ≠ some 48) (hpos : 0 < digits_value ds)
    (hle : (digits_value ds : Int) ≤ UINT_MAX) :
    prop_arg_value (some ds) v = (0, (digits_value ds : Int)) := by
  have hlt : digits_value ds < 2 ^ 63 := by
    unfold UINT_MAX at hle
    have : ((digits_value ds : Nat) : Int) < 2 ^ 63 := by omega
    exact_mod_cast this
  have hs := strtoimax_of_number ds hd h0 hlt
  have hne : ds ≠ [] := hd.1
  have hnd : ∀ x, isdigit x = false → ∀ t, ds ≠ x :: t := by
    intro x hx t e
    have := hd.2 x (by rw [e]; exact List.mem_cons_self x t)
    rw [hx] at this
    cases this
  unfold prop_arg_value
  simp only
  rw [if_neg (hnd 97 (by decide) _), if_neg (by
    rintro (h | h | h)
    · exact hnd 110 (by decide) _ h
    · apply h0; rw [h]; rfl
    · exact hnd 45 (by decide) _ h), hs]
  simp only
  rw [if_pos ⟨hne, trivial⟩, if_neg (by omega), if_pos ⟨by omega, hle⟩]

end Zsv
